import Mathlib

/-!
# Houses-Prices worker: job lock, scheduler, retry policy, orchestration and extraction

A shallow embedding of

* `worker/internal/scheduler/scheduler.go` (`acquireLock`, `releaseLock`, `executeJob`),
* `worker/internal/storage/redis.go` (`AcquireLock`, `ReleaseLock`),
* `worker/internal/pkg/retry/retry.go` (`DefaultConfig`, `Do`),
* `worker/internal/service/scraper_service.go` (`RegisterScraper`, `ScrapeWebsite`),
* `worker/internal/scrape/parser.go` (`ParsePrice`, `ParseInt`, `ParseFloat`, `CleanText`,
  `MakeAbsoluteURL`),
* `worker/internal/scrape/colly_scraper.go` (`extractListing`, `Scrape`),
* `worker/internal/storage/listing_repository.go` (`Save`, `FindByURL`),
* `worker/internal/scrape/site/rumah123.go` (`Scrape`, `detectCaptcha`),
* `worker/internal/api/handlers.go` (`handleTrigger`),

followed by the properties established for them.

Conventions.  A Go `error` is an `Option GoErr` (`none` is `nil`).  The Redis
server is a map from keys to records; each client call additionally receives
the transport outcome of that call (`none` when the server answered, `some e`
when the client library reported the error `e`, in which case the command had
no effect), so that every function below is a pure function of the store and
of those outcomes.  Durations are integers (nanoseconds, as `time.Duration`).
A `float64` is a `Float64`: a rational number, an infinity or a NaN, and every
operation rounds its exact result to the nearest value of 53 significant bits.  A Go
string is the list of its runes.
-/

namespace HousesPrices

/-! ## Go errors -/

/-- A Go error value: a leaf error, or an error produced by `fmt.Errorf` with a
`%w` verb (`wrapNil` when the wrapped operand was `nil`); `msg` is the formatted text
that precedes `: %w`. -/
inductive GoErr where
  | plain (msg : String)
  | wrap (msg : String) (cause : GoErr)
  | wrapNil (msg : String)
  deriving DecidableEq, Repr

namespace GoErr

/-- The result of `errors.Unwrap`. -/
def unwrap : GoErr → Option GoErr
  | wrap _ cause => some cause
  | _ => none

end GoErr

/-! ## `float64` -/

/-- A Go `float64`: a finite value, an infinity or a NaN. The finite values that arise
are the rationals `Float64.nearest` returns; the sign of a zero is not represented. -/
inductive Float64 where
  | finite (q : ℚ)
  | inf (negative : Bool)
  | nan
  deriving DecidableEq

namespace Float64

/-- A numeric literal is the finite value it writes. -/
instance (n : ℕ) : OfNat Float64 n := ⟨finite n⟩

/-- The integer nearest to `x`, the even one of the two when `x` is half-way. -/
def roundEven (x : ℚ) : Int :=
  let f := ⌊x⌋
  let r := x - f
  if r < 1 / 2 then f else if 1 / 2 < r then f + 1 else if f % 2 = 0 then f else f + 1

/-- The IEEE 754 binary64 value nearest to the real number `q`, ties to even: 53
significant bits, least exponent that of the subnormals (a multiple of `2 ^ (-1074)`),
and an infinity when the rounded size reaches `2 ^ 1024`. -/
def nearest (q : ℚ) : Float64 :=
  if q = 0 then finite 0
  else
    let e : Int := max (Int.log 2 |q|) (-1022) - 52
    let v : ℚ := (roundEven (|q| / 2 ^ e) : ℚ) * 2 ^ e
    if (2 : ℚ) ^ (1024 : Int) ≤ v then inf (decide (q < 0))
    else finite (if q < 0 then -v else v)

/-- The rational `q` is a `float64` value: rounding leaves it as it is. -/
def IsValue (q : ℚ) : Prop := nearest q = finite q

instance (q : ℚ) : Decidable (IsValue q) := by
  unfold IsValue
  infer_instance

/-- The product `x * y` of two `float64`. -/
def mul : Float64 → Float64 → Float64
  | finite a, finite b => nearest (a * b)
  | finite a, inf n => if a = 0 then nan else inf (xor n (decide (a < 0)))
  | inf n, finite b => if b = 0 then nan else inf (xor n (decide (b < 0)))
  | inf n, inf m => inf (xor n m)
  | _, _ => nan

/-- The comparison `x < y` of two `float64`; it is false when either is a NaN. -/
def lt : Float64 → Float64 → Bool
  | finite a, finite b => decide (a < b)
  | finite _, inf n => !n
  | inf n, finite _ => n
  | inf n, inf m => n && !m
  | _, _ => false

/-- The conversion `float64(z)` of an integer. -/
def ofInt (z : Int) : Float64 := nearest z

/-- The conversion `int64(x)` of a `float64`, as the amd64 instruction `CVTTSD2SQ`
performs it: the fraction is dropped, and a NaN, an infinity or a value outside the
`int64` range gives `-2 ^ 63`. -/
def toInt64 : Float64 → Int
  | finite q =>
    let t : Int := if 0 ≤ q then ⌊q⌋ else ⌈q⌉
    if -2 ^ 63 ≤ t ∧ t < 2 ^ 63 then t else -2 ^ 63
  | _ => -2 ^ 63

end Float64

namespace math

/-- `math.Pow(x, y)` where `y` is the `float64` of the natural number `k`, below
`2 ^ 53`. The cases `y = 0`, `x = 1`, `y = 1`, NaN, zero and the infinities are the
special cases of the library; for every other base the result is the `float64` nearest
to the power, which is what the multiplication loop of the library returns whenever the
powers it forms are `float64` values. -/
def Pow (x : Float64) (k : Nat) : Float64 :=
  if k = 0 ∨ x = 1 then 1
  else if k = 1 then x
  else
    match x with
    | .nan => .nan
    | .finite q => Float64.nearest (q ^ k)
    | .inf false => .inf false
    | .inf true => .inf (decide (k % 2 = 1))

end math

/-! ## The coordination store -/

/-- One key of the coordination store: its value and the expiry it was set with. -/
structure LockRecord where
  value : String
  ttl : Int
  deriving DecidableEq, Repr

/-- The key space of the coordination store. -/
abbrev Store := String → Option LockRecord

namespace Store

/-- The empty store. -/
def empty : Store := fun _ => none

/-- Redis `SET key value NX` with an expiry: writes only when the key is absent and
reports whether it wrote. -/
def setNX (st : Store) (key value : String) (ttl : Int) : Bool × Store :=
  match st key with
  | none => (true, fun k => if k = key then some ⟨value, ttl⟩ else st k)
  | some _ => (false, st)

/-- Redis `GET key`: `none` stands for the `redis.Nil` reply. -/
def get (st : Store) (key : String) : Option String :=
  (st key).map LockRecord.value

/-- Redis `DEL key`. -/
def del (st : Store) (key : String) : Store :=
  fun k => if k = key then none else st k

end Store

/-- A command sent to the coordination store by the client. -/
inductive Cmd where
  | setNX (key value : String) (ttl : Int)
  | get (key : String)
  | del (key : String)
  deriving DecidableEq, Repr

/-- What a client-side function leaves behind: its Go return value, the store
afterwards, and the commands it sent, oldest first. -/
structure Outcome (α : Type) where
  ret : α
  store : Store
  sent : List Cmd

/-! ## `scheduler.go`: the lock operations -/

/-- `Scheduler.acquireLock`: `SetNX(key, workerID, expiry)`; a transport error is
wrapped and reported with `false`. `reply` is the transport outcome of the `SetNX`. -/
def acquireLock (workerID : String) (reply : Option GoErr) (st : Store) (key : String)
    (expiry : Int) : Outcome (Bool × Option GoErr) :=
  match reply with
  | some err =>
    ⟨(false, some (GoErr.wrap "acquiring lock" err)), st, [Cmd.setNX key workerID expiry]⟩
  | none =>
    let r := st.setNX key workerID expiry
    ⟨(r.1, none), r.2, [Cmd.setNX key workerID expiry]⟩

/-- `Scheduler.releaseLock`: read the key, return `nil` on `redis.Nil`, delete the key
only when the value read is this worker's identifier. `getReply` and `delReply` are
the transport outcomes of the `Get` and of the `Del`. -/
def releaseLock (workerID : String) (getReply delReply : Option GoErr) (st : Store)
    (key : String) : Outcome (Option GoErr) :=
  match getReply with
  | some err => ⟨some (GoErr.wrap "checking lock" err), st, [Cmd.get key]⟩
  | none =>
    match st.get key with
    | none => ⟨none, st, [Cmd.get key]⟩
    | some val =>
      if val = workerID then
        match delReply with
        | some err =>
          ⟨some (GoErr.wrap "releasing lock" err), st, [Cmd.get key, Cmd.del key]⟩
        | none => ⟨none, st.del key, [Cmd.get key, Cmd.del key]⟩
      else ⟨none, st, [Cmd.get key]⟩

/-! ## `storage/redis.go`: the lock helpers of the Redis wrapper -/

namespace Redis

/-- `Redis.AcquireLock`: `SetNX(key, "locked", expiry)`. -/
def AcquireLock (reply : Option GoErr) (st : Store) (key : String) (expiry : Int) :
    Outcome (Bool × Option GoErr) :=
  match reply with
  | some err =>
    ⟨(false, some (GoErr.wrap "acquiring lock" err)), st, [Cmd.setNX key "locked" expiry]⟩
  | none =>
    let r := st.setNX key "locked" expiry
    ⟨(r.1, none), r.2, [Cmd.setNX key "locked" expiry]⟩

/-- `Redis.ReleaseLock`: `Del(key)`, whatever the key holds. -/
def ReleaseLock (reply : Option GoErr) (st : Store) (key : String) : Outcome (Option GoErr) :=
  match reply with
  | some err => ⟨some (GoErr.wrap "releasing lock" err), st, [Cmd.del key]⟩
  | none => ⟨none, st.del key, [Cmd.del key]⟩

end Redis

/-! ## `scheduler.go`: the job body -/

/-- How the call `s.service.ScrapeWebsite(ctx, siteName, url)` ends. -/
inductive ScrapeOutcome where
  | ok
  | failed (err : GoErr)
  | panicked
  deriving DecidableEq, Repr

/-- An observable action of `executeJob`, in program order. -/
inductive Effect where
  | log (level msg : String)
  | cmd (c : Cmd)
  | scrape (site url : String)
  deriving DecidableEq, Repr

/-- Transport outcomes of the three store calls `executeJob` can make. -/
structure Replies where
  lock : Option GoErr
  get : Option GoErr
  del : Option GoErr

/-- The state `executeJob` leaves: the store, the actions performed, and whether the
call unwound with a panic (it has no Go return value). -/
structure JobRun where
  store : Store
  trace : List Effect
  panicked : Bool

/-- `fmt.Sprintf("job:lock:%s", siteName)`. -/
def lockKey (siteName : String) : String := "job:lock:" ++ siteName

/-- `10 * time.Minute`, in nanoseconds. -/
def lockExpiry : Int := 10 * (60 * 1000000000)

/-- The log lines that follow the return of `ScrapeWebsite`. -/
def afterScrape : ScrapeOutcome → List Effect
  | .ok => [Effect.log "info" "job completed"]
  | .failed _ => [Effect.log "error" "job failed"]
  | .panicked => []

/-- `Scheduler.executeJob`. `outcome` is how `ScrapeWebsite` ends when it is called and
`during` is what the other users of the store do to it while `ScrapeWebsite` runs. The
deferred function runs on every exit taken after the lock was acquired. -/
def executeJob (workerID siteName url : String) (rep : Replies) (outcome : ScrapeOutcome)
    (during : Store → Store) (st : Store) : JobRun :=
  let key := lockKey siteName
  let acq := acquireLock workerID rep.lock st key lockExpiry
  let t0 := Effect.log "info" "job triggered" :: acq.sent.map Effect.cmd
  match acq.ret with
  | (_, some _) => ⟨acq.store, t0 ++ [Effect.log "error" "failed to acquire lock"], false⟩
  | (false, none) =>
    ⟨acq.store, t0 ++ [Effect.log "info" "job already running on another worker"], false⟩
  | (true, none) =>
    let body := [Effect.log "info" "job started", Effect.scrape siteName url] ++
      afterScrape outcome
    let rel := releaseLock workerID rep.get rep.del (during acq.store) key
    let deferred := rel.sent.map Effect.cmd ++
      (match rel.ret with
       | some _ => [Effect.log "error" "failed to release lock"]
       | none => [])
    ⟨rel.store, t0 ++ body ++ deferred, outcome == ScrapeOutcome.panicked⟩

/-! ## Several workers on one store -/

/-- Where one worker is in the `executeJob` of one site. -/
inductive PC where
  | idle
  | running
  | releasing
  | deleting
  deriving DecidableEq, Repr

/-- The shared store and, for every worker and site, the position of that worker's
job body. -/
structure Cluster where
  store : Store
  pc : Nat → String → PC

namespace Cluster

/-- Move worker `w`'s job for `site` to position `p`. -/
def setPC (c : Cluster) (w : Nat) (site : String) (p : PC) : Cluster :=
  { c with pc := fun w' s' => if w' = w ∧ s' = site then p else c.pc w' s' }

/-- Every job body idle over the store `st`. -/
def init (st : Store) : Cluster := ⟨st, fun _ _ => PC.idle⟩

end Cluster

/-- One atomic step of one worker's `executeJob`, with the transport outcome of the
store call it makes. -/
inductive Event where
  | trigger (w : Nat) (site : String) (reply : Option GoErr)
  | scraped (w : Nat) (site : String)
  | releaseGet (w : Nat) (site : String) (reply : Option GoErr)
  | releaseDel (w : Nat) (site : String) (reply : Option GoErr)

/-- The effect of one event. `trigger` is the cron firing up to the return of
`acquireLock` (the chain's `SkipIfStillRunning` drops a firing whose predecessor has
not returned); `scraped` is the return of `ScrapeWebsite`; `releaseGet` and
`releaseDel` are the `Get` and the `Del` of the deferred `releaseLock`. An event that
is not enabled leaves the cluster as it is. -/
def step (wid : Nat → String) (c : Cluster) : Event → Cluster
  | .trigger w site reply =>
    if c.pc w site = PC.idle then
      let acq := acquireLock (wid w) reply c.store (lockKey site) lockExpiry
      match acq.ret with
      | (true, none) => Cluster.setPC ⟨acq.store, c.pc⟩ w site PC.running
      | _ => ⟨acq.store, c.pc⟩
    else c
  | .scraped w site =>
    if c.pc w site = PC.running then c.setPC w site PC.releasing else c
  | .releaseGet w site reply =>
    if c.pc w site = PC.releasing then
      match reply with
      | some _ => c.setPC w site PC.idle
      | none =>
        match c.store.get (lockKey site) with
        | none => c.setPC w site PC.idle
        | some val =>
          if val = wid w then c.setPC w site PC.deleting else c.setPC w site PC.idle
    else c
  | .releaseDel w site reply =>
    if c.pc w site = PC.deleting then
      match reply with
      | some _ => c.setPC w site PC.idle
      | none => Cluster.setPC ⟨c.store.del (lockKey site), c.pc⟩ w site PC.idle
    else c

/-- The cluster after a schedule of events, starting with every job body idle. -/
def run (wid : Nat → String) (st : Store) (evs : List Event) : Cluster :=
  evs.foldl (step wid) (Cluster.init st)

/-- Worker `w` is between a successful `acquireLock` and the end of its `releaseLock`
for `site`. -/
def holds (c : Cluster) (w : Nat) (site : String) : Prop := c.pc w site ≠ PC.idle

instance (c : Cluster) (w : Nat) (site : String) : Decidable (holds c w site) := by
  unfold holds; infer_instance

/-- Every job body that is past a successful `acquireLock` finds its own identifier
under the lock key of its site. -/
def LockInv (wid : Nat → String) (c : Cluster) : Prop :=
  ∀ w site, c.pc w site ≠ PC.idle → c.store.get (lockKey site) = some (wid w)

/-- The identifiers used in the examples: worker `n` is named by `n` letters `w`. -/
def exampleWorkerID (n : Nat) : String := String.mk (List.replicate n 'w')

/-! ## `pkg/retry/retry.go` -/

namespace retry

/-- `retry.Config`. -/
structure Config where
  MaxAttempts : Int
  InitialDelay : Int
  MaxDelay : Int
  Multiplier : Float64

/-- `retry.DefaultConfig`: 3 attempts, 1 s, 30 s, factor 2. -/
def DefaultConfig : Config :=
  { MaxAttempts := 3
    InitialDelay := 1 * 1000000000
    MaxDelay := 30 * 1000000000
    Multiplier := 2 }

/-- What `Do` sees of its `context.Context`: whether `ctx.Done()` is ready at the check
that opens attempt `k`, whether the `ctx.Done()` case is the one taken by the `select`
that follows attempt `k`, and the value of `ctx.Err()`. -/
structure Context where
  doneBefore : Nat → Bool
  doneDuring : Nat → Bool
  err : GoErr

/-- A context that is never cancelled. -/
def Context.background : Context := ⟨fun _ => false, fun _ => false, GoErr.plain "unused"⟩

/-- The backoff of `Do` after the failed attempt `attempt`:
`float64(InitialDelay) * math.Pow(Multiplier, float64(attempt-1))`, replaced by
`float64(MaxDelay)` when greater, converted to a `time.Duration`. -/
def backoff (cfg : Config) (attempt : Nat) : Int :=
  let delay := Float64.mul (Float64.ofInt cfg.InitialDelay) (math.Pow cfg.Multiplier (attempt - 1))
  let delay := if Float64.lt (Float64.ofInt cfg.MaxDelay) delay then Float64.ofInt cfg.MaxDelay
    else delay
  Float64.toInt64 delay

/-- The progress of one call of `Do`: the state the operation works on, how many times
the operation was invoked, and the delay of every timer started, oldest first. -/
structure Progress (σ : Type) where
  state : σ
  calls : Nat
  waits : List Int

/-- The return value of `Do` together with its progress. -/
structure Result (σ : Type) where
  err : Option GoErr
  progress : Progress σ

/-- The error returned after the loop:
`fmt.Errorf("max retry attempts (%d) exceeded: %w", cfg.MaxAttempts, lastErr)`. -/
def exhausted (cfg : Config) (lastErr : Option GoErr) : GoErr :=
  let msg := "max retry attempts (" ++ toString cfg.MaxAttempts ++ ") exceeded"
  match lastErr with
  | some e => GoErr.wrap msg e
  | none => GoErr.wrapNil msg

/-- The `for attempt := ...; attempt <= cfg.MaxAttempts; attempt++` loop of `Do`
followed by the final `return`. The operation `fn` is a function of the state it works
on. The first argument bounds the number of iterations left. -/
def Do.loop {σ : Type} (ctx : Context) (cfg : Config) (fn : σ → Option GoErr × σ) :
    Nat → Nat → Option GoErr → Progress σ → Result σ
  | 0, _, lastErr, p => ⟨some (exhausted cfg lastErr), p⟩
  | fuel + 1, attempt, lastErr, p =>
    if (attempt : Int) ≤ cfg.MaxAttempts then
      if ctx.doneBefore attempt then ⟨some ctx.err, p⟩
      else
        let out := fn p.state
        let p1 : Progress σ := ⟨out.2, p.calls + 1, p.waits⟩
        match out.1 with
        | none => ⟨none, p1⟩
        | some err =>
          if (attempt : Int) = cfg.MaxAttempts then ⟨some (exhausted cfg (some err)), p1⟩
          else
            let p2 : Progress σ := ⟨p1.state, p1.calls, p1.waits ++ [backoff cfg attempt]⟩
            if ctx.doneDuring attempt then ⟨some ctx.err, p2⟩
            else Do.loop ctx cfg fn fuel (attempt + 1) (some err) p2
    else ⟨some (exhausted cfg lastErr), p⟩

/-- `retry.Do`, run on an operation that starts in state `s`. -/
def Do {σ : Type} (ctx : Context) (cfg : Config) (fn : σ → Option GoErr × σ) (s : σ) :
    Result σ :=
  Do.loop ctx cfg fn cfg.MaxAttempts.toNat 1 none ⟨s, 0, []⟩

/-- The state of the operation after `k` invocations. -/
def stateAfter {σ : Type} (fn : σ → Option GoErr × σ) (k : Nat) (s : σ) : σ :=
  (fun x => (fn x).2)^[k] s

/-- The error returned by invocation number `k` (counted from 1) of the operation. -/
def errorOfCall {σ : Type} (fn : σ → Option GoErr × σ) (k : Nat) (s : σ) : Option GoErr :=
  (fn (stateAfter fn (k - 1) s)).1

/-- An operation for the examples: it counts its invocations and fails on each of them
with an error that carries the number of the invocation. -/
def alwaysFails (n : Nat) : Option GoErr × Nat :=
  (some (GoErr.plain ("failure " ++ toString (n + 1))), n + 1)

/-- An operation for the examples: it counts its invocations and succeeds on
invocation `k` only. -/
def succeedsAt (k : Nat) (n : Nat) : Option GoErr × Nat :=
  (if n + 1 = k then none else some (GoErr.plain ("failure " ++ toString (n + 1))), n + 1)

end retry

end HousesPrices

namespace HousesPrices

/-! ## `model/listing.go`, `model/scrape_result.go` -/

/-- `model.Listing`. The `time.Time` fields are nanoseconds since the epoch. -/
structure Listing where
  ID : String
  SiteName : String
  URL : String
  Title : String
  Price : Float64
  Location : String
  Bedrooms : Int
  Bathrooms : Int
  LandArea : Float64
  BuildingArea : Float64
  Description : String
  Images : List String
  AgentName : String
  AgentPhone : String
  ScrapedAt : Int
  UpdatedAt : Int
  CreatedAt : Int
  deriving DecidableEq

/-- `model.ScrapeResult`. -/
structure ScrapeResult where
  SiteName : String
  URL : String
  Listings : List Listing
  TotalFound : Int
  TotalScraped : Int
  ErrorCount : Int
  Errors : List String
  Duration : ℚ
  NextPageURL : String
  HasNextPage : Bool
  deriving DecidableEq

/-! ## `service/scraper_service.go` -/

namespace service

/-- The `Scraper` interface: the return value of `Scrape(ctx, url)`. -/
abbrev Scraper := String → Except GoErr ScrapeResult

/-- A call that `ScrapeWebsite` makes on a collaborator, with what came back. -/
inductive Call where
  | log (level msg : String)
  | scrape (siteName url : String)
  | save (listing : Listing) (err : Option GoErr)
  | notifyError (siteName : String) (err : GoErr)
  | notifySuccess (siteName : String) (count : Int)
  deriving DecidableEq

/-- `ScraperService` over a repository with states `ρ`: the `scrapers` map, whether
`notifier` is non-nil, and `repository.Save`. -/
structure ScraperService (ρ : Type) where
  scrapers : String → Option Scraper
  hasNotifier : Bool
  save : ρ → Listing → Option GoErr × ρ

/-- `NewScraperService`: no scraper registered. -/
def NewScraperService {ρ : Type} (save : ρ → Listing → Option GoErr × ρ) (hasNotifier : Bool) :
    ScraperService ρ :=
  ⟨fun _ => none, hasNotifier, save⟩

/-- `ScraperService.RegisterScraper`: `s.scrapers[name] = scraper`. -/
def RegisterScraper {ρ : Type} (s : ScraperService ρ) (name : String) (scraper : Scraper) :
    ScraperService ρ :=
  { s with scrapers := fun n => if n = name then some scraper else s.scrapers n }

/-- What a call of `ScrapeWebsite` leaves: its return value, the repository and the
calls made, oldest first. -/
structure Run (ρ : Type) where
  err : Option GoErr
  repo : ρ
  calls : List Call

/-- The loop `for _, listing := range result.Listings` of `ScrapeWebsite`: the repository,
`savedCount` and the calls made, after the listings given. -/
def saveEach {ρ : Type} (s : ScraperService ρ) (siteName : String) :
    List Listing → ρ → Int → List Call → ρ × Int × List Call
  | [], repo, savedCount, calls => (repo, savedCount, calls)
  | listing :: rest, repo, savedCount, calls =>
    let listing := { listing with SiteName := siteName }
    let out := s.save repo listing
    match out.1 with
    | some err =>
      saveEach s siteName rest out.2 savedCount
        (calls ++ [Call.save listing (some err), Call.log "error" "failed to save listing"])
    | none =>
      saveEach s siteName rest out.2 (savedCount + 1) (calls ++ [Call.save listing none])

/-- `ScraperService.ScrapeWebsite`. -/
def ScrapeWebsite {ρ : Type} (s : ScraperService ρ) (repo : ρ) (siteName url : String) : Run ρ :=
  match s.scrapers siteName with
  | none => ⟨some (GoErr.plain ("scraper not found for site: " ++ siteName)), repo, []⟩
  | some scraper =>
    let calls := [Call.log "info" "starting scrape job", Call.scrape siteName url]
    match scraper url with
    | .error err =>
      ⟨some (GoErr.wrap ("scraping " ++ siteName) err), repo,
        calls ++ (if s.hasNotifier then [Call.notifyError siteName err] else [])⟩
    | .ok result =>
      let saved := saveEach s siteName result.Listings repo 0 calls
      ⟨none, saved.1,
        saved.2.2 ++ [Call.log "info" "scrape job completed"] ++
          (if s.hasNotifier then [Call.notifySuccess siteName saved.2.1] else [])⟩

/-- The listing handed to `Save` by a call, if the call is a `Save`. -/
def Call.savedListing : Call → Option Listing
  | .save listing _ => some listing
  | _ => none

/-- The listing handed to `Save` by a call together with what `Save` returned, if the
call is a `Save`. -/
def Call.saveOutcome : Call → Option (Listing × Option GoErr)
  | .save listing err => some (listing, err)
  | _ => none

/-- The call is a `Save` that returned `nil`. -/
def Call.isSavedOk : Call → Bool
  | .save _ none => true
  | _ => false

/-- The call is a `NotifyError` or a `NotifySuccess`. -/
def Call.isNotification : Call → Bool
  | .notifyError _ _ => true
  | .notifySuccess _ _ => true
  | _ => false

/-- The call is a `Scrape`. -/
def Call.isScrape : Call → Bool
  | .scrape _ _ => true
  | _ => false

/-- A listing for the examples, with the given URL. -/
def exampleListing (url : String) : Listing :=
  { ID := "", SiteName := "", URL := url, Title := "Rumah", Price := 500000000,
    Location := "Jakarta", Bedrooms := 3, Bathrooms := 2, LandArea := 100,
    BuildingArea := 80, Description := "", Images := [], AgentName := "", AgentPhone := "",
    ScrapedAt := 0, UpdatedAt := 0, CreatedAt := 0 }

/-- A scrape result for the examples, with the given listings. -/
def exampleResult (listings : List Listing) : ScrapeResult :=
  { SiteName := "rumah123", URL := "https://www.rumah123.com/jual", Listings := listings,
    TotalFound := listings.length, TotalScraped := listings.length, ErrorCount := 0,
    Errors := [], Duration := 1, NextPageURL := "", HasNextPage := false }

/-- An extractor for the examples: it returns one listing for each of the URLs. -/
def exampleScraper (urls : List String) : Scraper :=
  fun _ => .ok (exampleResult (urls.map exampleListing))

/-- A repository for the examples: the list of the listings saved, where `Save` fails
on the listing whose URL is `bad`. -/
def exampleSave (bad : String) (repo : List Listing) (listing : Listing) :
    Option GoErr × List Listing :=
  if listing.URL = bad then (some (GoErr.plain "saving listing"), repo)
  else (none, repo ++ [listing])

end service

end HousesPrices


namespace HousesPrices

/-! ## Go strings

A Go string is the list of its runes. The functions of the packages `strings`,
`regexp` and `strconv` that `parser.go` calls are written out for the arguments it
passes. -/

/-- An ASCII decimal digit, the class `\d` of Go regular expressions. -/
def isDigit (c : Char) : Bool := decide (48 ≤ c.toNat ∧ c.toNat ≤ 57)

/-- The lower-case form of an ASCII capital, every other rune unchanged: the case
folding `(?i)` applies to the letters of `miliar`, `m` and `juta`. -/
def asciiLower (c : Char) : Char :=
  if 65 ≤ c.toNat ∧ c.toNat ≤ 90 then Char.ofNat (c.toNat + 32) else c

namespace strings

/-- `unicode.IsSpace`. -/
def isSpace (c : Char) : Bool :=
  [9, 10, 11, 12, 13, 32, 0x85, 0xA0, 0x1680, 0x2028, 0x2029, 0x202F, 0x205F, 0x3000].contains
    c.toNat || decide (0x2000 ≤ c.toNat ∧ c.toNat ≤ 0x200A)

/-- `unicode.ToLower` on the runes whose lower-case form is an ASCII letter (the ASCII
capitals, U+0130 and U+212A); the other runes, whose lower-case form is not ASCII, are
left as they are. -/
def toLowerRune (c : Char) : Char :=
  if 65 ≤ c.toNat ∧ c.toNat ≤ 90 then Char.ofNat (c.toNat + 32)
  else if c.toNat = 0x130 then 'i'
  else if c.toNat = 0x212A then 'k'
  else c

/-- `strings.ToLower`. -/
def ToLower (s : List Char) : List Char := s.map toLowerRune

/-- `strings.Contains`. -/
def Contains : List Char → List Char → Bool
  | [], substr => substr.isEmpty
  | c :: rest, substr => substr.isPrefixOf (c :: rest) || Contains rest substr

/-- `strings.HasPrefix`. -/
def HasPrefix (s pre : List Char) : Bool := pre.isPrefixOf s

/-- The scan of `strings.ReplaceAll` for a non-empty `old`: the second argument counts
the runes of the current occurrence of `old` still to be skipped. -/
def ReplaceAll.go (old new : List Char) : List Char → Nat → List Char
  | [], _ => []
  | _ :: rest, skip + 1 => ReplaceAll.go old new rest skip
  | c :: rest, 0 =>
    if old.isPrefixOf (c :: rest) then new ++ ReplaceAll.go old new rest (old.length - 1)
    else c :: ReplaceAll.go old new rest 0

/-- `strings.ReplaceAll(s, old, new)` for a non-empty `old`: the non-overlapping
occurrences of `old`, found from the left, are replaced by `new`. -/
def ReplaceAll (s old new : List Char) : List Char := ReplaceAll.go old new s 0

/-- `strings.TrimSpace`. -/
def TrimSpace (s : List Char) : List Char :=
  ((s.dropWhile isSpace).reverse.dropWhile isSpace).reverse

end strings

namespace regexp

/-- `ReplaceAllString(s, "")` for a pattern that matches no empty string: `matchLen`
gives the length of the match that starts at the head of its argument, 0 when there
is none; the second argument counts the runes of the current match still to be
skipped. -/
def removeAll (matchLen : List Char → Nat) : List Char → Nat → List Char
  | [], _ => []
  | _ :: rest, skip + 1 => removeAll matchLen rest skip
  | c :: rest, 0 =>
    match matchLen (c :: rest) with
    | 0 => c :: removeAll matchLen rest 0
    | k + 1 => removeAll matchLen rest k

/-- The text `s` starts with the lower-case ASCII word `word` in some letter case. -/
def foldPrefix (word s : List Char) : Bool := word.isPrefixOf (s.map asciiLower)

/-- The pattern `(?i)(miliar|m)`: the first alternative is preferred. -/
def miliarOrM (s : List Char) : Nat :=
  if foldPrefix "miliar".data s then 6 else if foldPrefix "m".data s then 1 else 0

/-- The pattern `(?i)juta`. -/
def juta (s : List Char) : Nat := if foldPrefix "juta".data s then 4 else 0

/-- `FindString` for a pattern `[...]+`: the first maximal run of runes of the class,
empty when there is none. -/
def findRun (cls : Char → Bool) (s : List Char) : List Char :=
  (s.dropWhile (fun c => !cls c)).takeWhile cls

end regexp

namespace strconv

/-- The number written by a list of decimal digits, most significant first. -/
def digitsValue (ds : List Char) : Nat :=
  ds.foldl (fun acc c => 10 * acc + (c.toNat - 48)) 0

/-- The error of `strconv.ParseFloat` on a text that is not a number. -/
def syntaxError (s : List Char) : GoErr :=
  GoErr.plain ("strconv.ParseFloat: parsing \"" ++ String.mk s ++ "\": invalid syntax")

/-- The error of `strconv.ParseFloat` on a number too large for a `float64`. -/
def rangeError (s : List Char) : GoErr :=
  GoErr.plain ("strconv.ParseFloat: parsing \"" ++ String.mk s ++ "\": value out of range")

/-- The result of `strconv.ParseFloat(s, 64)` on a text `s` that writes the number `q`:
the `float64` nearest to `q`, or the range error when that is an infinity. -/
def rounded (s : List Char) (q : ℚ) : Except GoErr Float64 :=
  match Float64.nearest q with
  | .finite v => .ok (.finite v)
  | _ => .error (rangeError s)

/-- `strconv.ParseFloat(s, 64)` on the texts its callers pass, which are made of digits
and dots (or of digits only): digits, then optionally a dot and digits, with a digit
somewhere; anything else is a syntax error. -/
def ParseFloat (s : List Char) : Except GoErr Float64 :=
  let whole := s.takeWhile isDigit
  match s.dropWhile isDigit with
  | [] => if whole = [] then .error (syntaxError s) else rounded s (digitsValue whole)
  | c :: frac =>
    if c = '.' ∧ frac.all isDigit ∧ (whole ≠ [] ∨ frac ≠ []) then
      rounded s ((digitsValue whole : ℚ) + (digitsValue frac : ℚ) / 10 ^ frac.length)
    else .error (syntaxError s)

end strconv

/-! ## `scrape/parser.go` -/

namespace scrape

/-- The class `[\d,]` of the pattern that `ParsePrice` searches for. -/
def digitOrComma (c : Char) : Bool := isDigit c || c == ','

/-- The first step of `ParsePrice`: `"Rp"`, the spaces and the dots are removed and the
result is trimmed. -/
def stripCurrency (s : List Char) : List Char :=
  let s := strings.ReplaceAll s "Rp".data []
  let s := strings.ReplaceAll s " ".data []
  let s := strings.ReplaceAll s ".".data []
  strings.TrimSpace s

/-- The second step of `ParsePrice`: the multiplier chosen and the text with the
magnitude words removed. -/
def magnitude (s : List Char) : Float64 × List Char :=
  if strings.Contains (strings.ToLower s) "miliar".data ||
      strings.Contains (strings.ToLower s) "m".data then
    (1000000000, regexp.removeAll regexp.miliarOrM s 0)
  else if strings.Contains (strings.ToLower s) "juta".data then
    (1000000, regexp.removeAll regexp.juta s 0)
  else (1, s)

/-- `ParsePrice`: the `float64` and the error it returns. -/
def ParsePrice (s : String) : Float64 × Option GoErr :=
  if s = "" then (0, some (GoErr.plain "empty price string"))
  else
    let s := stripCurrency s.data
    let scaled := magnitude s
    let multiplier := scaled.1
    let s := strings.TrimSpace scaled.2
    let found := regexp.findRun digitOrComma s
    if found = [] then
      (0, some (GoErr.plain ("no numeric value found in: " ++ String.mk s)))
    else
      let found := strings.ReplaceAll found ",".data []
      match strconv.ParseFloat found with
      | .error err => (0, some (GoErr.wrap "parsing number" err))
      | .ok num => (Float64.mul num multiplier, none)

/-- The decimal digits of `ds` with a dot before every group of three digits that
follows: `1000000` gives `1.000.000`. -/
def withDots : List Char → List Char
  | [] => []
  | c :: rest =>
    if rest.length % 3 = 0 ∧ rest ≠ [] then c :: '.' :: withDots rest else c :: withDots rest

end scrape

end HousesPrices


namespace HousesPrices

/-- The text of `err.Error()`. -/
def GoErr.text : GoErr → String
  | .plain msg => msg
  | .wrap msg cause => msg ++ ": " ++ cause.text
  | .wrapNil msg => msg ++ ": %!w(<nil>)"

namespace scrape

/-- The class `\s` of Go regular expressions: tab, newline, form feed, carriage return
and space. -/
def isReSpace (c : Char) : Bool := [9, 10, 12, 13, 32].contains c.toNat

/-- `ReplaceAllString(s, " ")` for the pattern `\s+`: every run of `\s` runes becomes one
space. The flag tells that the previous rune belonged to a run. -/
def collapseSpaces : Bool → List Char → List Char
  | _, [] => []
  | inRun, c :: rest =>
    if isReSpace c then
      if inRun then collapseSpaces true rest else ' ' :: collapseSpaces true rest
    else c :: collapseSpaces false rest

/-- `CleanText`. -/
def CleanText (s : String) : String :=
  String.mk (strings.TrimSpace (collapseSpaces false s.data))

/-- `ParseInt`: the first run of digits, 0 when there is none or when `strconv.Atoi`
rejects it (a value above the largest `int`). -/
def ParseInt (s : String) : Int :=
  let s := strings.TrimSpace s.data
  let found := regexp.findRun isDigit s
  if found = [] then 0
  else if strconv.digitsValue found ≤ 9223372036854775807 then (strconv.digitsValue found : Int)
  else 0

/-- The class `[\d.]` of the pattern that `ParseFloat` searches for. -/
def digitOrDot (c : Char) : Bool := isDigit c || c == '.'

/-- `ParseFloat`. -/
def ParseFloat (s : String) : Float64 :=
  let s := strings.TrimSpace s.data
  let s := strings.ReplaceAll s ".".data []
  let s := strings.ReplaceAll s ",".data ".".data
  let found := regexp.findRun digitOrDot s
  if found = [] then 0
  else
    match strconv.ParseFloat found with
    | .error _ => 0
    | .ok num => num

/-- `FindString` for the pattern `^(https?://[^/]+)`. -/
def findOrigin (baseURL : List Char) : List Char :=
  if strings.HasPrefix baseURL "https://".data then
    let host := (baseURL.drop 8).takeWhile (fun c => c != '/')
    if host = [] then [] else "https://".data ++ host
  else if strings.HasPrefix baseURL "http://".data then
    let host := (baseURL.drop 7).takeWhile (fun c => c != '/')
    if host = [] then [] else "http://".data ++ host
  else []

/-- `MakeAbsoluteURL`. -/
def MakeAbsoluteURL (baseURL relativeURL : String) : String :=
  if strings.HasPrefix relativeURL.data "http".data then relativeURL
  else if strings.HasPrefix relativeURL.data "/".data then
    let found := findOrigin baseURL.data
    if found ≠ [] then String.mk found ++ relativeURL else relativeURL
  else relativeURL

/-- `config.SelectorConfig`. -/
structure SelectorConfig where
  ListItem : String
  Title : String
  Price : String
  Location : String
  DetailURL : String
  Bedrooms : String
  Bathrooms : String
  LandArea : String
  BuildingArea : String
  Description : String
  Images : String
  AgentName : String
  AgentPhone : String
  NextPage : String

/-- The fields of `config.SiteConfig` that the scraper reads after its construction. -/
structure SiteConfig where
  Name : String
  Selectors : SelectorConfig

/-- What `extractListing` reads of a `colly.HTMLElement`: `ChildText(selector)`,
`ChildAttr(selector, attr)`, `Attr(name)`, `Request.URL.String()`,
`Request.AbsoluteURL(u)` and, for `ForEach(selector, f)`, the `Attr` of every element
handed to `f`, in order. -/
structure HTMLElement where
  ChildText : String → String
  ChildAttr : String → String → String
  Attr : String → String
  RequestURL : String
  AbsoluteURL : String → String
  ForEach : String → List (String → String)

/-- The body of the `ForEach` callback of `extractListing`, over the images matched. -/
def collectImages (requestURL : String) : List (String → String) → List String
  | [] => []
  | img :: rest =>
    let src := img "src"
    let src := if src = "" then img "data-src" else src
    if src ≠ "" then MakeAbsoluteURL requestURL src :: collectImages requestURL rest
    else collectImages requestURL rest

/-- `CollyScraper.extractListing`; `now` is the value of `time.Now()`. -/
def extractListing (cfg : SiteConfig) (now : Int) (e : HTMLElement) : Except GoErr Listing :=
  let sel := cfg.Selectors
  let title := CleanText (e.ChildText sel.Title)
  if title = "" then .error (GoErr.plain "missing title")
  else
    let priceText := CleanText (e.ChildText sel.Price)
    let parsed := ParsePrice priceText
    match parsed.2 with
    | some err => .error (GoErr.wrap "parsing price" err)
    | none =>
      let price := parsed.1
      let location := CleanText (e.ChildText sel.Location)
      if location = "" then .error (GoErr.plain "missing location")
      else
        let detailURL := e.ChildAttr sel.DetailURL "href"
        let detailURL :=
          if detailURL = "" then e.AbsoluteURL (e.Attr "href")
          else MakeAbsoluteURL e.RequestURL detailURL
        if detailURL = "" then .error (GoErr.plain "missing detail URL")
        else
          .ok
            { ID := ""
              SiteName := cfg.Name
              URL := detailURL
              Title := title
              Price := price
              Location := location
              Bedrooms := if sel.Bedrooms ≠ "" then ParseInt (e.ChildText sel.Bedrooms) else 0
              Bathrooms := if sel.Bathrooms ≠ "" then ParseInt (e.ChildText sel.Bathrooms) else 0
              LandArea := if sel.LandArea ≠ "" then ParseFloat (e.ChildText sel.LandArea) else 0
              BuildingArea :=
                if sel.BuildingArea ≠ "" then ParseFloat (e.ChildText sel.BuildingArea) else 0
              Description :=
                if sel.Description ≠ "" then CleanText (e.ChildText sel.Description) else ""
              Images := if sel.Images ≠ "" then collectImages e.RequestURL (e.ForEach sel.Images)
                else []
              AgentName := if sel.AgentName ≠ "" then CleanText (e.ChildText sel.AgentName) else ""
              AgentPhone :=
                if sel.AgentPhone ≠ "" then CleanText (e.ChildText sel.AgentPhone) else ""
              ScrapedAt := now
              UpdatedAt := now
              CreatedAt := 0 }

/-- The `OnHTML(ListItem, ...)` callback of `Scrape`, applied to one candidate. -/
def onListItem (cfg : SiteConfig) (now : Int) (result : ScrapeResult) (e : HTMLElement) :
    ScrapeResult :=
  match extractListing cfg now e with
  | .error err =>
    { result with Errors := result.Errors ++ [err.text], ErrorCount := result.ErrorCount + 1 }
  | .ok listing =>
    { result with
      Listings := result.Listings ++ [listing], TotalScraped := result.TotalScraped + 1 }

/-- The `OnHTML(NextPage, ...)` callback of `Scrape`, applied to one element. -/
def onNextPage (url : String) (result : ScrapeResult) (e : HTMLElement) : ScrapeResult :=
  let nextURL := e.Attr "href"
  if nextURL ≠ "" then
    { result with NextPageURL := MakeAbsoluteURL url nextURL, HasNextPage := true }
  else result

/-- `CollyScraper.Scrape`. `visit` is `c.Visit(url)` as an operation on the state `v`;
`items` and `nextLinks` are the elements the collector hands to the two `OnHTML`
callbacks, in document order; `now` is the clock and `elapsed` the duration. -/
def Scrape {σ : Type} (cfg : SiteConfig) (ctx : retry.Context) (url : String)
    (visit : σ → Option GoErr × σ) (v : σ) (items nextLinks : List HTMLElement) (now : Int)
    (elapsed : ℚ) : Except GoErr ScrapeResult :=
  let result : ScrapeResult :=
    { SiteName := cfg.Name, URL := url, Listings := [], TotalFound := 0, TotalScraped := 0,
      ErrorCount := 0, Errors := [], Duration := 0, NextPageURL := "", HasNextPage := false }
  match (retry.Do ctx retry.DefaultConfig visit v).err with
  | some err => .error (GoErr.wrap "visiting url" err)
  | none =>
    let result := items.foldl (onListItem cfg now) result
    let result := nextLinks.foldl (onNextPage url) result
    .ok { result with Duration := elapsed, TotalFound := result.TotalScraped }

/-- A site configuration for the examples. -/
def exampleConfig : SiteConfig :=
  { Name := "rumah123"
    Selectors :=
      { ListItem := ".card", Title := ".title", Price := ".price", Location := ".location",
        DetailURL := "a", Bedrooms := "", Bathrooms := "", LandArea := "", BuildingArea := "",
        Description := "", Images := "", AgentName := "", AgentPhone := "", NextPage := "" } }

/-- A candidate for the examples: a card of `exampleConfig` with the given price text. -/
def exampleCandidate (priceText : String) : HTMLElement :=
  { ChildText := fun sel =>
      if sel = ".title" then "Rumah Minimalis"
      else if sel = ".price" then priceText
      else if sel = ".location" then "Jakarta Selatan"
      else ""
    ChildAttr := fun sel attr => if sel = "a" ∧ attr = "href" then "/properti/hos123" else ""
    Attr := fun _ => ""
    RequestURL := "https://www.rumah123.com/jual/"
    AbsoluteURL := fun u => u
    ForEach := fun _ => [] }

end scrape

end HousesPrices

namespace HousesPrices

/-! ## `storage/listing_repository.go` -/

namespace storage

/-- A `time.Time` as a BSON datetime keeps it: whole milliseconds. -/
def bsonTime (t : Int) : Int := t - t % 1000000

/-- The `listings` collection: its documents in natural order, each as the `Listing` it
decodes to. -/
abbrev Collection := List Listing

/-- The outcomes of the two driver calls of `Save`: the `FindOne` inside `FindByURL`
(an error other than `mongo.ErrNoDocuments`) and the `UpdateOne`. -/
structure Replies where
  find : Option GoErr
  update : Option GoErr

/-- The document `doc` after `{"$set": listing}`: every field of `listing` is written,
the times as BSON datetimes, except the `omitempty` fields that are empty. -/
def setFields (doc listing : Listing) : Listing :=
  { listing with
    ID := if listing.ID = "" then doc.ID else listing.ID
    AgentName := if listing.AgentName = "" then doc.AgentName else listing.AgentName
    AgentPhone := if listing.AgentPhone = "" then doc.AgentPhone else listing.AgentPhone
    ScrapedAt := bsonTime listing.ScrapedAt
    UpdatedAt := bsonTime listing.UpdatedAt
    CreatedAt := bsonTime listing.CreatedAt }

/-- The first document with the given URL replaced by its `$set` update. -/
def updateFirst (url : String) (listing : Listing) : Collection → Collection
  | [] => []
  | doc :: rest =>
    if doc.URL = url then setFields doc listing :: rest
    else doc :: updateFirst url listing rest

/-- `collection.UpdateOne(ctx, {"url": url}, {"$set": listing}, upsert)`: the first
document with that URL is updated, and one is inserted when there is none (with the
identifier `freshID` unless the listing brings its own); the server refuses to change
the `_id` of a document. -/
def UpdateOne (coll : Collection) (reply : Option GoErr) (freshID url : String)
    (listing : Listing) : Option GoErr × Collection :=
  match reply with
  | some err => (some err, coll)
  | none =>
    match coll.find? (fun doc => doc.URL = url) with
    | some doc =>
      if listing.ID ≠ "" ∧ listing.ID ≠ doc.ID then
        (some (GoErr.plain "the (immutable) field '_id' was found to have been altered"), coll)
      else (none, updateFirst url listing coll)
    | none =>
      (none, coll ++ [setFields { listing with ID := freshID, AgentName := "", AgentPhone := "" }
        { listing with URL := url }])

/-- `mongoListingRepository.FindByURL`: `nil, nil` when no document has the URL. -/
def FindByURL (coll : Collection) (reply : Option GoErr) (url : String) :
    Except GoErr (Option Listing) :=
  match reply with
  | some err => .error (GoErr.wrap "finding listing" err)
  | none => .ok (coll.find? (fun doc => doc.URL = url))

/-- `mongoListingRepository.Save`; `now` is the value of `time.Now()` and `freshID` the
identifier the server would give to a new document. -/
def Save (coll : Collection) (rep : Replies) (now : Int) (freshID : String)
    (listing : Listing) : Option GoErr × Collection :=
  match FindByURL coll rep.find listing.URL with
  | .error err => (some err, coll)
  | .ok existing =>
    let listing : Listing :=
      match existing with
      | some doc => { listing with CreatedAt := doc.CreatedAt, UpdatedAt := now, ScrapedAt := now }
      | none => { listing with CreatedAt := now, UpdatedAt := now, ScrapedAt := now }
    match UpdateOne coll rep.update freshID listing.URL listing with
    | (some err, coll) => (some (GoErr.wrap "saving listing" err), coll)
    | (none, coll) => (none, coll)

end storage

end HousesPrices

namespace HousesPrices

/-! ## `scrape/site/rumah123.go` -/

namespace site

/-- The loop of `detectCaptcha` over `result.Errors`: the first non-empty message
decides, with `result.TotalScraped == 0`. -/
def firstMessageDecides (totalScraped : Int) : List String → Bool
  | [] => false
  | errMsg :: rest =>
    if errMsg.length > 0 then decide (totalScraped = 0)
    else firstMessageDecides totalScraped rest

/-- `Rumah123Scraper.detectCaptcha`. -/
def detectCaptcha (result : ScrapeResult) : Bool :=
  if result.Listings.length = 0 ∧ result.Errors.length > 0 then
    firstMessageDecides result.TotalScraped result.Errors
  else false

/-- `Rumah123Scraper.Scrape`; `colly` is `s.Colly.Scrape(ctx, ·)`. -/
def Scrape (colly : String → Except GoErr ScrapeResult) (url : String) :
    Except GoErr ScrapeResult :=
  match colly url with
  | .error err => .error (GoErr.wrap "scraping rumah123" err)
  | .ok result =>
    if detectCaptcha result then .error (GoErr.plain "CAPTCHA challenge encountered")
    else .ok result

/-- The base pipeline for the examples: `CollyScraper.Scrape` with `exampleConfig` on a
page that holds the given candidates, the visit succeeding at once. -/
def examplePipeline (items : List scrape.HTMLElement) (url : String) :
    Except GoErr ScrapeResult :=
  scrape.Scrape scrape.exampleConfig retry.Context.background url (retry.succeedsAt 1) 0
    items [] 0 1

end site

/-! ## `api/handlers.go` -/

namespace api

/-- What `handleTrigger` leaves: the status code written, the body, and the calls the
goroutine it starts makes on the service's collaborators and on the server's notifier
(`none` when no goroutine is started). -/
structure Triggered (ρ : Type) where
  status : Nat
  body : String
  background : Option (List service.Call)
  repo : ρ

/-- `Server.handleTrigger` for a request whose query holds `site` and `url`; the
goroutine is run to its end. -/
def handleTrigger {ρ : Type} (svc : service.ScraperService ρ) (repo : ρ) (site url : String) :
    Triggered ρ :=
  if site = "" then ⟨400, "missing site param", none, repo⟩
  else
    let run := service.ScrapeWebsite svc repo site url
    let after : List service.Call :=
      match run.err with
      | some err =>
        [service.Call.log "warn" "background scrape failed", service.Call.notifyError site err]
      | none => [service.Call.log "info" "background scrape triggered"]
    ⟨202, "\x7b\"status\":\"started\"\x7d", some (run.calls ++ after), run.repo⟩

end api

end HousesPrices


/-! # Properties -/

namespace HousesPrices

/-! ## `float64` -/

namespace Float64

theorem ofNat_eq (n : ℕ) : (OfNat.ofNat n : Float64) = finite (n : ℚ) := rfl

theorem ofNat_ne {a b : ℕ} (h : a ≠ b) :
    (OfNat.ofNat a : Float64) ≠ (OfNat.ofNat b : Float64) := by
  rw [ofNat_eq, ofNat_eq]
  intro hc
  exact h (by exact_mod_cast Float64.finite.inj hc)

theorem roundEven_intCast (z : Int) : roundEven (z : ℚ) = z := by
  simp [roundEven]

theorem log_lt_of_lt_zpow {q : ℚ} (hq : 0 < q) {k : Int} (h : q < 2 ^ k) :
    Int.log 2 q < k :=
  (Int.lt_zpow_iff_log_lt (by norm_num) hq).mp (by simpa using h)

/-- A rational `z * 2 ^ j` with `|z| < 2 ^ 53`, `-1074 ≤ j` and size below `2 ^ 1024`
is a `float64` value: rounding leaves it as it is. -/
theorem nearest_exact (z j : Int) (hz : |z| < 2 ^ 53) (hj : -1074 ≤ j)
    (hv : |(z : ℚ) * 2 ^ j| < 2 ^ (1024 : Int)) :
    nearest ((z : ℚ) * 2 ^ j) = finite ((z : ℚ) * 2 ^ j) := by
  unfold nearest
  by_cases h0 : (z : ℚ) * 2 ^ j = 0
  · simp [h0]
  · rw [if_neg h0]
    have hpos : 0 < |(z : ℚ) * 2 ^ j| := abs_pos.mpr h0
    have h2 : (0 : ℚ) < 2 ^ j := by positivity
    have habs : |(z : ℚ) * 2 ^ j| = ((|z| : Int) : ℚ) * 2 ^ j := by
      rw [abs_mul, abs_of_pos h2, Int.cast_abs]
    have hlt : |(z : ℚ) * 2 ^ j| < 2 ^ (53 + j) := by
      rw [habs, zpow_add₀ (by norm_num : (2 : ℚ) ≠ 0)]
      apply mul_lt_mul_of_pos_right _ h2
      have : ((|z| : Int) : ℚ) < ((2 ^ 53 : Int) : ℚ) := by exact_mod_cast hz
      rw [show ((53 : Int)) = ((53 : ℕ) : Int) from rfl, zpow_natCast]
      exact_mod_cast this
    have hlog := log_lt_of_lt_zpow hpos hlt
    have he : max (Int.log 2 |(z : ℚ) * 2 ^ j|) (-1022) - 52 ≤ j := by
      rcases max_cases (Int.log 2 |(z : ℚ) * 2 ^ j|) (-1022) with ⟨h, _⟩ | ⟨h, _⟩ <;>
        rw [h] <;> omega
    dsimp only
    generalize max (Int.log 2 |(z : ℚ) * 2 ^ j|) (-1022) - 52 = e at he
    obtain ⟨d, hd⟩ : ∃ d : ℕ, j = e + d := ⟨(j - e).toNat, by omega⟩
    have hdiv : |(z : ℚ) * 2 ^ j| / 2 ^ e = ((|z| * 2 ^ d : Int) : ℚ) := by
      rw [habs, hd, zpow_add₀ (by norm_num : (2 : ℚ) ≠ 0)]
      have : (2 : ℚ) ^ e ≠ 0 := by positivity
      field_simp
      ring
    have hval : ((|z| * 2 ^ d : Int) : ℚ) * 2 ^ e = |(z : ℚ) * 2 ^ j| := by
      rw [← hdiv]
      have : (2 : ℚ) ^ e ≠ 0 := by positivity
      field_simp
    rw [hdiv, roundEven_intCast, hval, if_neg (not_le.mpr hv)]
    congr 1
    by_cases hneg : (z : ℚ) * 2 ^ j < 0
    · rw [if_pos hneg, abs_of_neg hneg, neg_neg]
    · rw [if_neg hneg, abs_of_nonneg (not_lt.mp hneg)]

/-- The dyadic rationals of at most 53 significant bits and exponent at least `-1074`
are `float64` values. -/
theorem isValue_dyadic (z j : Int) (hz : |z| < 2 ^ 53) (hj : -1074 ≤ j)
    (hv : |(z : ℚ) * 2 ^ j| < 2 ^ (1024 : Int)) : IsValue ((z : ℚ) * 2 ^ j) :=
  nearest_exact z j hz hj hv

/-- The integers of size at most `2 ^ 53` are `float64` values. -/
theorem isValue_intCast (z : Int) (hz : |z| ≤ 2 ^ 53) : IsValue (z : ℚ) := by
  rcases lt_or_eq_of_le hz with h | h
  · have hq : |(z : ℚ)| < 2 ^ (1024 : Int) := by
      have h1 : ((|z| : Int) : ℚ) < ((2 ^ 53 : Int) : ℚ) := by exact_mod_cast h
      rw [Int.cast_abs] at h1
      refine lt_trans h1 ?_
      norm_num
    have := isValue_dyadic z 0 h (by norm_num) (by simpa using hq)
    simpa using this
  · have hz2 : z = 2 ^ 53 ∨ z = -2 ^ 53 := by
      rcases abs_cases z with ⟨h1, _⟩ | ⟨h1, _⟩
      · left; omega
      · right; omega
    rcases hz2 with h1 | h1
    · have := isValue_dyadic (2 ^ 52) 1 (by norm_num) (by norm_num) (by norm_num)
      rw [h1]
      convert this using 1
      norm_num
    · have := isValue_dyadic (-2 ^ 52) 1 (by norm_num) (by norm_num) (by norm_num)
      rw [h1]
      convert this using 1
      norm_num

/-- The natural numbers up to `2 ^ 53` are `float64` values. -/
theorem isValue_natCast (n : ℕ) (hn : n ≤ 2 ^ 53) : IsValue (n : ℚ) := by
  have := isValue_intCast (n : Int) (by
    rw [abs_of_nonneg (by positivity)]
    exact_mod_cast hn)
  simpa using this

/-- Rounding to the nearest integer: a value less than one half away. -/
theorem roundEven_of_near (x : ℚ) (m : Int) (h1 : (m : ℚ) - 1 / 2 < x)
    (h2 : x < (m : ℚ) + 1 / 2) : roundEven x = m := by
  unfold roundEven
  dsimp only
  by_cases hx : (m : ℚ) ≤ x
  · have hf : ⌊x⌋ = m := by
      rw [Int.floor_eq_iff]
      constructor
      · exact hx
      · linarith
    rw [hf, if_pos (by linarith)]
  · have hf : ⌊x⌋ = m - 1 := by
      rw [Int.floor_eq_iff]
      push_cast
      constructor
      · linarith
      · linarith
    rw [hf]
    push_cast
    rw [if_neg (by linarith), if_pos (by linarith)]
    ring

/-- Rounding to the nearest integer: a tie goes to the even neighbour. -/
theorem roundEven_of_tie (m : Int) :
    roundEven ((m : ℚ) + 1 / 2) = if m % 2 = 0 then m else m + 1 := by
  unfold roundEven
  dsimp only
  have hf : ⌊(m : ℚ) + 1 / 2⌋ = m := by
    rw [Int.floor_eq_iff]
    constructor <;> linarith
  rw [hf, if_neg (by norm_num), if_neg (by norm_num)]

/-- The value of `nearest` on a rational of the binade `[2 ^ k, 2 ^ (k + 1))` of a normal
exponent: the multiple of `2 ^ (k - 52)` it rounds to. -/
theorem nearest_of_binade (q : ℚ) (k : Int) (hlo : 2 ^ k ≤ q) (hhi : q < 2 ^ (k + 1))
    (hk : -1022 ≤ k) :
    nearest q =
      if (2 : ℚ) ^ (1024 : Int) ≤ (roundEven (q / 2 ^ (k - 52)) : ℚ) * 2 ^ (k - 52)
      then inf false
      else finite ((roundEven (q / 2 ^ (k - 52)) : ℚ) * 2 ^ (k - 52)) := by
  have hq : 0 < q := lt_of_lt_of_le (by positivity) hlo
  have hlog : Int.log 2 q = k := by
    apply le_antisymm
    · have := log_lt_of_lt_zpow hq hhi
      omega
    · exact (Int.zpow_le_iff_le_log (by norm_num) hq).mp (by simpa using hlo)
  unfold nearest
  rw [if_neg (ne_of_gt hq), abs_of_pos hq]
  dsimp only
  rw [hlog, max_eq_left hk]
  simp [not_lt.mpr (le_of_lt hq)]

theorem mul_finite (a b : ℚ) (h : IsValue (a * b)) :
    mul (finite a) (finite b) = finite (a * b) := h

/-- The conversion to `int64` of a finite value with `-2 ^ 63 ≤ q < 2 ^ 63` drops the
fraction. -/
theorem toInt64_finite (q : ℚ) (hlo : -(2 : ℚ) ^ 63 ≤ q) (hhi : q < 2 ^ 63) :
    toInt64 (finite q) = if 0 ≤ q then ⌊q⌋ else ⌈q⌉ := by
  unfold toInt64
  dsimp only
  rw [if_pos]
  by_cases h0 : 0 ≤ q
  · rw [if_pos h0]
    constructor
    · have : (0 : Int) ≤ ⌊q⌋ := Int.floor_nonneg.mpr h0
      omega
    · rw [Int.floor_lt]
      exact_mod_cast hhi
  · rw [if_neg h0]
    push_neg at h0
    constructor
    · rw [Int.le_ceil_iff]
      push_cast
      linarith
    · have : ⌈q⌉ ≤ 0 := Int.ceil_le.mpr (by exact_mod_cast h0.le)
      omega

theorem toInt64_intCast (z : Int) (hlo : -2 ^ 63 ≤ z) (hhi : z < 2 ^ 63) :
    toInt64 (finite (z : ℚ)) = z := by
  rw [toInt64_finite _ (by exact_mod_cast hlo) (by exact_mod_cast hhi)]
  split <;> simp

theorem zpow_split53 (e : Int) : (((2 : Int) ^ 53 : Int) : ℚ) * 2 ^ e = 2 ^ (53 + e) := by
  have h : (((2 : Int) ^ 53 : Int) : ℚ) = (2 : ℚ) ^ (53 : Int) := by norm_num
  rw [h, ← zpow_add₀ (by norm_num : (2 : ℚ) ≠ 0)]

theorem floor_le_roundEven (x : ℚ) : ⌊x⌋ ≤ roundEven x := by
  unfold roundEven
  dsimp only
  split_ifs <;> omega

theorem roundEven_le_floor_succ (x : ℚ) : roundEven x ≤ ⌊x⌋ + 1 := by
  unfold roundEven
  dsimp only
  split_ifs <;> omega

theorem le_roundEven (x : ℚ) (n : Int) (h : (n : ℚ) ≤ x) : n ≤ roundEven x :=
  le_trans (Int.le_floor.mpr h) (floor_le_roundEven x)

theorem roundEven_le (x : ℚ) (n : Int) (h : x ≤ (n : ℚ)) : roundEven x ≤ n := by
  rcases eq_or_lt_of_le h with h | h
  · rw [h, roundEven_intCast]
  · have : ⌊x⌋ < n := Int.floor_lt.mpr h
    have := roundEven_le_floor_succ x
    omega

/-- What `nearest` returns is a `float64` value. -/
theorem nearest_isValue (q v : ℚ) (h : nearest q = finite v) : IsValue v := by
  unfold nearest at h
  by_cases h0 : q = 0
  · rw [if_pos h0] at h
    injection h with h
    rw [← h]
    simpa using isValue_intCast 0 (by norm_num)
  · rw [if_neg h0] at h
    dsimp only at h
    have hpos : 0 < |q| := abs_pos.mpr h0
    have he : -1074 ≤ max (Int.log 2 |q|) (-1022) - 52 := by
      have := le_max_right (Int.log 2 |q|) (-1022)
      omega
    have he2 : Int.log 2 |q| - 52 ≤ max (Int.log 2 |q|) (-1022) - 52 := by
      have := le_max_left (Int.log 2 |q|) (-1022)
      omega
    generalize max (Int.log 2 |q|) (-1022) - 52 = e at h he he2
    have hx0 : 0 ≤ |q| / 2 ^ e := by positivity
    have hxlt : |q| / 2 ^ e ≤ (((2 : Int) ^ 53 : Int) : ℚ) := by
      rw [div_le_iff₀ (by positivity)]
      have h1 : |q| < 2 ^ (Int.log 2 |q| + 1) := by
        simpa using Int.lt_zpow_succ_log_self (b := 2) (by norm_num) |q|
      have h2 : (2 : ℚ) ^ (Int.log 2 |q| + 1) ≤ 2 ^ (53 + e) :=
        zpow_le_zpow_right₀ (by norm_num) (by omega)
      rw [zpow_split53]
      exact le_of_lt (lt_of_lt_of_le h1 h2)
    have hm0 : 0 ≤ roundEven (|q| / 2 ^ e) := le_roundEven _ 0 (by simpa using hx0)
    have hm1 : roundEven (|q| / 2 ^ e) ≤ 2 ^ 53 := roundEven_le _ _ hxlt
    generalize roundEven (|q| / 2 ^ e) = m at h hm0 hm1
    by_cases hbig : (2 : ℚ) ^ (1024 : Int) ≤ (m : ℚ) * 2 ^ e
    · rw [if_pos hbig] at h
      exact absurd h (by simp)
    · rw [if_neg hbig] at h
      injection h with h
      push_neg at hbig
      have h2e : (0 : ℚ) < 2 ^ e := by positivity
      have hmq : (0 : ℚ) ≤ (m : ℚ) := by exact_mod_cast hm0
      have key : ∀ sgn : Int, (sgn = 1 ∨ sgn = -1) →
          IsValue (((sgn * m : Int) : ℚ) * 2 ^ e) := by
        intro sgn hs
        have habs : |sgn * m| = m := by
          rcases hs with hs | hs <;> subst hs <;> simp [abs_of_nonneg hm0]
        have hsize : |((sgn * m : Int) : ℚ) * 2 ^ e| = (m : ℚ) * 2 ^ e := by
          rw [abs_mul, abs_of_pos h2e, ← Int.cast_abs, habs]
        rcases lt_or_eq_of_le hm1 with hlt | heq
        · exact isValue_dyadic (sgn * m) e (by rw [habs]; exact hlt) he (by rw [hsize]; exact hbig)
        · have hsplit : ((sgn * m : Int) : ℚ) * 2 ^ e =
              ((sgn * 2 ^ 52 : Int) : ℚ) * 2 ^ (e + 1) := by
            rw [heq, zpow_add₀ (by norm_num : (2 : ℚ) ≠ 0)]
            push_cast
            ring
          rw [hsplit]
          apply isValue_dyadic (sgn * 2 ^ 52) (e + 1)
          · rcases hs with hs | hs <;> subst hs <;> norm_num
          · omega
          · rw [← hsplit, hsize]
            exact hbig
      by_cases hneg : q < 0
      · rw [if_pos hneg] at h
        have := key (-1) (Or.inr rfl)
        rw [← h]
        convert this using 1
        push_cast
        ring
      · rw [if_neg hneg] at h
        have := key 1 (Or.inl rfl)
        rw [← h]
        convert this using 1
        push_cast
        ring

end Float64

/-- `math.Pow` on a finite base whose power is a `float64` value. -/
theorem math.Pow_finite (μ : ℚ) (k : Nat) (h : Float64.IsValue (μ ^ k)) :
    math.Pow (Float64.finite μ) k = Float64.finite (μ ^ k) := by
  unfold math.Pow
  by_cases h0 : k = 0
  · subst h0
    simp [Float64.ofNat_eq]
  · by_cases h1 : Float64.finite μ = 1
    · have hμ : μ = 1 := by
        rw [Float64.ofNat_eq] at h1
        simpa using Float64.finite.inj h1
      subst hμ
      simp [Float64.ofNat_eq]
    · by_cases hk : k = 1
      · subst hk
        simp [h1]
      · simp only [h0, h1, hk, or_self, if_false]
        exact h

end HousesPrices

namespace HousesPrices

/-! ## Store lemmas -/

theorem Store.setNX_absent (st : Store) (key value : String) (ttl : Int) (h : st key = none) :
    st.setNX key value ttl =
      (true, fun k => if k = key then some ⟨value, ttl⟩ else st k) := by
  simp [Store.setNX, h]

theorem Store.setNX_present (st : Store) (key value : String) (ttl : Int)
    (h : st key ≠ none) : st.setNX key value ttl = (false, st) := by
  unfold Store.setNX
  cases hk : st key with
  | none => exact absurd hk h
  | some r => rfl

theorem lockKey_injective : Function.Injective lockKey := by
  intro a b h
  have h2 : ("job:lock:" ++ a).data = ("job:lock:" ++ b).data := congrArg String.data h
  rw [String.data_append, String.data_append] at h2
  exact String.ext (List.append_cancel_left h2)

/-! ## The lock operations -/

/-- C2: when the store answers, `acquireLock` returns `(true, nil)` exactly when the key
was absent; it then maps the key to this worker's identifier with the given TTL and
leaves the other keys alone; on a present key it returns `(false, nil)` and the store is
unchanged. -/
theorem acquireLock_true_iff_created (workerID : String) (st : Store) (key : String)
    (ttl : Int) :
    ((acquireLock workerID none st key ttl).ret = (true, none) ↔ st key = none) ∧
    (st key = none →
      (acquireLock workerID none st key ttl).store key = some ⟨workerID, ttl⟩ ∧
      ∀ k, k ≠ key → (acquireLock workerID none st key ttl).store k = st k) ∧
    (st key ≠ none →
      (acquireLock workerID none st key ttl).ret = (false, none) ∧
      (acquireLock workerID none st key ttl).store = st) := by
  cases hk : st key with
  | none =>
    have e := Store.setNX_absent st key workerID ttl hk
    refine ⟨?_, ?_, ?_⟩
    · simp [acquireLock, e]
    · intro _
      refine ⟨by simp [acquireLock, e], ?_⟩
      intro k hne
      simp [acquireLock, e, hne]
    · intro h; exact absurd rfl h
  | some r =>
    have e := Store.setNX_present st key workerID ttl (by simp [hk])
    refine ⟨?_, ?_, ?_⟩
    · simp [acquireLock, e]
    · intro h; exact absurd h (by simp)
    · intro _
      simp [acquireLock, e]

/-- Witness for C2: on the empty store the call creates the record, on a store that
already holds the key it does not. -/
theorem acquireLock_true_iff_created_witness :
    (acquireLock "worker-a" none Store.empty "job:lock:rumah123" lockExpiry).store
        "job:lock:rumah123" = some ⟨"worker-a", lockExpiry⟩ ∧
    (acquireLock "worker-b" none
        (acquireLock "worker-a" none Store.empty "job:lock:rumah123" lockExpiry).store
        "job:lock:rumah123" lockExpiry).ret = (false, none) :=
  ⟨((acquireLock_true_iff_created "worker-a" Store.empty "job:lock:rumah123"
      lockExpiry).2.1 rfl).1,
   ((acquireLock_true_iff_created "worker-b"
      (acquireLock "worker-a" none Store.empty "job:lock:rumah123" lockExpiry).store
      "job:lock:rumah123" lockExpiry).2.2 (by simp [acquireLock, Store.setNX, Store.empty])).1⟩

/-- C3: when the store answers, `releaseLock` returns `nil`; the key is removed when its
value is this worker's identifier and keeps its record otherwise (absent, or owned by
another identifier); every other key is unchanged. -/
theorem releaseLock_deletes_iff_owner (workerID : String) (st : Store) (key : String) :
    (releaseLock workerID none none st key).ret = none ∧
    (st.get key = some workerID → (releaseLock workerID none none st key).store key = none) ∧
    (st.get key ≠ some workerID →
      (releaseLock workerID none none st key).store = st) ∧
    (∀ k, k ≠ key → (releaseLock workerID none none st key).store k = st k) := by
  unfold releaseLock
  cases hg : st.get key with
  | none => simp
  | some val =>
    by_cases hv : val = workerID
    · subst hv
      simp only [if_true, true_and]
      refine ⟨fun _ => by simp [Store.del], fun h => absurd rfl h, ?_⟩
      intro k hne
      simp [Store.del, hne]
    · simp [hv]

/-- Witness for C3: a release by `worker-b` of a key held by `worker-a` changes
nothing, a release by `worker-a` removes the key, a release of an absent key changes
nothing. -/
theorem releaseLock_deletes_iff_owner_witness :
    (releaseLock "worker-b" none none
        (acquireLock "worker-a" none Store.empty "job:lock:rumah123" lockExpiry).store
        "job:lock:rumah123").store =
      (acquireLock "worker-a" none Store.empty "job:lock:rumah123" lockExpiry).store ∧
    (releaseLock "worker-a" none none
        (acquireLock "worker-a" none Store.empty "job:lock:rumah123" lockExpiry).store
        "job:lock:rumah123").store "job:lock:rumah123" = none ∧
    (releaseLock "worker-a" none none Store.empty "job:lock:rumah123").store = Store.empty :=
  ⟨(releaseLock_deletes_iff_owner "worker-b"
      (acquireLock "worker-a" none Store.empty "job:lock:rumah123" lockExpiry).store
      "job:lock:rumah123").2.2.1
      (by simp [acquireLock, Store.setNX, Store.empty, Store.get]),
   (releaseLock_deletes_iff_owner "worker-a"
      (acquireLock "worker-a" none Store.empty "job:lock:rumah123" lockExpiry).store
      "job:lock:rumah123").2.1
      (by simp [acquireLock, Store.setNX, Store.empty, Store.get]),
   (releaseLock_deletes_iff_owner "worker-a" Store.empty "job:lock:rumah123").2.2.1
      (by simp [Store.empty, Store.get])⟩

/-- C4: `Redis.ReleaseLock` issued by a second worker removes the record that a first
worker created with `Redis.AcquireLock`; it sends a single `Del` and no `Get`. The
record holds the constant `"locked"`, so no owner could be compared. -/
theorem Redis_ReleaseLock_removes_foreign_record :
    (Redis.AcquireLock none Store.empty "job:lock:rumah123" lockExpiry).ret = (true, none) ∧
    (Redis.AcquireLock none Store.empty "job:lock:rumah123" lockExpiry).store
        "job:lock:rumah123" = some ⟨"locked", lockExpiry⟩ ∧
    (Redis.ReleaseLock none
        (Redis.AcquireLock none Store.empty "job:lock:rumah123" lockExpiry).store
        "job:lock:rumah123").ret = none ∧
    (Redis.ReleaseLock none
        (Redis.AcquireLock none Store.empty "job:lock:rumah123" lockExpiry).store
        "job:lock:rumah123").store "job:lock:rumah123" = none ∧
    (Redis.ReleaseLock none
        (Redis.AcquireLock none Store.empty "job:lock:rumah123" lockExpiry).store
        "job:lock:rumah123").sent = [Cmd.del "job:lock:rumah123"] := by
  simp [Redis.AcquireLock, Redis.ReleaseLock, Store.setNX, Store.empty, Store.del]

end HousesPrices

namespace HousesPrices

/-! ## The job body -/

theorem executeJob_not_acquired (workerID siteName url : String) (rep : Replies)
    (outcome : ScrapeOutcome) (during : Store → Store) (st : Store)
    (h : (acquireLock workerID rep.lock st (lockKey siteName) lockExpiry).ret ≠ (true, none)) :
    ∃ line, executeJob workerID siteName url rep outcome during st =
      ⟨st, [Effect.log "info" "job triggered",
            Effect.cmd (Cmd.setNX (lockKey siteName) workerID lockExpiry), line], false⟩ ∧
      ∃ level msg, line = Effect.log level msg := by
  unfold executeJob
  cases hr : rep.lock with
  | some err =>
    exact ⟨Effect.log "error" "failed to acquire lock", by simp [acquireLock], _, _, rfl⟩
  | none =>
    cases hk : st (lockKey siteName) with
    | none =>
      exfalso
      apply h
      simp [acquireLock, hr, Store.setNX_absent _ _ _ _ hk]
    | some r =>
      have e := Store.setNX_present st (lockKey siteName) workerID lockExpiry (by simp [hk])
      exact ⟨Effect.log "info" "job already running on another worker",
        by simp [acquireLock, e], _, _, rfl⟩

/-- C5: when `acquireLock` reports an error or `false`, `executeJob` never calls
`ScrapeWebsite`, sends no `Del` (and no `Get`) to the store, and leaves the store as it
found it. -/
theorem executeJob_skips_without_lock (workerID siteName url : String) (rep : Replies)
    (outcome : ScrapeOutcome) (during : Store → Store) (st : Store)
    (h : (acquireLock workerID rep.lock st (lockKey siteName) lockExpiry).ret.2 ≠ none ∨
         (acquireLock workerID rep.lock st (lockKey siteName) lockExpiry).ret.1 = false) :
    (∀ s u, Effect.scrape s u ∉
      (executeJob workerID siteName url rep outcome during st).trace) ∧
    (∀ k, Effect.cmd (Cmd.del k) ∉
      (executeJob workerID siteName url rep outcome during st).trace) ∧
    (∀ k, Effect.cmd (Cmd.get k) ∉
      (executeJob workerID siteName url rep outcome during st).trace) ∧
    (executeJob workerID siteName url rep outcome during st).store = st := by
  have h2 : (acquireLock workerID rep.lock st (lockKey siteName) lockExpiry).ret ≠
      (true, none) := by
    intro e
    rw [e] at h
    simp at h
  obtain ⟨line, e, level, msg, hl⟩ :=
    executeJob_not_acquired workerID siteName url rep outcome during st h2
  subst hl
  rw [e]
  simp

/-- Witness for C5: `worker-b` fires while `worker-a` holds the lock of the site. -/
theorem executeJob_skips_without_lock_witness :
    (executeJob "worker-b" "rumah123" "https://www.rumah123.com/jual" ⟨none, none, none⟩
        ScrapeOutcome.ok id
        (acquireLock "worker-a" none Store.empty (lockKey "rumah123") lockExpiry).store).store
      = (acquireLock "worker-a" none Store.empty (lockKey "rumah123") lockExpiry).store :=
  (executeJob_skips_without_lock "worker-b" "rumah123" "https://www.rumah123.com/jual"
    ⟨none, none, none⟩ ScrapeOutcome.ok id
    (acquireLock "worker-a" none Store.empty (lockKey "rumah123") lockExpiry).store
    (Or.inr (by simp [acquireLock, Store.setNX, Store.empty]))).2.2.2

end HousesPrices

namespace HousesPrices

/-! ## Mutual exclusion -/

theorem Cluster.setPC_pc (c : Cluster) (w : Nat) (site : String) (p : PC) (w' : Nat)
    (s' : String) :
    (c.setPC w site p).pc w' s' = if w' = w ∧ s' = site then p else c.pc w' s' := rfl

theorem Cluster.setPC_store (c : Cluster) (w : Nat) (site : String) (p : PC) :
    (c.setPC w site p).store = c.store := rfl

theorem LockInv.setPC_idle {wid : Nat → String} {c : Cluster} (h : LockInv wid c) (w : Nat)
    (site : String) : LockInv wid (c.setPC w site PC.idle) := by
  intro w' s' hpc
  rw [Cluster.setPC_pc] at hpc
  rw [Cluster.setPC_store]
  split at hpc
  · exact absurd rfl hpc
  · exact h w' s' hpc

theorem LockInv.setPC_of_held {wid : Nat → String} {c : Cluster} (h : LockInv wid c) (w : Nat)
    (site : String) (p : PC) (hheld : c.pc w site ≠ PC.idle) :
    LockInv wid (c.setPC w site p) := by
  intro w' s' hpc
  rw [Cluster.setPC_pc] at hpc
  rw [Cluster.setPC_store]
  split at hpc
  · next hws => rw [hws.1, hws.2]; exact h w site hheld
  · exact h w' s' hpc

theorem LockInv.init (wid : Nat → String) (st : Store) : LockInv wid (Cluster.init st) := by
  intro w site hpc
  exact absurd rfl hpc

theorem LockInv.step {wid : Nat → String} (hinj : Function.Injective wid) {c : Cluster}
    (h : LockInv wid c) (ev : Event) : LockInv wid (step wid c ev) := by
  cases ev with
  | trigger w site reply =>
    unfold HousesPrices.step
    by_cases hpc : c.pc w site = PC.idle
    · simp only [hpc, if_true]
      cases reply with
      | some err => exact h
      | none =>
        cases hk : c.store (lockKey site) with
        | none =>
          have e := Store.setNX_absent c.store (lockKey site) (wid w) lockExpiry hk
          simp only [acquireLock, e]
          intro w' s' hpc'
          rw [Cluster.setPC_pc] at hpc'
          rw [Cluster.setPC_store]
          by_cases hs : s' = site
          · subst hs
            by_cases hw : w' = w
            · subst hw
              simp [Store.get]
            · have hold : c.pc w' s' ≠ PC.idle := by simpa [hw] using hpc'
              have := h w' s' hold
              simp [Store.get, hk] at this
          · have hold : c.pc w' s' ≠ PC.idle := by simpa [hs] using hpc'
            have hne : lockKey s' ≠ lockKey site := fun e => hs (lockKey_injective e)
            have := h w' s' hold
            simpa [Store.get, hne] using this
        | some r =>
          have e := Store.setNX_present c.store (lockKey site) (wid w) lockExpiry
            (by simp [hk])
          simp only [acquireLock, e]
          exact h
    · simp only [hpc, if_false]
      exact h
  | scraped w site =>
    unfold HousesPrices.step
    by_cases hpc : c.pc w site = PC.running
    · simp only [hpc, if_true]
      exact h.setPC_of_held w site _ (by simp [hpc])
    · simp only [hpc, if_false]
      exact h
  | releaseGet w site reply =>
    unfold HousesPrices.step
    by_cases hpc : c.pc w site = PC.releasing
    · simp only [hpc, if_true]
      cases reply with
      | some err => exact h.setPC_idle w site
      | none =>
        cases hg : c.store.get (lockKey site) with
        | none => exact h.setPC_idle w site
        | some val =>
          by_cases hv : val = wid w
          · simp only [hv, if_true]
            exact h.setPC_of_held w site _ (by simp [hpc])
          · simp only [hv, if_false]
            exact h.setPC_idle w site
    · simp only [hpc, if_false]
      exact h
  | releaseDel w site reply =>
    unfold HousesPrices.step
    by_cases hpc : c.pc w site = PC.deleting
    · simp only [hpc, if_true]
      cases reply with
      | some err => exact h.setPC_idle w site
      | none =>
        intro w' s' hpc'
        rw [Cluster.setPC_pc] at hpc'
        rw [Cluster.setPC_store]
        have hown := h w site (by simp [hpc])
        by_cases hs : s' = site
        · subst hs
          by_cases hw : w' = w
          · subst hw
            simp at hpc'
          · have hold : c.pc w' s' ≠ PC.idle := by simpa [hw] using hpc'
            have := h w' s' hold
            rw [hown] at this
            exact absurd (hinj (Option.some.inj this)).symm hw
        · have hold : c.pc w' s' ≠ PC.idle := by simpa [hs] using hpc'
          have hne : lockKey s' ≠ lockKey site := fun e => hs (lockKey_injective e)
          have := h w' s' hold
          simpa [Store.get, Store.del, hne] using this
    · simp only [hpc, if_false]
      exact h

theorem LockInv.run {wid : Nat → String} (hinj : Function.Injective wid) (st : Store)
    (evs : List Event) : LockInv wid (run wid st evs) := by
  unfold HousesPrices.run
  generalize hc : Cluster.init st = c
  have hc0 : LockInv wid c := hc ▸ LockInv.init wid st
  clear hc
  induction evs generalizing c with
  | nil => exact hc0
  | cons ev evs ih => exact ih _ (hc0.step hinj ev)

/-- The `releaseGet` and `releaseDel` steps of a job body, taken back to back, do to the
store what `releaseLock` does, and leave the job body idle. -/
theorem release_steps_eq_releaseLock (wid : Nat → String) (c : Cluster) (w : Nat)
    (site : String) (getReply delReply : Option GoErr) (h : c.pc w site = PC.releasing) :
    (step wid (step wid c (Event.releaseGet w site getReply))
        (Event.releaseDel w site delReply)).store =
      (releaseLock (wid w) getReply delReply c.store (lockKey site)).store ∧
    (step wid (step wid c (Event.releaseGet w site getReply))
        (Event.releaseDel w site delReply)).pc w site = PC.idle := by
  cases getReply with
  | some err => simp [step, releaseLock, h, Cluster.setPC]
  | none =>
    cases hg : c.store.get (lockKey site) with
    | none => simp [step, releaseLock, h, hg, Cluster.setPC]
    | some val =>
      by_cases hv : val = wid w
      · cases delReply <;> simp [step, releaseLock, h, hg, hv, Cluster.setPC]
      · simp [step, releaseLock, h, hg, hv, Cluster.setPC]

theorem exampleWorkerID_injective : Function.Injective exampleWorkerID := by
  intro a b h
  have h2 : List.replicate a 'w' = List.replicate b 'w' := congrArg String.data h
  have h3 := congrArg List.length h2
  simpa using h3

/-- C1: with pairwise distinct worker identifiers, in every state reached from a store
and idle job bodies by any schedule of `executeJob` steps (the atomic `acquireLock`, the
end of `ScrapeWebsite`, the `Get` and the `Del` of `releaseLock`, each with any
transport outcome, no record expiring), two distinct workers are never both between a
successful `acquireLock` and the end of their `releaseLock` for the same site. -/
theorem at_most_one_running_per_site (wid : Nat → String) (hinj : Function.Injective wid)
    (st : Store) (evs : List Event) (site : String) (w1 w2 : Nat) (hne : w1 ≠ w2) :
    ¬ (holds (run wid st evs) w1 site ∧ holds (run wid st evs) w2 site) := by
  rintro ⟨h1, h2⟩
  have hinv := LockInv.run hinj st evs
  have e1 := hinv w1 site h1
  have e2 := hinv w2 site h2
  rw [e1] at e2
  exact hne (hinj (Option.some.inj e2))

/-- Witness for C1: workers 0 and 1 both fire for the same site on an empty store;
worker 0 is running and worker 1 is not. -/
theorem at_most_one_running_per_site_witness :
    Function.Injective exampleWorkerID ∧
    holds (run exampleWorkerID Store.empty
      [Event.trigger 0 "rumah123" none, Event.trigger 1 "rumah123" none]) 0 "rumah123" ∧
    ¬ (holds (run exampleWorkerID Store.empty
        [Event.trigger 0 "rumah123" none, Event.trigger 1 "rumah123" none]) 0 "rumah123" ∧
       holds (run exampleWorkerID Store.empty
        [Event.trigger 0 "rumah123" none, Event.trigger 1 "rumah123" none]) 1 "rumah123") :=
  ⟨exampleWorkerID_injective, by decide,
   at_most_one_running_per_site exampleWorkerID exampleWorkerID_injective Store.empty
     [Event.trigger 0 "rumah123" none, Event.trigger 1 "rumah123" none] "rumah123" 0 1
     (by decide)⟩

end HousesPrices

namespace HousesPrices

namespace retry

/-! ## The retry loop -/

section
variable {σ : Type} (ctx : Context) (cfg : Config) (fn : σ → Option GoErr × σ)

theorem stateAfter_succ (k : Nat) (s : σ) :
    stateAfter fn (k + 1) s = stateAfter fn k (fn s).2 := by
  simp [stateAfter, Function.iterate_succ_apply]

theorem stateAfter_succ_outer (k : Nat) (s : σ) :
    stateAfter fn (k + 1) s = (fn (stateAfter fn k s)).2 := by
  simp [stateAfter, Function.iterate_succ_apply']

/-- One more unit of fuel than the attempts that remain never changes the result: the
bound passed by `Do` is never what ends the loop. -/
theorem Do.loop_fuel_succ (fuel attempt : Nat) (lastErr : Option GoErr) (p : Progress σ)
    (h : cfg.MaxAttempts.toNat + 1 - attempt ≤ fuel) :
    Do.loop ctx cfg fn (fuel + 1) attempt lastErr p = Do.loop ctx cfg fn fuel attempt lastErr p := by
  induction fuel generalizing attempt lastErr p with
  | zero =>
    have hg : ¬ (attempt : Int) ≤ cfg.MaxAttempts := by omega
    simp [Do.loop, hg]
  | succ fuel ih =>
    rw [Do.loop]
    conv_rhs => rw [Do.loop]
    have ih2 := fun le q => ih (attempt + 1) le q (by omega)
    simp only [ih2]

/-- A failed attempt that is not the last one and whose wait runs to completion. -/
theorem Do.loop_failed_attempt (fuel attempt : Nat) (lastErr : Option GoErr) (p : Progress σ)
    (err : GoErr) (hlt : (attempt : Int) < cfg.MaxAttempts)
    (hb : ctx.doneBefore attempt = false) (hf : (fn p.state).1 = some err)
    (hd : ctx.doneDuring attempt = false) :
    Do.loop ctx cfg fn (fuel + 1) attempt lastErr p =
      Do.loop ctx cfg fn fuel (attempt + 1) (some err)
        ⟨(fn p.state).2, p.calls + 1, p.waits ++ [backoff cfg attempt]⟩ := by
  rw [Do.loop]
  simp [hlt.le, hlt.ne, hb, hf, hd]

/-- The loop across `j` failed attempts, none of them the last one, with no
cancellation. -/
theorem Do.loop_failed_prefix (j : Nat) :
    ∀ (fuel attempt : Nat) (lastErr : Option GoErr) (p : Progress σ),
      j ≤ fuel →
      ((attempt + j : Nat) : Int) ≤ cfg.MaxAttempts →
      (∀ i, i < j → ctx.doneBefore (attempt + i) = false) →
      (∀ i, i < j → ctx.doneDuring (attempt + i) = false) →
      (∀ i, i < j → (fn (stateAfter fn i p.state)).1 ≠ none) →
      ∃ le, Do.loop ctx cfg fn fuel attempt lastErr p =
        Do.loop ctx cfg fn (fuel - j) (attempt + j) le
          ⟨stateAfter fn j p.state, p.calls + j,
            p.waits ++ (List.range j).map (fun i => backoff cfg (attempt + i))⟩ := by
  induction j with
  | zero =>
    intro fuel attempt lastErr p _ _ _ _ _
    exact ⟨lastErr, by simp [stateAfter]⟩
  | succ j ih =>
    intro fuel attempt lastErr p hfuel hmax hb hd hf
    obtain ⟨f, rfl⟩ : ∃ f, fuel = f + 1 := ⟨fuel - 1, by omega⟩
    have h0 := hf 0 (by omega)
    simp only [stateAfter, Function.iterate_zero, id_eq] at h0
    obtain ⟨err, herr⟩ := Option.ne_none_iff_exists'.mp h0
    have hstep := Do.loop_failed_attempt ctx cfg fn f attempt lastErr p err
      (by push_cast at hmax ⊢; omega) (by simpa using hb 0 (by omega)) herr
      (by simpa using hd 0 (by omega))
    obtain ⟨le, hle⟩ := ih f (attempt + 1) (some err)
      ⟨(fn p.state).2, p.calls + 1, p.waits ++ [backoff cfg attempt]⟩ (by omega)
      (by push_cast at hmax ⊢; omega)
      (fun i hi => by have := hb (i + 1) (by omega); rwa [← Nat.add_assoc, Nat.add_right_comm] at this)
      (fun i hi => by have := hd (i + 1) (by omega); rwa [← Nat.add_assoc, Nat.add_right_comm] at this)
      (fun i hi => by
        have := hf (i + 1) (by omega)
        rwa [stateAfter_succ] at this)
    refine ⟨le, ?_⟩
    rw [hstep, hle]
    have e1 : f + 1 - (j + 1) = f - j := by omega
    have e2 : attempt + 1 + j = attempt + (j + 1) := by omega
    have e3 : (List.range (j + 1)).map (fun i => backoff cfg (attempt + i)) =
        backoff cfg attempt :: (List.range j).map (fun i => backoff cfg (attempt + 1 + i)) := by
      rw [List.range_succ_eq_map]
      simp [List.map_map, Function.comp_def, Nat.add_assoc, Nat.add_comm 1]
    simp only [e1, e2, e3, stateAfter_succ, List.append_assoc, List.singleton_append,
      Nat.add_assoc, Nat.add_comm 1 j]

end

end retry

end HousesPrices

namespace HousesPrices

namespace retry

section
variable {σ : Type} (ctx : Context) (cfg : Config) (fn : σ → Option GoErr × σ)

/-- Any bound of at least `MaxAttempts` gives the result of `Do`. -/
theorem Do.loop_fuel_irrelevant (extra : Nat) (s : σ) :
    Do.loop ctx cfg fn (cfg.MaxAttempts.toNat + extra) 1 none ⟨s, 0, []⟩ = Do ctx cfg fn s := by
  induction extra with
  | zero => rfl
  | succ extra ih =>
    rw [← ih, ← Nat.add_assoc]
    exact Do.loop_fuel_succ ctx cfg fn _ 1 none _ (by omega)

/-- The backoff after attempt `1 + attempt` when the initial delay, the bound, the power
of the multiplier and the product are `float64` values: the lesser of the product and
the bound, converted to `int64`. -/
theorem backoff_exact (μ : ℚ) (attempt : Nat) (hμ : cfg.Multiplier = Float64.finite μ)
    (hI : Float64.IsValue cfg.InitialDelay) (hM : Float64.IsValue cfg.MaxDelay)
    (hp : Float64.IsValue (μ ^ attempt))
    (hd : Float64.IsValue ((cfg.InitialDelay : ℚ) * μ ^ attempt)) :
    backoff cfg (1 + attempt) =
      Float64.toInt64
        (Float64.finite (min ((cfg.InitialDelay : ℚ) * μ ^ attempt) (cfg.MaxDelay : ℚ))) := by
  unfold backoff
  simp only [Nat.add_sub_cancel_left]
  have e1 : Float64.ofInt cfg.InitialDelay = Float64.finite cfg.InitialDelay := hI
  have e2 : Float64.ofInt cfg.MaxDelay = Float64.finite cfg.MaxDelay := hM
  rw [hμ, math.Pow_finite μ attempt hp, e1, e2, Float64.mul_finite _ _ hd]
  simp only [Float64.lt]
  rcases le_or_lt ((cfg.InitialDelay : ℚ) * μ ^ attempt) (cfg.MaxDelay : ℚ) with h | h
  · rw [min_eq_left h]
    simp [not_lt.mpr h]
  · rw [min_eq_right h.le]
    simp [h]

/-- The backoff for a whole multiplier `m` when the initial delay, the bound, the power
of `m` and the product have size at most `2 ^ 53`. -/
theorem backoff_whole (m : Int) (attempt : Nat) (hμ : cfg.Multiplier = Float64.finite m)
    (hI : |cfg.InitialDelay| ≤ 2 ^ 53) (hM : |cfg.MaxDelay| ≤ 2 ^ 53)
    (hp : |m ^ attempt| ≤ 2 ^ 53) (hd : |cfg.InitialDelay * m ^ attempt| ≤ 2 ^ 53) :
    backoff cfg (1 + attempt) = min (cfg.InitialDelay * m ^ attempt) cfg.MaxDelay := by
  have h := backoff_exact cfg (m : ℚ) attempt hμ (Float64.isValue_intCast _ hI)
    (Float64.isValue_intCast _ hM)
    (by
      have := Float64.isValue_intCast _ hp
      rwa [Int.cast_pow] at this)
    (by
      have := Float64.isValue_intCast _ hd
      rwa [Int.cast_mul, Int.cast_pow] at this)
  have hc : min ((cfg.InitialDelay : ℚ) * (m : ℚ) ^ attempt) (cfg.MaxDelay : ℚ) =
      ((min (cfg.InitialDelay * m ^ attempt) cfg.MaxDelay : Int) : ℚ) := by
    push_cast
    rfl
  rw [h, hc]
  have hb : |min (cfg.InitialDelay * m ^ attempt) cfg.MaxDelay| ≤ 2 ^ 53 := by
    rcases min_cases (cfg.InitialDelay * m ^ attempt) cfg.MaxDelay with ⟨h1, _⟩ | ⟨h1, _⟩ <;>
      rw [h1] <;> assumption
  have hb2 := abs_le.mp hb
  exact Float64.toInt64_intCast _ (by omega) (by omega)

/-- `Do` up to the start of attempt `k`, when the attempts before it failed and no
cancellation was seen. -/
theorem Do_reaches_attempt (s : σ) (k : Nat) (hk : 1 ≤ k) (hmax : (k : Int) ≤ cfg.MaxAttempts)
    (hb : ∀ i, 1 ≤ i → i < k → ctx.doneBefore i = false)
    (hd : ∀ i, 1 ≤ i → i < k → ctx.doneDuring i = false)
    (hf : ∀ i, 1 ≤ i → i < k → errorOfCall fn i s ≠ none) :
    ∃ le, Do ctx cfg fn s =
      Do.loop ctx cfg fn (cfg.MaxAttempts.toNat - k + 1) k le
        ⟨stateAfter fn (k - 1) s, k - 1,
          (List.range (k - 1)).map (fun i => backoff cfg (1 + i))⟩ := by
  obtain ⟨le, hle⟩ := Do.loop_failed_prefix ctx cfg fn (k - 1) cfg.MaxAttempts.toNat 1 none
    ⟨s, 0, []⟩ (by omega) (by omega)
    (fun i hi => hb (1 + i) (by omega) (by omega))
    (fun i hi => hd (1 + i) (by omega) (by omega))
    (fun i hi => by
      have := hf (1 + i) (by omega) (by omega)
      simpa [errorOfCall] using this)
  refine ⟨le, ?_⟩
  unfold Do
  rw [hle]
  have e1 : cfg.MaxAttempts.toNat - (k - 1) = cfg.MaxAttempts.toNat - k + 1 := by omega
  have e2 : 1 + (k - 1) = k := by omega
  simp [e1, e2]

/-- `Do` on an operation that fails on each call, without cancellation. -/
theorem Do_all_failed (s : σ) (hn : 1 ≤ cfg.MaxAttempts)
    (hctx : ∀ k, ctx.doneBefore k = false ∧ ctx.doneDuring k = false)
    (hfail : ∀ k, 1 ≤ k → errorOfCall fn k s ≠ none) :
    ∃ e, errorOfCall fn cfg.MaxAttempts.toNat s = some e ∧
      Do ctx cfg fn s =
        ⟨some (exhausted cfg (some e)),
          ⟨stateAfter fn cfg.MaxAttempts.toNat s, cfg.MaxAttempts.toNat,
            (List.range (cfg.MaxAttempts.toNat - 1)).map (fun i => backoff cfg (1 + i))⟩⟩ := by
  have hm : 1 ≤ cfg.MaxAttempts.toNat := by omega
  obtain ⟨e, he⟩ := Option.ne_none_iff_exists'.mp (hfail cfg.MaxAttempts.toNat hm)
  obtain ⟨le, hle⟩ := Do_reaches_attempt ctx cfg fn s cfg.MaxAttempts.toNat hm (by omega)
    (fun i _ _ => (hctx i).1) (fun i _ _ => (hctx i).2) (fun i hi _ => hfail i hi)
  refine ⟨e, he, ?_⟩
  rw [hle, Nat.sub_self, Do.loop]
  have hlast : ((cfg.MaxAttempts.toNat : Nat) : Int) = cfg.MaxAttempts := by omega
  have he2 : (fn (stateAfter fn (cfg.MaxAttempts.toNat - 1) s)).1 = some e := he
  have hst : (fn (stateAfter fn (cfg.MaxAttempts.toNat - 1) s)).2 =
      stateAfter fn cfg.MaxAttempts.toNat s := by
    rw [← stateAfter_succ_outer]
    congr 1
    omega
  have hc : cfg.MaxAttempts.toNat - 1 + 1 = cfg.MaxAttempts.toNat := by omega
  simp [hlast, (hctx _).1, he2, hst, hc]

end

/-- C7: with `MaxAttempts = n ≥ 1`, no cancellation and an operation that fails on each
call, `Do` invokes the operation exactly `n` times and returns the error
`max retry attempts (n) exceeded` wrapping the error of the `n`-th call. -/
theorem Do_exhausted_wraps_last_error {σ : Type} (ctx : Context) (cfg : Config)
    (fn : σ → Option GoErr × σ) (s : σ) (hn : 1 ≤ cfg.MaxAttempts)
    (hctx : ∀ k, ctx.doneBefore k = false ∧ ctx.doneDuring k = false)
    (hfail : ∀ k, 1 ≤ k → errorOfCall fn k s ≠ none) :
    ((Do ctx cfg fn s).progress.calls : Int) = cfg.MaxAttempts ∧
    (Do ctx cfg fn s).progress.state = stateAfter fn cfg.MaxAttempts.toNat s ∧
    ∃ e, errorOfCall fn cfg.MaxAttempts.toNat s = some e ∧
      (Do ctx cfg fn s).err =
        some (GoErr.wrap ("max retry attempts (" ++ toString cfg.MaxAttempts ++ ") exceeded") e) ∧
      ((Do ctx cfg fn s).err.bind GoErr.unwrap) = some e := by
  obtain ⟨e, he, hdo⟩ := Do_all_failed ctx cfg fn s hn hctx hfail
  rw [hdo]
  refine ⟨by simp; omega, rfl, e, he, rfl, rfl⟩

end retry

end HousesPrices

namespace HousesPrices

namespace retry

/-- Witness for C7: the default configuration (3 attempts, 1 s, factor 2) on an
operation that always fails: three invocations, and the error of the third one is the
one wrapped. -/
theorem Do_exhausted_wraps_last_error_witness :
    (1 : Int) ≤ DefaultConfig.MaxAttempts ∧
    ((Do Context.background DefaultConfig alwaysFails 0).progress.calls : Int) = 3 ∧
    ∃ e, errorOfCall alwaysFails 3 0 = some e ∧
      (Do Context.background DefaultConfig alwaysFails 0).err =
        some (GoErr.wrap "max retry attempts (3) exceeded" e) ∧
      ((Do Context.background DefaultConfig alwaysFails 0).err.bind GoErr.unwrap) = some e :=
  ⟨by decide,
   (Do_exhausted_wraps_last_error Context.background DefaultConfig alwaysFails 0 (by decide)
      (fun _ => ⟨rfl, rfl⟩) (fun _ _ => by simp [errorOfCall, alwaysFails])).1,
   (Do_exhausted_wraps_last_error Context.background DefaultConfig alwaysFails 0 (by decide)
      (fun _ => ⟨rfl, rfl⟩) (fun _ _ => by simp [errorOfCall, alwaysFails])).2.2⟩

/-- C8 fails as stated: with 3 attempts, an initial delay of 3 ns, a bound of 1 s and
the multiplier 1.5, every quantity of the computation is a `float64` value, and the wait
after the second failed attempt is 4 ns, where `min (3 * 1.5 ^ (2 - 1)) 1000000000` is
4.5: `time.Duration(delay)` drops the fraction. -/
theorem Do_wait_drops_fraction :
    (Do Context.background ⟨3, 3, 1000000000, Float64.finite (3 / 2)⟩ alwaysFails
      0).progress.waits = [3, 4] ∧
    ((4 : Int) : ℚ) ≠ min ((3 : ℚ) * (3 / 2) ^ (2 - 1)) 1000000000 := by
  constructor
  · obtain ⟨e, _, hdo⟩ := Do_all_failed Context.background
      ⟨3, 3, 1000000000, Float64.finite (3 / 2)⟩ alwaysFails 0 (by decide)
      (fun _ => ⟨rfl, rfl⟩) (fun _ _ => by simp [errorOfCall, alwaysFails])
    rw [hdo]
    have hr : List.range ((3 : Int).toNat - 1) = [0, 1] := by decide
    have hI : Float64.IsValue ((3 : Int) : ℚ) := Float64.isValue_intCast 3 (by norm_num)
    have hM : Float64.IsValue ((1000000000 : Int) : ℚ) :=
      Float64.isValue_intCast 1000000000 (by norm_num)
    have h1 : Float64.IsValue ((1 : Int) : ℚ) := Float64.isValue_intCast 1 (by norm_num)
    have h32 : Float64.IsValue ((3 : Int) * (2 : ℚ) ^ (-1 : Int)) :=
      Float64.isValue_dyadic 3 (-1) (by norm_num) (by norm_num)
        (by rw [abs_of_pos (by norm_num)]; norm_num)
    have h92 : Float64.IsValue ((9 : Int) * (2 : ℚ) ^ (-1 : Int)) :=
      Float64.isValue_dyadic 9 (-1) (by norm_num) (by norm_num)
        (by rw [abs_of_pos (by norm_num)]; norm_num)
    have b0 := backoff_exact ⟨3, 3, 1000000000, Float64.finite (3 / 2)⟩ (3 / 2) 0 rfl hI hM
      (by simpa using h1) (by simpa using hI)
    have b1 := backoff_exact ⟨3, 3, 1000000000, Float64.finite (3 / 2)⟩ (3 / 2) 1 rfl hI hM
      (by
        convert h32 using 1
        norm_num)
      (by
        convert h92 using 1
        norm_num)
    have t0 : Float64.toInt64 (Float64.finite (min (((3 : Int) : ℚ) * (3 / 2) ^ 0)
        ((1000000000 : Int) : ℚ))) = 3 := by
      rw [Float64.toInt64_finite _ (by norm_num) (by norm_num)]
      norm_num
    have t1 : Float64.toInt64 (Float64.finite (min (((3 : Int) : ℚ) * (3 / 2) ^ 1)
        ((1000000000 : Int) : ℚ))) = 4 := by
      rw [Float64.toInt64_finite _ (by norm_num) (by norm_num)]
      have hmin : min (((3 : Int) : ℚ) * (3 / 2) ^ 1) ((1000000000 : Int) : ℚ) = 9 / 2 := by
        norm_num
      rw [hmin, if_pos (by norm_num), Int.floor_eq_iff]
      norm_num
    simp only [hr, List.map_cons, List.map_nil]
    rw [b0, b1, t0, t1]
  · norm_num

/-- C8 amended: for every configuration, without cancellation and with an operation
that fails on each call, `Do` starts `MaxAttempts - 1` timers, none after the final
attempt. When `InitialDelay`, `MaxDelay`, `Multiplier ^ (k - 1)` and
`InitialDelay * Multiplier ^ (k - 1)` are `float64` values (so that the `float64`
computation of the delay is exact) and the result is in the `int64` range, the timer
after failed attempt `k` lasts `min (InitialDelay * Multiplier ^ (k - 1)) MaxDelay` with
its fraction dropped. For a whole multiplier, when those quantities have size at most
`2 ^ 53`, it lasts exactly `min (InitialDelay * Multiplier ^ (k - 1)) MaxDelay`. With 3
attempts, factor 2 and an initial delay `u ≥ 0` with `2 * u ≤ MaxDelay ≤ 2 ^ 53` the
waits are `[u, 2 * u]`. -/
theorem Do_waits_are_capped_backoff {σ : Type} (ctx : Context) (cfg : Config)
    (fn : σ → Option GoErr × σ) (s : σ)
    (hctx : ∀ k, ctx.doneBefore k = false ∧ ctx.doneDuring k = false)
    (hfail : ∀ k, 1 ≤ k → errorOfCall fn k s ≠ none) :
    (Do ctx cfg fn s).progress.waits.length = cfg.MaxAttempts.toNat - 1 ∧
    (∀ (k : Nat) (μ : ℚ), 1 ≤ k → (k : Int) < cfg.MaxAttempts →
      cfg.Multiplier = Float64.finite μ →
      Float64.IsValue cfg.InitialDelay → Float64.IsValue cfg.MaxDelay →
      Float64.IsValue (μ ^ (k - 1)) →
      Float64.IsValue ((cfg.InitialDelay : ℚ) * μ ^ (k - 1)) →
      -(2 : ℚ) ^ 63 ≤ min ((cfg.InitialDelay : ℚ) * μ ^ (k - 1)) (cfg.MaxDelay : ℚ) →
      min ((cfg.InitialDelay : ℚ) * μ ^ (k - 1)) (cfg.MaxDelay : ℚ) < 2 ^ 63 →
      (Do ctx cfg fn s).progress.waits[k - 1]? =
        some (if 0 ≤ min ((cfg.InitialDelay : ℚ) * μ ^ (k - 1)) (cfg.MaxDelay : ℚ)
          then ⌊min ((cfg.InitialDelay : ℚ) * μ ^ (k - 1)) (cfg.MaxDelay : ℚ)⌋
          else ⌈min ((cfg.InitialDelay : ℚ) * μ ^ (k - 1)) (cfg.MaxDelay : ℚ)⌉)) ∧
    (∀ (k : Nat) (m : Int), 1 ≤ k → (k : Int) < cfg.MaxAttempts →
      cfg.Multiplier = Float64.finite m →
      |cfg.InitialDelay| ≤ 2 ^ 53 → |cfg.MaxDelay| ≤ 2 ^ 53 → |m ^ (k - 1)| ≤ 2 ^ 53 →
      |cfg.InitialDelay * m ^ (k - 1)| ≤ 2 ^ 53 →
      (Do ctx cfg fn s).progress.waits[k - 1]? =
        some (min (cfg.InitialDelay * m ^ (k - 1)) cfg.MaxDelay)) ∧
    (cfg.MaxAttempts = 3 → cfg.Multiplier = 2 → 0 ≤ cfg.InitialDelay →
      2 * cfg.InitialDelay ≤ cfg.MaxDelay → cfg.MaxDelay ≤ 2 ^ 53 →
      (Do ctx cfg fn s).progress.waits = [cfg.InitialDelay, 2 * cfg.InitialDelay]) := by
  have hw : (Do ctx cfg fn s).progress.waits =
      (List.range (cfg.MaxAttempts.toNat - 1)).map (fun i => backoff cfg (1 + i)) := by
    rcases le_or_lt 1 cfg.MaxAttempts with hn | hn
    · obtain ⟨e, _, hdo⟩ := Do_all_failed ctx cfg fn s hn hctx hfail
      rw [hdo]
    · have h0 : cfg.MaxAttempts.toNat = 0 := by omega
      simp [Do, h0, Do.loop]
  have hget : ∀ k : Nat, 1 ≤ k → (k : Int) < cfg.MaxAttempts →
      (Do ctx cfg fn s).progress.waits[k - 1]? = some (backoff cfg (1 + (k - 1))) := by
    intro k hk hlt
    have hr : k - 1 < cfg.MaxAttempts.toNat - 1 := by omega
    rw [hw]
    simp [List.getElem?_range, hr]
  refine ⟨by rw [hw]; simp, ?_, ?_, ?_⟩
  · intro k μ hk hlt hμ hI hM hp hd hlo hhi
    rw [hget k hk hlt, backoff_exact cfg μ (k - 1) hμ hI hM hp hd,
      Float64.toInt64_finite _ hlo hhi]
  · intro k m hk hlt hμ hI hM hp hd
    rw [hget k hk hlt, backoff_whole cfg m (k - 1) hμ hI hM hp hd]
  · intro h3 h2 hpos hcap hmax
    have hμ : cfg.Multiplier = Float64.finite ((2 : Int) : ℚ) := by
      rw [h2, Float64.ofNat_eq]
      norm_num
    have hI : |cfg.InitialDelay| ≤ 2 ^ 53 := by
      rw [abs_of_nonneg hpos]
      omega
    have hM : |cfg.MaxDelay| ≤ 2 ^ 53 := by
      rw [abs_of_nonneg (by omega)]
      exact hmax
    have b0 := backoff_whole cfg 2 0 hμ hI hM (by norm_num) (by simpa using hI)
    have b1 := backoff_whole cfg 2 1 hμ hI hM (by norm_num) (by
      rw [pow_one, abs_of_nonneg (by omega)]
      omega)
    have hr : List.range ((3 : Int).toNat - 1) = [0, 1] := by decide
    rw [hw, h3, hr]
    simp only [List.map_cons, List.map_nil, b0, b1, pow_zero, pow_one, mul_one]
    rw [min_eq_left (by omega), min_eq_left (by omega)]
    congr 2
    omega

/-- Witness for C8: the default configuration (3 attempts, 1 s, 30 s, factor 2) on an
operation that always fails waits 1 s and then 2 s. -/
theorem Do_waits_are_capped_backoff_witness :
    (Do Context.background DefaultConfig alwaysFails 0).progress.waits =
      [1000000000, 2000000000] :=
  (Do_waits_are_capped_backoff Context.background DefaultConfig alwaysFails 0
    (fun _ => ⟨rfl, rfl⟩) (fun _ _ => by simp [errorOfCall, alwaysFails])).2.2.2
    rfl rfl (by decide) (by decide) (by decide)

/-- C9: without cancellation, when the first successful call of the operation is its
`k`-th and `1 ≤ k ≤ MaxAttempts`, `Do` returns `nil`, has invoked the operation exactly
`k` times and has waited exactly `k - 1` times. -/
theorem Do_returns_on_first_success {σ : Type} (ctx : Context) (cfg : Config)
    (fn : σ → Option GoErr × σ) (s : σ) (k : Nat) (hk : 1 ≤ k)
    (hmax : (k : Int) ≤ cfg.MaxAttempts)
    (hctx : ∀ i, ctx.doneBefore i = false ∧ ctx.doneDuring i = false)
    (hfail : ∀ i, 1 ≤ i → i < k → errorOfCall fn i s ≠ none)
    (hok : errorOfCall fn k s = none) :
    (Do ctx cfg fn s).err = none ∧
    (Do ctx cfg fn s).progress.calls = k ∧
    (Do ctx cfg fn s).progress.waits.length = k - 1 ∧
    (Do ctx cfg fn s).progress.state = stateAfter fn k s := by
  obtain ⟨le, hle⟩ := Do_reaches_attempt ctx cfg fn s k hk hmax
    (fun i _ _ => (hctx i).1) (fun i _ _ => (hctx i).2) hfail
  have hok2 : (fn (stateAfter fn (k - 1) s)).1 = none := hok
  have hst : (fn (stateAfter fn (k - 1) s)).2 = stateAfter fn k s := by
    rw [← stateAfter_succ_outer]
    congr 1
    omega
  have hc : k - 1 + 1 = k := by omega
  rw [hle, Do.loop]
  simp [hmax, (hctx k).1, hok2, hst, hc]

/-- Witness for C9: with the default configuration an operation that succeeds on its
second call is invoked twice, after one wait. -/
theorem Do_returns_on_first_success_witness :
    (Do Context.background DefaultConfig (succeedsAt 2) 0).err = none ∧
    (Do Context.background DefaultConfig (succeedsAt 2) 0).progress.calls = 2 ∧
    (Do Context.background DefaultConfig (succeedsAt 2) 0).progress.waits.length = 2 - 1 ∧
    (Do Context.background DefaultConfig (succeedsAt 2) 0).progress.state =
      stateAfter (succeedsAt 2) 2 0 :=
  Do_returns_on_first_success Context.background DefaultConfig (succeedsAt 2) 0 2
    (by decide) (by decide) (fun _ => ⟨rfl, rfl⟩)
    (fun i h1 h2 => by
      have : i = 1 := by omega
      subst this
      decide)
    (by decide)

end retry

end HousesPrices

namespace HousesPrices

namespace service

/-! ## The orchestration workflow -/

section
variable {ρ : Type} (s : ScraperService ρ) (siteName : String)

/-- The loop only appends to the calls made before it. -/
theorem saveEach_calls (listings : List Listing) (repo : ρ) (n : Int) (calls : List Call) :
    (saveEach s siteName listings repo n calls).2.2 =
      calls ++ (saveEach s siteName listings repo 0 []).2.2 := by
  induction listings generalizing repo n calls with
  | nil => simp [saveEach]
  | cons l rest ih =>
    unfold saveEach
    cases h : (s.save repo { l with SiteName := siteName }).1 with
    | none =>
      simp only [h]
      rw [ih, ih _ _ ([] ++ _)]
      simp
    | some err =>
      simp only [h]
      rw [ih, ih _ _ ([] ++ _)]
      simp

/-- The final `savedCount` is the initial one plus the number of `Save` calls that
returned `nil`. -/
theorem saveEach_count (listings : List Listing) (repo : ρ) (n : Int) (calls : List Call) :
    (saveEach s siteName listings repo n calls).2.1 =
      n + (((saveEach s siteName listings repo 0 []).2.2.filter Call.isSavedOk).length : Int) := by
  induction listings generalizing repo n calls with
  | nil => simp [saveEach]
  | cons l rest ih =>
    unfold saveEach
    cases h : (s.save repo { l with SiteName := siteName }).1 with
    | none =>
      simp only [h]
      rw [ih, saveEach_calls s siteName rest _ _ ([] ++ _)]
      simp [Call.isSavedOk]
      omega
    | some err =>
      simp only [h]
      rw [ih, saveEach_calls s siteName rest _ _ ([] ++ _)]
      simp [Call.isSavedOk]

/-- `Save` is called once for each listing, in order, with the site name filled in. -/
theorem saveEach_saved (listings : List Listing) (repo : ρ) (n : Int) :
    (saveEach s siteName listings repo n []).2.2.filterMap Call.savedListing =
      listings.map (fun l => { l with SiteName := siteName }) := by
  induction listings generalizing repo n with
  | nil => simp [saveEach]
  | cons l rest ih =>
    unfold saveEach
    cases h : (s.save repo { l with SiteName := siteName }).1 with
    | none =>
      simp only [h]
      rw [saveEach_calls, List.filterMap_append, ih]
      simp [Call.savedListing]
    | some err =>
      simp only [h]
      rw [saveEach_calls, List.filterMap_append, ih]
      simp [Call.savedListing]

/-- The loop makes no notification and no `Scrape` call. -/
theorem saveEach_no_notification (listings : List Listing) (repo : ρ) (n : Int) :
    (saveEach s siteName listings repo n []).2.2.filter Call.isNotification = [] ∧
    (saveEach s siteName listings repo n []).2.2.filter Call.isScrape = [] := by
  induction listings generalizing repo n with
  | nil => simp [saveEach]
  | cons l rest ih =>
    unfold saveEach
    cases h : (s.save repo { l with SiteName := siteName }).1 with
    | none =>
      simp only [h]
      rw [saveEach_calls]
      simp [List.filter_append, ih, Call.isNotification, Call.isScrape]
    | some err =>
      simp only [h]
      rw [saveEach_calls]
      simp [List.filter_append, ih, Call.isNotification, Call.isScrape]

/-- The repository the loop leaves is the one reached by calling `Save` on each listing
in turn, each call starting from the repository the previous one left. -/
theorem saveEach_repo (listings : List Listing) (repo : ρ) (n : Int) (calls : List Call) :
    (saveEach s siteName listings repo n calls).1 =
      (listings.map (fun l => { l with SiteName := siteName })).foldl
        (fun r l => (s.save r l).2) repo := by
  induction listings generalizing repo n calls with
  | nil => simp [saveEach]
  | cons l rest ih =>
    unfold saveEach
    cases h : (s.save repo { l with SiteName := siteName }).1 with
    | none =>
      simp only [h]
      rw [ih]
      simp
    | some err =>
      simp only [h]
      rw [ih]
      simp

/-- Each `Save` call of the loop is made on the repository the earlier calls left and
records what `repository.Save` returned there. -/
theorem saveEach_outcomes (listings : List Listing) (repo : ρ) (n : Int) :
    (saveEach s siteName listings repo n []).2.2.filterMap Call.saveOutcome =
      List.zipWith (fun r l => (l, (s.save r l).1))
        ((listings.map (fun l => { l with SiteName := siteName })).scanl
          (fun r l => (s.save r l).2) repo)
        (listings.map (fun l => { l with SiteName := siteName })) := by
  induction listings generalizing repo n with
  | nil => simp [saveEach]
  | cons l rest ih =>
    unfold saveEach
    cases h : (s.save repo { l with SiteName := siteName }).1 with
    | none =>
      simp only [h]
      rw [saveEach_calls, List.filterMap_append, ih]
      simp [Call.saveOutcome, h]
    | some err =>
      simp only [h]
      rw [saveEach_calls, List.filterMap_append, ih]
      simp [Call.saveOutcome, h]

/-- The number of `Save` calls of the loop that returned `nil` is the number of
listings on which `repository.Save`, called in turn, returns `nil`. -/
theorem saveEach_ok_count (listings : List Listing) (repo : ρ) (n : Int) :
    ((saveEach s siteName listings repo n []).2.2.filter Call.isSavedOk).length =
      ((List.zipWith (fun r l => (s.save r l).1)
        ((listings.map (fun l => { l with SiteName := siteName })).scanl
          (fun r l => (s.save r l).2) repo)
        (listings.map (fun l => { l with SiteName := siteName }))).filter
          Option.isNone).length := by
  induction listings generalizing repo n with
  | nil => simp [saveEach]
  | cons l rest ih =>
    unfold saveEach
    cases h : (s.save repo { l with SiteName := siteName }).1 with
    | none =>
      simp only [h]
      rw [saveEach_calls, List.filter_append, List.length_append, ih]
      simp [Call.isSavedOk, h]
      omega
    | some err =>
      simp only [h]
      rw [saveEach_calls, List.filter_append, List.length_append, ih]
      simp [Call.isSavedOk, h]

end

/-- C11: for a registered site whose extractor returns a result with records
`r1..rn`, with a notifier set, `ScrapeWebsite` returns `nil`; it calls
`repository.Save` once for each record in order (with the site name filled in), each
call on the repository the earlier calls left, whatever those returned, so the
repository it leaves is the one reached by saving `r1..rn` in turn; and it makes
exactly one notification, `NotifySuccess(site, k)`, where `k` is the number of records
on which `repository.Save` returned `nil`. -/
theorem ScrapeWebsite_saves_each_and_notifies_saved_count {ρ : Type} (s : ScraperService ρ)
    (repo : ρ) (siteName url : String) (scraper : Scraper) (result : ScrapeResult)
    (hreg : s.scrapers siteName = some scraper) (hok : scraper url = .ok result)
    (hnot : s.hasNotifier = true) :
    (ScrapeWebsite s repo siteName url).err = none ∧
    (ScrapeWebsite s repo siteName url).calls.filterMap Call.savedListing =
      result.Listings.map (fun l => { l with SiteName := siteName }) ∧
    (ScrapeWebsite s repo siteName url).calls.filterMap Call.saveOutcome =
      List.zipWith (fun r l => (l, (s.save r l).1))
        ((result.Listings.map (fun l => { l with SiteName := siteName })).scanl
          (fun r l => (s.save r l).2) repo)
        (result.Listings.map (fun l => { l with SiteName := siteName })) ∧
    (ScrapeWebsite s repo siteName url).repo =
      (result.Listings.map (fun l => { l with SiteName := siteName })).foldl
        (fun r l => (s.save r l).2) repo ∧
    (ScrapeWebsite s repo siteName url).calls.filter Call.isNotification =
      [Call.notifySuccess siteName
        (((List.zipWith (fun r l => (s.save r l).1)
          ((result.Listings.map (fun l => { l with SiteName := siteName })).scanl
            (fun r l => (s.save r l).2) repo)
          (result.Listings.map (fun l => { l with SiteName := siteName }))).filter
            Option.isNone).length : Int)] ∧
    (ScrapeWebsite s repo siteName url).calls.filter Call.isNotification =
      [Call.notifySuccess siteName
        (((ScrapeWebsite s repo siteName url).calls.filter Call.isSavedOk).length : Int)] := by
  have hrun : ScrapeWebsite s repo siteName url =
      ⟨none, (saveEach s siteName result.Listings repo 0
          [Call.log "info" "starting scrape job", Call.scrape siteName url]).1,
        [Call.log "info" "starting scrape job", Call.scrape siteName url] ++
          (saveEach s siteName result.Listings repo 0 []).2.2 ++
          [Call.log "info" "scrape job completed"] ++
          [Call.notifySuccess siteName
            (((saveEach s siteName result.Listings repo 0 []).2.2.filter
              Call.isSavedOk).length : Int)]⟩ := by
    unfold ScrapeWebsite
    simp only [hreg, hok, hnot, if_true]
    rw [saveEach_calls, saveEach_count]
    simp
  rw [hrun]
  refine ⟨rfl, ?_, ?_, ?_, ?_, ?_⟩
  · simp [List.filterMap_append, saveEach_saved, Call.savedListing]
  · simp [List.filterMap_append, saveEach_outcomes, Call.saveOutcome]
  · exact saveEach_repo s siteName _ _ _ _
  · simp [List.filter_append, (saveEach_no_notification s siteName _ repo 0).1,
      Call.isNotification, saveEach_ok_count]
  · simp [List.filter_append, (saveEach_no_notification s siteName _ repo 0).1,
      Call.isNotification, Call.isSavedOk]

/-- Witness for C11: five records, `Save` failing on the third: the call returns `nil`,
the repository holds the four other records, and the one notification is
`NotifySuccess("rumah123", 4)`. -/
theorem ScrapeWebsite_saves_each_and_notifies_saved_count_witness :
    (ScrapeWebsite
      (RegisterScraper (NewScraperService (exampleSave "/c") true) "rumah123"
        (exampleScraper ["/a", "/b", "/c", "/d", "/e"]))
      [] "rumah123" "https://www.rumah123.com/jual").err = none ∧
    (ScrapeWebsite
      (RegisterScraper (NewScraperService (exampleSave "/c") true) "rumah123"
        (exampleScraper ["/a", "/b", "/c", "/d", "/e"]))
      [] "rumah123" "https://www.rumah123.com/jual").repo =
      ["/a", "/b", "/d", "/e"].map
        (fun u => { exampleListing u with SiteName := "rumah123" }) ∧
    (ScrapeWebsite
      (RegisterScraper (NewScraperService (exampleSave "/c") true) "rumah123"
        (exampleScraper ["/a", "/b", "/c", "/d", "/e"]))
      [] "rumah123" "https://www.rumah123.com/jual").calls.filter Call.isNotification =
      [Call.notifySuccess "rumah123" 4] := by
  have h := ScrapeWebsite_saves_each_and_notifies_saved_count
    (RegisterScraper (NewScraperService (exampleSave "/c") true) "rumah123"
      (exampleScraper ["/a", "/b", "/c", "/d", "/e"]))
    [] "rumah123" "https://www.rumah123.com/jual"
    (exampleScraper ["/a", "/b", "/c", "/d", "/e"])
    (exampleResult (["/a", "/b", "/c", "/d", "/e"].map exampleListing))
    (by simp [RegisterScraper]) rfl rfl
  refine ⟨h.1, ?_, ?_⟩
  · rw [h.2.2.2.1]
    decide
  · rw [h.2.2.2.2.1]
    decide

end service

end HousesPrices

namespace HousesPrices

namespace service

/-- C12: for a registered site whose extractor returns the error `e`, with a notifier
set, `ScrapeWebsite` makes exactly one notification, `NotifyError(site, e)`, never
calls `Save`, leaves the repository as it was, and returns the error
`scraping <site>` wrapping `e`. -/
theorem ScrapeWebsite_extractor_error {ρ : Type} (s : ScraperService ρ) (repo : ρ)
    (siteName url : String) (scraper : Scraper) (e : GoErr)
    (hreg : s.scrapers siteName = some scraper) (hfail : scraper url = .error e)
    (hnot : s.hasNotifier = true) :
    (ScrapeWebsite s repo siteName url).calls.filter Call.isNotification =
      [Call.notifyError siteName e] ∧
    (ScrapeWebsite s repo siteName url).calls.filterMap Call.savedListing = [] ∧
    (ScrapeWebsite s repo siteName url).repo = repo ∧
    (ScrapeWebsite s repo siteName url).err = some (GoErr.wrap ("scraping " ++ siteName) e) ∧
    (ScrapeWebsite s repo siteName url).err.bind GoErr.unwrap = some e := by
  unfold ScrapeWebsite
  simp [hreg, hfail, hnot, Call.isNotification, Call.savedListing, GoErr.unwrap]

/-- Witness for C12: the extractor registered for `badsite` fails on every URL. -/
theorem ScrapeWebsite_extractor_error_witness :
    (ScrapeWebsite
      (RegisterScraper (NewScraperService (exampleSave "") true) "badsite"
        (fun _ => .error (GoErr.plain "scrape failed")))
      [] "badsite" "http://example.com").calls.filter Call.isNotification =
      [Call.notifyError "badsite" (GoErr.plain "scrape failed")] ∧
    (ScrapeWebsite
      (RegisterScraper (NewScraperService (exampleSave "") true) "badsite"
        (fun _ => .error (GoErr.plain "scrape failed")))
      [] "badsite" "http://example.com").err =
      some (GoErr.wrap "scraping badsite" (GoErr.plain "scrape failed")) :=
  ⟨(ScrapeWebsite_extractor_error
      (RegisterScraper (NewScraperService (exampleSave "") true) "badsite"
        (fun _ => .error (GoErr.plain "scrape failed")))
      [] "badsite" "http://example.com" (fun _ => .error (GoErr.plain "scrape failed"))
      (GoErr.plain "scrape failed") (by simp [RegisterScraper]) rfl rfl).1,
   (ScrapeWebsite_extractor_error
      (RegisterScraper (NewScraperService (exampleSave "") true) "badsite"
        (fun _ => .error (GoErr.plain "scrape failed")))
      [] "badsite" "http://example.com" (fun _ => .error (GoErr.plain "scrape failed"))
      (GoErr.plain "scrape failed") (by simp [RegisterScraper]) rfl rfl).2.2.2.1⟩

/-- C13: for a site that is not in the `scrapers` map `ScrapeWebsite` returns an error
at once, making no call at all (no `Scrape`, no `Save`, no notification) and leaving the
repository as it was; after `RegisterScraper(name, scraper)` the map holds `scraper`
under `name`, and a call for `name` invokes it on the URL: its error is the one
wrapped, its records are the ones saved. -/
theorem ScrapeWebsite_unregistered_site {ρ : Type} (s : ScraperService ρ) (repo : ρ)
    (siteName url : String) (scraper : Scraper) :
    (s.scrapers siteName = none →
      (ScrapeWebsite s repo siteName url).err ≠ none ∧
      (ScrapeWebsite s repo siteName url).calls = [] ∧
      (ScrapeWebsite s repo siteName url).repo = repo) ∧
    (RegisterScraper s siteName scraper).scrapers siteName = some scraper ∧
    Call.scrape siteName url ∈
      (ScrapeWebsite (RegisterScraper s siteName scraper) repo siteName url).calls ∧
    (∀ e, scraper url = .error e →
      (ScrapeWebsite (RegisterScraper s siteName scraper) repo siteName url).err =
        some (GoErr.wrap ("scraping " ++ siteName) e)) ∧
    (∀ result, scraper url = .ok result →
      (ScrapeWebsite (RegisterScraper s siteName scraper) repo siteName url).calls.filterMap
          Call.savedListing =
        result.Listings.map (fun l => { l with SiteName := siteName })) := by
  have hreg : (RegisterScraper s siteName scraper).scrapers siteName = some scraper := by
    simp [RegisterScraper]
  refine ⟨?_, hreg, ?_, ?_, ?_⟩
  · intro hnone
    unfold ScrapeWebsite
    simp [hnone]
  · unfold ScrapeWebsite
    simp only [hreg]
    cases hs : scraper url with
    | error e => simp
    | ok result =>
      simp only []
      rw [saveEach_calls]
      simp
  · intro e he
    unfold ScrapeWebsite
    simp [hreg, he]
  · intro result hres
    unfold ScrapeWebsite
    simp only [hreg, hres]
    rw [saveEach_calls]
    cases (RegisterScraper s siteName scraper).hasNotifier <;>
      simp [List.filterMap_append, saveEach_saved, Call.savedListing]

/-- Witness for C13: a service with no scraper registered, asked for `nosite`. -/
theorem ScrapeWebsite_unregistered_site_witness :
    (ScrapeWebsite (NewScraperService (exampleSave "") true) [] "nosite"
      "http://example.com").err ≠ none ∧
    (ScrapeWebsite (NewScraperService (exampleSave "") true) [] "nosite"
      "http://example.com").calls = [] ∧
    (ScrapeWebsite (NewScraperService (exampleSave "") true) [] "nosite"
      "http://example.com").repo = [] :=
  (ScrapeWebsite_unregistered_site (NewScraperService (exampleSave "") true) []
    "nosite" "http://example.com" (exampleScraper [])).1 rfl

end service

end HousesPrices

namespace HousesPrices

/-! ## Go strings: lemmas -/

theorem isDigit_iff (c : Char) : isDigit c = true ↔ 48 ≤ c.toNat ∧ c.toNat ≤ 57 := by
  simp [isDigit]

theorem asciiLower_of_isDigit {c : Char} (h : isDigit c = true) : asciiLower c = c := by
  have := (isDigit_iff c).mp h
  unfold asciiLower
  rw [if_neg (by omega)]

theorem dropWhile_eq_self {α : Type} (p : α → Bool) (l : List α)
    (h : ∀ x ∈ l, p x = false) : l.dropWhile p = l := by
  cases l with
  | nil => rfl
  | cons a t => simp [List.dropWhile, h a (by simp)]

theorem takeWhile_eq_self {α : Type} (p : α → Bool) (l : List α)
    (h : ∀ x ∈ l, p x = true) : l.takeWhile p = l := by
  induction l with
  | nil => rfl
  | cons a t ih =>
    simp only [List.takeWhile, h a (by simp)]
    rw [ih (fun x hx => h x (by simp [hx]))]

namespace strings

theorem toLowerRune_of_isDigit {c : Char} (h : isDigit c = true) : toLowerRune c = c := by
  have := (isDigit_iff c).mp h
  unfold toLowerRune
  rw [if_neg (by omega), if_neg (by omega), if_neg (by omega)]

theorem toLowerRune_eq_asciiLower {c : Char} (h : (asciiLower c).toNat < 128) :
    toLowerRune c = asciiLower c := by
  unfold toLowerRune asciiLower at *
  by_cases hc : 65 ≤ c.toNat ∧ c.toNat ≤ 90
  · simp [hc]
  · rw [if_neg hc] at h
    rw [if_neg hc, if_neg hc, if_neg (by omega), if_neg (by omega)]

theorem Contains_eq_false_of_not_mem {c : Char} {substr : List Char} (hc : c ∈ substr)
    (s : List Char) (hs : c ∉ s) : Contains s substr = false := by
  induction s with
  | nil =>
    cases substr with
    | nil => simp at hc
    | cons a t => rfl
  | cons a t ih =>
    unfold Contains
    have h1 : substr.isPrefixOf (a :: t) = false := by
      rw [Bool.eq_false_iff]
      intro hp
      exact hs ((List.isPrefixOf_iff_prefix.mp hp).subset hc)
    rw [h1, ih (fun h => hs (List.mem_cons_of_mem _ h))]
    rfl

theorem Contains_singleton_of_mem {c : Char} (s : List Char) (hs : c ∈ s) :
    Contains s [c] = true := by
  induction s with
  | nil => simp at hs
  | cons a t ih =>
    unfold Contains
    rcases List.mem_cons.mp hs with h | h
    · subst h
      simp [List.isPrefixOf]
    · rw [ih h]
      simp

theorem Contains_append_self (a b : List Char) : Contains (a ++ b) b = true := by
  induction a with
  | nil =>
    cases b with
    | nil => rfl
    | cons c t =>
      have hp : (c :: t).isPrefixOf (c :: t) = true :=
        List.isPrefixOf_iff_prefix.mpr (List.prefix_refl _)
      rw [List.nil_append, Contains, hp]
      rfl
  | cons c t ih =>
    rw [List.cons_append]
    unfold Contains
    rw [ih]
    simp

theorem ReplaceAll.go_mem (old : List Char) (s : List Char) (skip : Nat) (c : Char)
    (h : c ∈ ReplaceAll.go old [] s skip) : c ∈ s := by
  induction s generalizing skip with
  | nil => simp [ReplaceAll.go] at h
  | cons a t ih =>
    cases skip with
    | succ k =>
      rw [ReplaceAll.go] at h
      exact List.mem_cons_of_mem _ (ih _ h)
    | zero =>
      rw [ReplaceAll.go] at h
      split at h
      · exact List.mem_cons_of_mem _ (ih _ (by simpa using h))
      · rcases List.mem_cons.mp h with h | h
        · exact h ▸ List.mem_cons_self _ _
        · exact List.mem_cons_of_mem _ (ih _ h)

theorem ReplaceAll_mem (s old : List Char) (c : Char) (h : c ∈ ReplaceAll s old []) : c ∈ s :=
  ReplaceAll.go_mem old s 0 c h

theorem ReplaceAll_eq_self (s old new : List Char) (h : Contains s old = false) :
    ReplaceAll s old new = s := by
  unfold ReplaceAll
  induction s with
  | nil => rfl
  | cons a t ih =>
    unfold Contains at h
    rw [Bool.or_eq_false_iff] at h
    rw [ReplaceAll.go, if_neg (by simp [h.1]), ih h.2]

theorem ReplaceAll_singleton (s : List Char) (a : Char) :
    ReplaceAll s [a] [] = s.filter (fun c => c != a) := by
  unfold ReplaceAll
  induction s with
  | nil => rfl
  | cons c t ih =>
    rw [ReplaceAll.go]
    by_cases hc : c = a
    · subst hc
      simp [List.isPrefixOf, ih]
    · have hne : (a == c) = false := by simp [Ne.symm hc]
      simp [List.isPrefixOf, hne, ih, hc]

theorem TrimSpace_eq_self (s : List Char) (h : ∀ c ∈ s, isSpace c = false) :
    TrimSpace s = s := by
  unfold TrimSpace
  rw [dropWhile_eq_self _ _ h, dropWhile_eq_self _ _ (fun c hc => h c (List.mem_reverse.mp hc)),
    List.reverse_reverse]

theorem TrimSpace_mem (s : List Char) (c : Char) (h : c ∈ TrimSpace s) : c ∈ s := by
  unfold TrimSpace at h
  rw [List.mem_reverse] at h
  have h2 := (List.dropWhile_suffix isSpace).subset h
  rw [List.mem_reverse] at h2
  exact (List.dropWhile_suffix isSpace).subset h2

theorem isSpace_of_isDigit {c : Char} (h : isDigit c = true) : isSpace c = false := by
  have := (isDigit_iff c).mp h
  simp only [isSpace, Bool.or_eq_false_iff, decide_eq_false_iff_not]
  refine ⟨?_, by omega⟩
  simp only [List.contains, List.elem_eq_mem, List.mem_cons, decide_eq_false_iff_not]
  simp
  omega

end strings

namespace regexp

theorem removeAll_mem (matchLen : List Char → Nat) (s : List Char) (skip : Nat) (c : Char)
    (h : c ∈ removeAll matchLen s skip) : c ∈ s := by
  induction s generalizing skip with
  | nil => simp [removeAll] at h
  | cons a t ih =>
    cases skip with
    | succ k =>
      rw [removeAll] at h
      exact List.mem_cons_of_mem _ (ih _ h)
    | zero =>
      rw [removeAll] at h
      split at h
      · rcases List.mem_cons.mp h with h | h
        · exact h ▸ List.mem_cons_self _ _
        · exact List.mem_cons_of_mem _ (ih _ h)
      · exact List.mem_cons_of_mem _ (ih _ h)

theorem removeAll_skip_all (matchLen : List Char → Nat) (s : List Char) (skip : Nat)
    (h : s.length ≤ skip) : removeAll matchLen s skip = [] := by
  induction s generalizing skip with
  | nil => rfl
  | cons a t ih =>
    cases skip with
    | zero => simp at h
    | succ k =>
      rw [removeAll]
      exact ih k (by simpa using h)

/-- Removing the matches from digits followed by one match leaves the digits. -/
theorem removeAll_digits_append (matchLen : List Char → Nat) (ds suffix : List Char)
    (hd : ∀ d t, isDigit d = true → matchLen (d :: t) = 0)
    (hne : suffix ≠ []) (hs : matchLen suffix = suffix.length)
    (hds : ∀ c ∈ ds, isDigit c = true) : removeAll matchLen (ds ++ suffix) 0 = ds := by
  induction ds with
  | nil =>
    cases suffix with
    | nil => exact absurd rfl hne
    | cons c t =>
      rw [List.nil_append, removeAll, hs]
      simp only [List.length_cons]
      exact removeAll_skip_all _ _ _ le_rfl
  | cons d t ih =>
    rw [List.cons_append, removeAll, hd d _ (hds d (by simp))]
    simp only []
    rw [ih (fun c hc => hds c (by simp [hc]))]

theorem findRun_eq_self (cls : Char → Bool) (s : List Char) (h : ∀ c ∈ s, cls c = true) :
    findRun cls s = s := by
  unfold findRun
  rw [dropWhile_eq_self _ _ (fun c hc => by simp [h c hc]), takeWhile_eq_self _ _ h]

theorem findRun_mem (cls : Char → Bool) (s : List Char) (c : Char) (h : c ∈ findRun cls s) :
    c ∈ s ∧ cls c = true := by
  unfold findRun at h
  refine ⟨?_, ?_⟩
  · exact (List.dropWhile_suffix _).subset ((List.takeWhile_prefix _).subset h)
  · exact List.mem_takeWhile_imp h

end regexp

end HousesPrices

namespace HousesPrices

namespace scrape

/-! ## `ParsePrice` -/

theorem digitOrComma_of_isDigit {c : Char} (h : isDigit c = true) : digitOrComma c = true := by
  simp [digitOrComma, h]

theorem ne_of_isDigit {c x : Char} (h : isDigit c = true) (hx : isDigit x = false) : c ≠ x := by
  rintro rfl
  rw [h] at hx
  exact absurd hx (by decide)

theorem strconv_ParseFloat_digits (ds : List Char) (hne : ds ≠ [])
    (hds : ∀ c ∈ ds, isDigit c = true) :
    strconv.ParseFloat ds = strconv.rounded ds (strconv.digitsValue ds : ℚ) := by
  unfold strconv.ParseFloat
  have h1 : ds.dropWhile isDigit = [] := List.dropWhile_eq_nil_iff.mpr hds
  have h2 : ds.takeWhile isDigit = ds := takeWhile_eq_self _ _ hds
  simp only [h1, h2, if_neg hne]

theorem strconv_rounded_of_finite (s : List Char) (q v : ℚ)
    (h : Float64.nearest q = Float64.finite v) :
    strconv.rounded s q = .ok (Float64.finite v) := by
  unfold strconv.rounded
  rw [h]

theorem strconv_rounded_of_inf (s : List Char) (q : ℚ) (b : Bool)
    (h : Float64.nearest q = Float64.inf b) :
    strconv.rounded s q = .error (strconv.rangeError s) := by
  unfold strconv.rounded
  rw [h]

theorem filter_ne_of_isDigit (ds : List Char) (x : Char) (hx : isDigit x = false)
    (hds : ∀ c ∈ ds, isDigit c = true) : ds.filter (fun c => c != x) = ds := by
  apply List.filter_eq_self.mpr
  intro c hc
  simpa using ne_of_isDigit (hds c hc) hx

/-- The last statements of `ParsePrice`, once the search has found `run` in the text
that the first two steps left: the result is that of `strconv.ParseFloat` on `run`
without its commas, an error being wrapped and a number being multiplied. -/
theorem ParsePrice_of_found (s : String) (hs : s ≠ "") (mult : Float64) (t run ds : List Char)
    (hm : magnitude (stripCurrency s.data) = (mult, t))
    (hrun : regexp.findRun digitOrComma (strings.TrimSpace t) = run) (hne : run ≠ [])
    (hds : strings.ReplaceAll run ",".data [] = ds) :
    (∀ num, strconv.ParseFloat ds = .ok num → ParsePrice s = (Float64.mul num mult, none)) ∧
    (∀ err, strconv.ParseFloat ds = .error err →
      ParsePrice s = (0, some (GoErr.wrap "parsing number" err))) := by
  constructor
  · intro num hnum
    rw [ParsePrice, if_neg hs]
    dsimp only
    rw [hm]
    dsimp only
    rw [hrun, if_neg hne, hds, hnum]
  · intro err herr
    rw [ParsePrice, if_neg hs]
    dsimp only
    rw [hm]
    dsimp only
    rw [hrun, if_neg hne, hds, herr]

/-- The last statements of `ParsePrice` when the run found, without its commas, is the
non-empty run of digits `ds`, and the multiplier is the whole number `mult`: the value
of `ds` is rounded to a `float64`, which is an error when it is out of range, and the
product with the multiplier is rounded again; nothing is rounded when the value and the
product are at most `2 ^ 53`. -/
theorem ParsePrice_of_digits (s : String) (hs : s ≠ "") (mult : Nat) (t run ds : List Char)
    (hm : magnitude (stripCurrency s.data) = (Float64.finite (mult : ℚ), t))
    (hrun : regexp.findRun digitOrComma (strings.TrimSpace t) = run) (hne : run ≠ [])
    (hds : strings.ReplaceAll run ",".data [] = ds) (hdne : ds ≠ [])
    (hdig : ∀ c ∈ ds, isDigit c = true) :
    (∀ v, Float64.nearest (strconv.digitsValue ds : ℚ) = Float64.finite v →
      ParsePrice s = (Float64.nearest (v * mult), none)) ∧
    (Float64.nearest (strconv.digitsValue ds : ℚ) = Float64.inf false →
      ParsePrice s = (0, some (GoErr.wrap "parsing number" (strconv.rangeError ds)))) ∧
    (strconv.digitsValue ds ≤ 2 ^ 53 → strconv.digitsValue ds * mult ≤ 2 ^ 53 →
      ParsePrice s = (Float64.finite ((strconv.digitsValue ds : ℚ) * mult), none)) := by
  obtain ⟨hok, herr⟩ := ParsePrice_of_found s hs _ t run ds hm hrun hne hds
  have hpf := strconv_ParseFloat_digits ds hdne hdig
  have h1 : ∀ v, Float64.nearest (strconv.digitsValue ds : ℚ) = Float64.finite v →
      ParsePrice s = (Float64.nearest (v * mult), none) := by
    intro v hv
    rw [hok _ (by rw [hpf, strconv_rounded_of_finite _ _ _ hv])]
    rfl
  refine ⟨h1, ?_, ?_⟩
  · intro hinf
    exact herr _ (by rw [hpf, strconv_rounded_of_inf _ _ _ hinf])
  · intro hv hp
    rw [h1 _ (Float64.isValue_natCast _ hv)]
    have := Float64.isValue_natCast _ hp
    rw [Nat.cast_mul] at this
    rw [this]

/-- The last step of `ParsePrice` on a text that is a non-empty run of digits. -/
theorem ParsePrice_of_magnitude (s : String) (hs : s ≠ "") (mult : Nat) (ds : List Char)
    (hne : ds ≠ []) (hds : ∀ c ∈ ds, isDigit c = true)
    (hm : magnitude (stripCurrency s.data) = (Float64.finite (mult : ℚ), ds)) :
    (∀ v, Float64.nearest (strconv.digitsValue ds : ℚ) = Float64.finite v →
      ParsePrice s = (Float64.nearest (v * mult), none)) ∧
    (Float64.nearest (strconv.digitsValue ds : ℚ) = Float64.inf false →
      ParsePrice s = (0, some (GoErr.wrap "parsing number" (strconv.rangeError ds)))) ∧
    (strconv.digitsValue ds ≤ 2 ^ 53 → strconv.digitsValue ds * mult ≤ 2 ^ 53 →
      ParsePrice s = (Float64.finite ((strconv.digitsValue ds : ℚ) * mult), none)) := by
  have h1 : strings.TrimSpace ds = ds :=
    strings.TrimSpace_eq_self _ (fun c hc => strings.isSpace_of_isDigit (hds c hc))
  have h2 : regexp.findRun digitOrComma ds = ds :=
    regexp.findRun_eq_self _ _ (fun c hc => digitOrComma_of_isDigit (hds c hc))
  have h3 : strings.ReplaceAll ds ",".data [] = ds := by
    rw [show ",".data = [','] from rfl, strings.ReplaceAll_singleton]
    exact filter_ne_of_isDigit ds ',' (by decide) hds
  exact ParsePrice_of_digits s hs mult ds ds ds hm (by rw [h1, h2]) hne h3 hne hds

theorem magnitude_digits (ds : List Char) (hds : ∀ c ∈ ds, isDigit c = true) :
    magnitude ds = (1, ds) := by
  unfold magnitude
  have hl : strings.ToLower ds = ds := by
    unfold strings.ToLower
    exact (List.map_congr_left (fun c hc => strings.toLowerRune_of_isDigit (hds c hc))).trans
      (List.map_id _)
  have hm : 'm' ∉ ds := fun h => ne_of_isDigit (hds _ h) (by decide) rfl
  have hj : 'j' ∉ ds := fun h => ne_of_isDigit (hds _ h) (by decide) rfl
  rw [hl, strings.Contains_eq_false_of_not_mem (c := 'm') (by decide) ds hm,
    strings.Contains_eq_false_of_not_mem (c := 'm') (by decide) ds hm,
    strings.Contains_eq_false_of_not_mem (c := 'j') (by decide) ds hj]
  rfl

theorem withDots_filter (ds : List Char) (hds : ∀ c ∈ ds, isDigit c = true) :
    (withDots ds).filter (fun c => c != '.') = ds := by
  induction ds with
  | nil => rfl
  | cons d t ih =>
    have hd : (d != '.') = true := by simpa using ne_of_isDigit (hds d (by simp)) (by decide)
    have iht := ih (fun c hc => hds c (by simp [hc]))
    unfold withDots
    split <;> simp [List.filter, hd, iht]

theorem withDots_mem (ds : List Char) (c : Char) (h : c ∈ withDots ds) : c ∈ ds ∨ c = '.' := by
  induction ds with
  | nil => simp [withDots] at h
  | cons d t ih =>
    unfold withDots at h
    split at h
    · simp only [List.mem_cons] at h
      rcases h with h | h | h
      · exact Or.inl (by simp [h])
      · exact Or.inr h
      · rcases ih h with h | h
        · exact Or.inl (by simp [h])
        · exact Or.inr h
    · simp only [List.mem_cons] at h
      rcases h with h | h
      · exact Or.inl (by simp [h])
      · rcases ih h with h | h
        · exact Or.inl (by simp [h])
        · exact Or.inr h

/-- Removing `"Rp"` from a text that starts with `"Rp"` and has no further `p`. -/
theorem ReplaceAll_Rp_head (rest : List Char) (h : 'p' ∉ rest) :
    strings.ReplaceAll ('R' :: 'p' :: rest) "Rp".data [] = rest := by
  have e := strings.ReplaceAll_eq_self rest "Rp".data []
    (strings.Contains_eq_false_of_not_mem (c := 'p') (by decide) rest h)
  unfold strings.ReplaceAll at e ⊢
  rw [strings.ReplaceAll.go, if_pos (by simp [List.isPrefixOf])]
  show [] ++ strings.ReplaceAll.go "Rp".data [] ('p' :: rest) (0 + 1) = rest
  rw [strings.ReplaceAll.go]
  exact e

theorem stripCurrency_Rp_withDots (ds : List Char) (hds : ∀ c ∈ ds, isDigit c = true) :
    stripCurrency ("Rp ".data ++ withDots ds) = ds := by
  have hp : 'p' ∉ ' ' :: withDots ds := by
    intro h
    rcases List.mem_cons.mp h with h | h
    · exact absurd h (by decide)
    · rcases withDots_mem ds _ h with h | h
      · exact ne_of_isDigit (hds _ h) (by decide) rfl
      · exact absurd h (by decide)
  have hsp : (withDots ds).filter (fun c => c != ' ') = withDots ds := by
    apply List.filter_eq_self.mpr
    intro c hc
    rcases withDots_mem ds _ hc with h | h
    · simpa using ne_of_isDigit (hds _ h) (by decide)
    · subst h; decide
  unfold stripCurrency
  simp only [show "Rp ".data ++ withDots ds = 'R' :: 'p' :: ' ' :: withDots ds from rfl,
    ReplaceAll_Rp_head _ hp, show " ".data = [' '] from rfl, show ".".data = ['.'] from rfl,
    strings.ReplaceAll_singleton]
  rw [List.filter_cons_of_neg (by decide), hsp, withDots_filter ds hds]
  exact strings.TrimSpace_eq_self _ (fun c hc => strings.isSpace_of_isDigit (hds c hc))

/-- `ParsePrice` on `Rp ` followed by digits with thousand-separator dots: the
`float64` nearest to the value of the digits, or the range error. -/
theorem ParsePrice_Rp_withDots (ds : List Char) (hne : ds ≠ [])
    (hds : ∀ c ∈ ds, isDigit c = true) :
    (∀ v, Float64.nearest (strconv.digitsValue ds : ℚ) = Float64.finite v →
      ParsePrice (String.mk ("Rp ".data ++ withDots ds)) = (Float64.finite v, none)) ∧
    (Float64.nearest (strconv.digitsValue ds : ℚ) = Float64.inf false →
      ParsePrice (String.mk ("Rp ".data ++ withDots ds)) =
        (0, some (GoErr.wrap "parsing number" (strconv.rangeError ds)))) ∧
    (strconv.digitsValue ds ≤ 2 ^ 53 →
      ParsePrice (String.mk ("Rp ".data ++ withDots ds)) =
        (Float64.finite (strconv.digitsValue ds : ℚ), none)) := by
  have hs : String.mk ("Rp ".data ++ withDots ds) ≠ "" := by
    intro h
    have := congrArg String.data h
    simp at this
  obtain ⟨h1, h2, h3⟩ := ParsePrice_of_magnitude _ hs 1 ds hne hds
    (by rw [show (String.mk ("Rp ".data ++ withDots ds)).data = "Rp ".data ++ withDots ds from rfl,
          stripCurrency_Rp_withDots ds hds, magnitude_digits ds hds]
        rfl)
  refine ⟨?_, h2, ?_⟩
  · intro v hv
    rw [h1 v hv]
    have := Float64.nearest_isValue _ _ hv
    simp only [Nat.cast_one, mul_one]
    rw [this]
  · intro hv
    have := h3 hv (by simpa using hv)
    simpa using this

end scrape

end HousesPrices

namespace HousesPrices

namespace scrape

theorem asciiLower_mem_of_map {suf w : List Char} (h : suf.map asciiLower = w) {c : Char}
    (hc : c ∈ suf) : asciiLower c ∈ w := by
  rw [← h]
  exact List.mem_map_of_mem _ hc

/-- A rune whose lower-case form is a lower-case ASCII letter is an ASCII letter. -/
theorem letter_of_asciiLower {c : Char}
    (h : 97 ≤ (asciiLower c).toNat ∧ (asciiLower c).toNat ≤ 122) :
    (65 ≤ c.toNat ∧ c.toNat ≤ 90) ∨ (97 ≤ c.toNat ∧ c.toNat ≤ 122) := by
  by_cases hc : 65 ≤ c.toNat ∧ c.toNat ≤ 90
  · exact Or.inl hc
  · unfold asciiLower at h
    rw [if_neg hc] at h
    exact Or.inr h

theorem letter_not_space {c : Char}
    (h : (65 ≤ c.toNat ∧ c.toNat ≤ 90) ∨ (97 ≤ c.toNat ∧ c.toNat ≤ 122)) :
    strings.isSpace c = false := by
  simp only [strings.isSpace, Bool.or_eq_false_iff, decide_eq_false_iff_not]
  refine ⟨?_, by omega⟩
  simp only [List.contains, List.elem_eq_mem, List.mem_cons, decide_eq_false_iff_not]
  simp
  omega

theorem letter_not_digit {c : Char}
    (h : (65 ≤ c.toNat ∧ c.toNat ≤ 90) ∨ (97 ≤ c.toNat ∧ c.toNat ≤ 122)) :
    isDigit c = false := by
  rw [Bool.eq_false_iff, Ne, isDigit_iff]
  omega

theorem letter_ne {c x : Char}
    (h : (65 ≤ c.toNat ∧ c.toNat ≤ 90) ∨ (97 ≤ c.toNat ∧ c.toNat ≤ 122))
    (hx : x.toNat < 65) : c ≠ x := by
  rintro rfl
  omega

/-- The first step of `ParsePrice` on digits followed by letters other than `p`, with
an optional `Rp ` in front and an optional space between. -/
theorem stripCurrency_digits_letters (ds pre sep suf : List Char)
    (hds : ∀ c ∈ ds, isDigit c = true)
    (hpre : pre = [] ∨ pre = "Rp ".data) (hsep : sep = [] ∨ sep = " ".data)
    (hl : ∀ c ∈ suf, (65 ≤ c.toNat ∧ c.toNat ≤ 90) ∨ (97 ≤ c.toNat ∧ c.toNat ≤ 122))
    (hp : 'p' ∉ suf) :
    stripCurrency (pre ++ ds ++ sep ++ suf) = ds ++ suf := by
  have hpd : 'p' ∉ ds := fun h => ne_of_isDigit (hds _ h) (by decide) rfl
  have hsep2 : 'p' ∉ sep := by rcases hsep with rfl | rfl <;> decide
  have hp2 : 'p' ∉ ds ++ sep ++ suf := by
    simp only [List.mem_append, not_or]
    exact ⟨⟨hpd, hsep2⟩, hp⟩
  have h1 : strings.ReplaceAll (pre ++ ds ++ sep ++ suf) "Rp".data [] =
      pre.drop 2 ++ ds ++ sep ++ suf := by
    rcases hpre with rfl | rfl
    · exact strings.ReplaceAll_eq_self _ _ _
        (strings.Contains_eq_false_of_not_mem (c := 'p') (by decide) _ (by simpa using hp2))
    · have := ReplaceAll_Rp_head (' ' :: (ds ++ sep ++ suf)) (by
        intro h
        rcases List.mem_cons.mp h with h | h
        · exact absurd h (by decide)
        · exact hp2 h)
      simpa [List.append_assoc] using this
  have hfd : ∀ x, isDigit x = false → ds.filter (fun c => c != x) = ds :=
    fun x hx => filter_ne_of_isDigit ds x hx hds
  have hfs : ∀ x : Char, x.toNat < 65 → suf.filter (fun c => c != x) = suf := by
    intro x hx
    apply List.filter_eq_self.mpr
    intro c hc
    simpa using letter_ne (hl c hc) hx
  have h2 : (pre.drop 2 ++ ds ++ sep ++ suf).filter (fun c => c != ' ') = ds ++ suf := by
    rw [List.filter_append, List.filter_append, List.filter_append, hfd ' ' (by decide),
      hfs ' ' (by decide)]
    rcases hpre with rfl | rfl <;> rcases hsep with rfl | rfl <;> simp
  have h3 : (ds ++ suf).filter (fun c => c != '.') = ds ++ suf := by
    rw [List.filter_append, hfd '.' (by decide), hfs '.' (by decide)]
  unfold stripCurrency
  simp only [h1, show " ".data = [' '] from rfl, show ".".data = ['.'] from rfl,
    strings.ReplaceAll_singleton, h2, h3]
  apply strings.TrimSpace_eq_self
  intro c hc
  rcases List.mem_append.mp hc with h | h
  · exact strings.isSpace_of_isDigit (hds c h)
  · exact letter_not_space (hl c h)

theorem ToLower_digits_append (ds suf w : List Char) (hds : ∀ c ∈ ds, isDigit c = true)
    (hw : suf.map asciiLower = w) (hascii : ∀ x ∈ w, x.toNat < 128) :
    strings.ToLower (ds ++ suf) = ds ++ w := by
  unfold strings.ToLower
  rw [List.map_append,
    (List.map_congr_left (fun c hc => strings.toLowerRune_of_isDigit (hds c hc))).trans
      (List.map_id _),
    List.map_congr_left (fun c hc =>
      strings.toLowerRune_eq_asciiLower (hascii _ (asciiLower_mem_of_map hw hc))), hw]

theorem matchLen_digit_head (word : List Char) (d : Char) (t : List Char)
    (hd : isDigit d = true) (hw : ∀ x, word.head? = some x → isDigit x = false) :
    regexp.foldPrefix word (d :: t) = (word == []) := by
  unfold regexp.foldPrefix
  cases word with
  | nil => rfl
  | cons x rest =>
    have hx := hw x rfl
    have hne : (x == asciiLower d) = false := by
      rw [asciiLower_of_isDigit hd]
      simpa using (ne_of_isDigit hd hx).symm
    simp [List.isPrefixOf, hne]

theorem foldPrefix_self (suf w : List Char) (hw : suf.map asciiLower = w) :
    regexp.foldPrefix w suf = true := by
  unfold regexp.foldPrefix
  rw [hw]
  exact List.isPrefixOf_iff_prefix.mpr (List.prefix_refl _)

theorem magnitude_juta (ds suf : List Char) (hds : ∀ c ∈ ds, isDigit c = true)
    (hw : suf.map asciiLower = "juta".data) : magnitude (ds ++ suf) = (1000000, ds) := by
  have hl := ToLower_digits_append ds suf _ hds hw (by decide)
  have hm : 'm' ∉ ds ++ "juta".data := by
    simp only [List.mem_append, not_or]
    exact ⟨fun h => ne_of_isDigit (hds _ h) (by decide) rfl, by decide⟩
  have hlen : suf.length = 4 := by
    have := congrArg List.length hw
    simpa using this
  have hrem : regexp.removeAll regexp.juta (ds ++ suf) 0 = ds := by
    apply regexp.removeAll_digits_append _ _ _ _ _ _ hds
    · intro d t hd
      unfold regexp.juta
      rw [matchLen_digit_head _ d t hd (by intro x hx; cases hx; decide)]
      rfl
    · intro h
      rw [h] at hlen
      simp at hlen
    · unfold regexp.juta
      rw [foldPrefix_self suf _ hw, hlen]
      rfl
  unfold magnitude
  rw [hl, strings.Contains_eq_false_of_not_mem (c := 'm') (by decide) _ hm,
    strings.Contains_eq_false_of_not_mem (c := 'm') (by decide) _ hm,
    strings.Contains_append_self, hrem]
  rfl

theorem magnitude_miliar (ds suf : List Char) (hds : ∀ c ∈ ds, isDigit c = true)
    (hw : suf.map asciiLower = "miliar".data ∨ suf.map asciiLower = "m".data) :
    magnitude (ds ++ suf) = (1000000000, ds) := by
  have hl : ∃ w, strings.ToLower (ds ++ suf) = ds ++ w ∧ 'm' ∈ w := by
    rcases hw with h | h
    · exact ⟨_, ToLower_digits_append ds suf _ hds h (by decide), by decide⟩
    · exact ⟨_, ToLower_digits_append ds suf _ hds h (by decide), by decide⟩
  obtain ⟨w, hlw, hmw⟩ := hl
  have hrem : regexp.removeAll regexp.miliarOrM (ds ++ suf) 0 = ds := by
    apply regexp.removeAll_digits_append _ _ _ _ _ _ hds
    · intro d t hd
      unfold regexp.miliarOrM
      rw [matchLen_digit_head _ d t hd (by intro x hx; cases hx; decide),
        matchLen_digit_head _ d t hd (by intro x hx; cases hx; decide)]
      rfl
    · intro h
      rcases hw with h2 | h2 <;> rw [h] at h2 <;> exact absurd h2 (by decide)
    · unfold regexp.miliarOrM
      rcases hw with h | h
      · have hlen : suf.length = 6 := by
          have := congrArg List.length h
          simpa using this
        rw [foldPrefix_self suf _ h, hlen]
        rfl
      · have hlen : suf.length = 1 := by
          have := congrArg List.length h
          simpa using this
        have h6 : regexp.foldPrefix "miliar".data suf = false := by
          unfold regexp.foldPrefix
          rw [h]
          decide
        rw [h6, foldPrefix_self suf _ h, hlen]
        rfl
  unfold magnitude
  rw [hlw, strings.Contains_singleton_of_mem (c := 'm') _ (by simp [hmw]), hrem]
  simp

/-- `ParsePrice` on a non-empty run of digits, optionally preceded by `Rp ` and
optionally followed by a space, then followed by a magnitude word: the value of the
digits is rounded to a `float64` and the product with the multiplier is rounded again. -/
theorem ParsePrice_digits_suffix (ds pre sep suf : List Char) (hne : ds ≠ [])
    (hds : ∀ c ∈ ds, isDigit c = true)
    (hpre : pre = [] ∨ pre = "Rp ".data) (hsep : sep = [] ∨ sep = " ".data) (mult : Nat)
    (hw : (mult = 1000000 ∧ suf.map asciiLower = "juta".data) ∨
      (mult = 1000000000 ∧
        (suf.map asciiLower = "miliar".data ∨ suf.map asciiLower = "m".data))) :
    (∀ v, Float64.nearest (strconv.digitsValue ds : ℚ) = Float64.finite v →
      ParsePrice (String.mk (pre ++ ds ++ sep ++ suf)) = (Float64.nearest (v * mult), none)) ∧
    (Float64.nearest (strconv.digitsValue ds : ℚ) = Float64.inf false →
      ParsePrice (String.mk (pre ++ ds ++ sep ++ suf)) =
        (0, some (GoErr.wrap "parsing number" (strconv.rangeError ds)))) ∧
    (strconv.digitsValue ds ≤ 2 ^ 53 → strconv.digitsValue ds * mult ≤ 2 ^ 53 →
      ParsePrice (String.mk (pre ++ ds ++ sep ++ suf)) =
        (Float64.finite ((strconv.digitsValue ds : ℚ) * mult), none)) := by
  have hs : String.mk (pre ++ ds ++ sep ++ suf) ≠ "" := by
    intro h
    have := congrArg String.data h
    simp [hne] at this
  have hstrip : ∀ w : List Char, suf.map asciiLower = w →
      (∀ x ∈ w, 97 ≤ x.toNat ∧ x.toNat ≤ 122) → 'p' ∉ w →
      stripCurrency (String.mk (pre ++ ds ++ sep ++ suf)).data = ds ++ suf := by
    intro w hw hlow hpw
    apply stripCurrency_digits_letters ds pre sep suf hds hpre hsep
    · intro c hc
      exact letter_of_asciiLower (hlow _ (asciiLower_mem_of_map hw hc))
    · intro hc
      have := asciiLower_mem_of_map hw hc
      rw [show asciiLower 'p' = 'p' from by decide] at this
      exact hpw this
  rcases hw with ⟨hm, hw⟩ | ⟨hm, hw⟩
  · subst hm
    exact ParsePrice_of_magnitude _ hs _ ds hne hds
      (by rw [hstrip _ hw (by decide) (by decide), magnitude_juta ds suf hds hw]
          rfl)
  · subst hm
    have hst : stripCurrency (String.mk (pre ++ ds ++ sep ++ suf)).data = ds ++ suf := by
      rcases hw with h | h
      · exact hstrip _ h (by decide) (by decide)
      · exact hstrip _ h (by decide) (by decide)
    exact ParsePrice_of_magnitude _ hs _ ds hne hds
      (by rw [hst, magnitude_miliar ds suf hds hw]
          rfl)

/-- The `float64` nearest to `4611686019000000000` is `4611686019000000512`. -/
theorem nearest_4611686019e9 :
    Float64.nearest (4611686019 * 1000000000) = Float64.finite 4611686019000000512 := by
  rw [Float64.nearest_of_binade _ 62 (by norm_num) (by norm_num) (by norm_num)]
  have h : ((4611686019 : ℚ) * 1000000000) / 2 ^ ((62 : Int) - 52) =
      ((4503599627929687 : Int) : ℚ) + 1 / 2 := by
    norm_num
  rw [h, Float64.roundEven_of_tie]
  norm_num

/-- C15 fails as stated: `"4611686019 Miliar"` is parsed without error to
`4611686019000000512`, not to `4611686019 * 1000000000`: the product is rounded to a
`float64`. -/
theorem ParsePrice_miliar_rounds_product :
    ParsePrice "4611686019 Miliar" = (Float64.finite 4611686019000000512, none) ∧
    ParsePrice "4611686019 Miliar" ≠ (Float64.finite (4611686019 * 1000000000), none) := by
  have e : String.mk ([] ++ "4611686019".data ++ " ".data ++ "Miliar".data) =
      "4611686019 Miliar" := by decide
  have hv : strconv.digitsValue "4611686019".data = 4611686019 := by decide
  have h := (ParsePrice_digits_suffix "4611686019".data [] " ".data "Miliar".data (by decide)
    (by decide) (Or.inl rfl) (Or.inr rfl) 1000000000
    (Or.inr ⟨rfl, Or.inl (by decide)⟩)).1 4611686019
    (by
      rw [hv]
      have := Float64.isValue_natCast 4611686019 (by norm_num)
      simpa using this)
  rw [e] at h
  have h2 : ParsePrice "4611686019 Miliar" = (Float64.finite 4611686019000000512, none) := by
    rw [h]
    have := nearest_4611686019e9
    simp only [Nat.cast_ofNat]
    rw [this]
  refine ⟨h2, ?_⟩
  rw [h2]
  intro hc
  have := Float64.finite.inj (Prod.ext_iff.mp hc).1
  norm_num at this

/-- C15 amended: for a non-empty run of decimal digits `ds`, optionally preceded by
`Rp ` and optionally followed by a space, then followed by `juta` in any letter case,
`ParsePrice` returns the value of `ds` times 1,000,000 whenever that product is at most
`2 ^ 53`; followed by `miliar` or by `m` in any letter case it returns the value of `ds`
times 1,000,000,000 whenever that product is at most `2 ^ 53`. Whatever the size, the
value of `ds` is rounded to the nearest `float64` (the error `parsing number` when that
is out of range) and the product with the multiplier is rounded again.
`"Rp 500 Juta"` gives 500000000, `"1 M"` and `"1 miliar"` give 1000000000. -/
theorem ParsePrice_magnitude_suffix (ds pre sep suf : List Char) (hne : ds ≠ [])
    (hds : ∀ c ∈ ds, isDigit c = true)
    (hpre : pre = [] ∨ pre = "Rp ".data) (hsep : sep = [] ∨ sep = " ".data) :
    (suf.map asciiLower = "juta".data →
      (strconv.digitsValue ds * 1000000 ≤ 2 ^ 53 →
        ParsePrice (String.mk (pre ++ ds ++ sep ++ suf)) =
          (Float64.finite ((strconv.digitsValue ds : ℚ) * 1000000), none)) ∧
      (∀ v, Float64.nearest (strconv.digitsValue ds : ℚ) = Float64.finite v →
        ParsePrice (String.mk (pre ++ ds ++ sep ++ suf)) =
          (Float64.nearest (v * 1000000), none)) ∧
      (Float64.nearest (strconv.digitsValue ds : ℚ) = Float64.inf false →
        ParsePrice (String.mk (pre ++ ds ++ sep ++ suf)) =
          (0, some (GoErr.wrap "parsing number" (strconv.rangeError ds))))) ∧
    (suf.map asciiLower = "miliar".data ∨ suf.map asciiLower = "m".data →
      (strconv.digitsValue ds * 1000000000 ≤ 2 ^ 53 →
        ParsePrice (String.mk (pre ++ ds ++ sep ++ suf)) =
          (Float64.finite ((strconv.digitsValue ds : ℚ) * 1000000000), none)) ∧
      (∀ v, Float64.nearest (strconv.digitsValue ds : ℚ) = Float64.finite v →
        ParsePrice (String.mk (pre ++ ds ++ sep ++ suf)) =
          (Float64.nearest (v * 1000000000), none)) ∧
      (Float64.nearest (strconv.digitsValue ds : ℚ) = Float64.inf false →
        ParsePrice (String.mk (pre ++ ds ++ sep ++ suf)) =
          (0, some (GoErr.wrap "parsing number" (strconv.rangeError ds))))) := by
  refine ⟨?_, ?_⟩
  · intro hw
    obtain ⟨h1, h2, h3⟩ := ParsePrice_digits_suffix ds pre sep suf hne hds hpre hsep 1000000
      (Or.inl ⟨rfl, hw⟩)
    refine ⟨?_, ?_, h2⟩
    · intro hp
      have := h3 (le_trans (Nat.le_mul_of_pos_right _ (by norm_num)) hp) hp
      simpa using this
    · intro v hv
      have := h1 v hv
      simpa using this
  · intro hw
    obtain ⟨h1, h2, h3⟩ := ParsePrice_digits_suffix ds pre sep suf hne hds hpre hsep 1000000000
      (Or.inr ⟨rfl, hw⟩)
    refine ⟨?_, ?_, h2⟩
    · intro hp
      have := h3 (le_trans (Nat.le_mul_of_pos_right _ (by norm_num)) hp) hp
      simpa using this
    · intro v hv
      have := h1 v hv
      simpa using this

/-- Witness for C15: `"Rp 500 Juta"` gives 500000000, `"1 M"` and `"1 miliar"` both give
1000000000. -/
theorem ParsePrice_magnitude_suffix_witness :
    ParsePrice "Rp 500 Juta" = (500000000, none) ∧
    ParsePrice "1 M" = (1000000000, none) ∧
    ParsePrice "1 miliar" = (1000000000, none) := by
  have h1 := ((ParsePrice_magnitude_suffix "500".data "Rp ".data " ".data "Juta".data
    (by decide) (by decide) (Or.inr rfl) (Or.inr rfl)).1 (by decide)).1
  have h2 := ((ParsePrice_magnitude_suffix "1".data [] " ".data "M".data
    (by decide) (by decide) (Or.inl rfl) (Or.inr rfl)).2 (Or.inr (by decide))).1
  have h3 := ((ParsePrice_magnitude_suffix "1".data [] " ".data "miliar".data
    (by decide) (by decide) (Or.inl rfl) (Or.inr rfl)).2 (Or.inl (by decide))).1
  have e1 : String.mk ("Rp ".data ++ "500".data ++ " ".data ++ "Juta".data) = "Rp 500 Juta" := by
    decide
  have e2 : String.mk ([] ++ "1".data ++ " ".data ++ "M".data) = "1 M" := by decide
  have e3 : String.mk ([] ++ "1".data ++ " ".data ++ "miliar".data) = "1 miliar" := by decide
  have v1 : strconv.digitsValue "500".data = 500 := by decide
  have v2 : strconv.digitsValue "1".data = 1 := by decide
  rw [e1, v1] at h1
  rw [e2, v2] at h2
  rw [e3, v2] at h3
  refine ⟨?_, ?_, ?_⟩
  · rw [h1 (by norm_num), Float64.ofNat_eq]
    norm_num
  · rw [h2 (by norm_num), Float64.ofNat_eq]
    norm_num
  · rw [h3 (by norm_num), Float64.ofNat_eq]
    norm_num

end scrape

end HousesPrices

namespace HousesPrices

namespace scrape

theorem stripCurrency_mem (s : List Char) (c : Char) (h : c ∈ stripCurrency s) : c ∈ s := by
  unfold stripCurrency at h
  exact strings.ReplaceAll_mem _ _ _ (strings.ReplaceAll_mem _ _ _
    (strings.ReplaceAll_mem _ _ _ (strings.TrimSpace_mem _ _ h)))

theorem magnitude_mem (s : List Char) (c : Char) (h : c ∈ (magnitude s).2) : c ∈ s := by
  unfold magnitude at h
  split at h
  · exact regexp.removeAll_mem _ _ _ _ h
  · split at h
    · exact regexp.removeAll_mem _ _ _ _ h
    · exact h

/-- C16: for every string that contains no ASCII decimal digit (the empty string, and
strings made only of commas, dots, spaces or magnitude words among them) `ParsePrice`
returns a non-nil error. -/
theorem ParsePrice_no_digit_is_error (s : String) (h : ∀ c ∈ s.data, isDigit c = false) :
    (ParsePrice s).2 ≠ none := by
  by_cases hs : s = ""
  · rw [ParsePrice, if_pos hs]
    simp
  · rw [ParsePrice, if_neg hs]
    dsimp only
    split
    · simp
    · have hcomma : ∀ c ∈ regexp.findRun digitOrComma
          (strings.TrimSpace (magnitude (stripCurrency s.data)).2), c = ',' := by
        intro c hc
        obtain ⟨hmem, hcls⟩ := regexp.findRun_mem _ _ _ hc
        have hnd := h c (stripCurrency_mem _ _ (magnitude_mem _ _ (strings.TrimSpace_mem _ _ hmem)))
        simpa [digitOrComma, hnd] using hcls
      have hnil : strings.ReplaceAll (regexp.findRun digitOrComma
          (strings.TrimSpace (magnitude (stripCurrency s.data)).2)) ",".data [] = [] := by
        rw [show ",".data = [','] from rfl, strings.ReplaceAll_singleton, List.filter_eq_nil_iff]
        intro c hc
        simp [hcomma c hc]
      rw [hnil]
      simp [strconv.ParseFloat]

/-- Witness for C16: a price text made of `Rp`, a comma, a dot and a magnitude word. -/
theorem ParsePrice_no_digit_is_error_witness :
    (ParsePrice "Rp ,. Juta").2 ≠ none ∧ (ParsePrice "").2 ≠ none :=
  ⟨ParsePrice_no_digit_is_error "Rp ,. Juta" (by decide),
   ParsePrice_no_digit_is_error "" (by decide)⟩

end scrape

end HousesPrices

namespace HousesPrices

namespace scrape

/-! ## The extraction pipeline -/

theorem foldl_onListItem (cfg : SiteConfig) (now : Int) (items : List HTMLElement)
    (r : ScrapeResult) :
    (items.foldl (onListItem cfg now) r).Listings =
      r.Listings ++ items.filterMap (fun e => (extractListing cfg now e).toOption) ∧
    (items.foldl (onListItem cfg now) r).TotalScraped =
      r.TotalScraped +
        ((items.filterMap (fun e => (extractListing cfg now e).toOption)).length : Int) ∧
    (items.foldl (onListItem cfg now) r).ErrorCount =
      r.ErrorCount +
        ((items.filter (fun e => (extractListing cfg now e).toOption.isNone)).length : Int) ∧
    ((items.foldl (onListItem cfg now) r).Errors.length : Int) =
      (r.Errors.length : Int) +
        ((items.filter (fun e => (extractListing cfg now e).toOption.isNone)).length : Int) := by
  induction items generalizing r with
  | nil => simp
  | cons e rest ih =>
    rw [List.foldl_cons]
    obtain ⟨h1, h2, h3, h4⟩ := ih (onListItem cfg now r e)
    rw [h1, h2, h3, h4]
    unfold onListItem
    cases he : extractListing cfg now e with
    | error err =>
      simp [he, Except.toOption]
      omega
    | ok listing =>
      simp [he, Except.toOption]
      omega

theorem foldl_onNextPage (url : String) (links : List HTMLElement) (r : ScrapeResult) :
    (links.foldl (onNextPage url) r).Listings = r.Listings ∧
    (links.foldl (onNextPage url) r).TotalScraped = r.TotalScraped ∧
    (links.foldl (onNextPage url) r).ErrorCount = r.ErrorCount ∧
    (links.foldl (onNextPage url) r).Errors = r.Errors := by
  induction links generalizing r with
  | nil => simp
  | cons e rest ih =>
    rw [List.foldl_cons]
    obtain ⟨h1, h2, h3, h4⟩ := ih (onNextPage url r e)
    rw [h1, h2, h3, h4]
    unfold onNextPage
    dsimp only
    by_cases hn : e.Attr "href" ≠ ""
    · rw [if_pos hn]
      exact ⟨rfl, rfl, rfl, rfl⟩
    · rw [if_neg hn]
      exact ⟨rfl, rfl, rfl, rfl⟩

/-- A candidate whose price text is empty is rejected. -/
theorem extractListing_missing_price (cfg : SiteConfig) (now : Int) (e : HTMLElement)
    (h : CleanText (e.ChildText cfg.Selectors.Price) = "") :
    (extractListing cfg now e).toOption = none := by
  unfold extractListing
  dsimp only
  split
  · rfl
  · rw [h]
    simp [ParsePrice, Except.toOption]

/-- C17: when the visit succeeds, for every sequence of candidates handed to the
callback, `Scrape` returns as `Listings` the records of the candidates that
`extractListing` accepts, in document order; `ErrorCount` is the number of rejected
candidates and the length of `Errors`; `TotalScraped` is the length of `Listings`; a
candidate with an empty price text between other candidates adds one to `ErrorCount`
and the accepted records before and after it are all returned. -/
theorem Scrape_skips_rejected_candidates {σ : Type} (cfg : SiteConfig) (ctx : retry.Context)
    (url : String) (visit : σ → Option GoErr × σ) (v : σ) (items nextLinks : List HTMLElement)
    (now : Int) (elapsed : ℚ)
    (hvisit : (retry.Do ctx retry.DefaultConfig visit v).err = none) :
    ∃ result, Scrape cfg ctx url visit v items nextLinks now elapsed = .ok result ∧
      result.Listings = items.filterMap (fun e => (extractListing cfg now e).toOption) ∧
      result.ErrorCount =
        ((items.filter (fun e => (extractListing cfg now e).toOption.isNone)).length : Int) ∧
      result.ErrorCount = (result.Errors.length : Int) ∧
      result.TotalScraped = (result.Listings.length : Int) ∧
      (∀ before after bad, items = before ++ bad :: after →
        CleanText (bad.ChildText cfg.Selectors.Price) = "" →
        result.Listings =
          before.filterMap (fun e => (extractListing cfg now e).toOption) ++
            after.filterMap (fun e => (extractListing cfg now e).toOption) ∧
        result.ErrorCount =
          ((before.filter (fun e => (extractListing cfg now e).toOption.isNone)).length : Int)
            + 1 +
          ((after.filter (fun e => (extractListing cfg now e).toOption.isNone)).length : Int)) := by
  unfold Scrape
  simp only [hvisit]
  refine ⟨_, rfl, ?_⟩
  obtain ⟨n1, n2, n3, n4⟩ := foldl_onNextPage url nextLinks
    (items.foldl (onListItem cfg now)
      { SiteName := cfg.Name, URL := url, Listings := [], TotalFound := 0, TotalScraped := 0,
        ErrorCount := 0, Errors := [], Duration := 0, NextPageURL := "", HasNextPage := false })
  obtain ⟨l1, l2, l3, l4⟩ := foldl_onListItem cfg now items
    { SiteName := cfg.Name, URL := url, Listings := [], TotalFound := 0, TotalScraped := 0,
      ErrorCount := 0, Errors := [], Duration := 0, NextPageURL := "", HasNextPage := false }
  simp only [List.nil_append, zero_add, List.length_nil, Nat.cast_zero] at l1 l2 l3 l4
  have hL := n1.trans l1
  have hE := n3.trans l3
  refine ⟨hL, hE, ?_, ?_, ?_⟩
  · show (List.foldl (onNextPage url) _ nextLinks).ErrorCount =
      ((List.foldl (onNextPage url) _ nextLinks).Errors.length : Int)
    rw [n3, n4, l3, l4]
  · show (List.foldl (onNextPage url) _ nextLinks).TotalScraped =
      ((List.foldl (onNextPage url) _ nextLinks).Listings.length : Int)
    rw [n2, n1, l2, l1]
  · intro before after bad hitems hbad
    have hrej := extractListing_missing_price cfg now bad hbad
    constructor
    · show (List.foldl (onNextPage url) _ nextLinks).Listings = _
      rw [hL, hitems, List.filterMap_append, List.filterMap_cons, hrej]
    · show (List.foldl (onNextPage url) _ nextLinks).ErrorCount = _
      rw [hE, hitems, List.filter_append, List.filter_cons]
      simp [hrej]
      omega

/-- `ParsePrice("Rp 1.000.000.000")` is 1000000000. -/
theorem ParsePrice_example_dots : ParsePrice "Rp 1.000.000.000" = (1000000000, none) := by
  have h := (ParsePrice_Rp_withDots "1000000000".data (by decide) (by decide)).2.2
  have e1 : String.mk ("Rp ".data ++ withDots "1000000000".data) = "Rp 1.000.000.000" := by
    decide
  have e2 : strconv.digitsValue "1000000000".data = 1000000000 := by decide
  rw [e1, e2] at h
  exact h (by norm_num)

/-- `ParsePrice("Rp 500 Juta")` is 500000000. -/
theorem ParsePrice_example_juta : ParsePrice "Rp 500 Juta" = (500000000, none) := by
  have h := (ParsePrice_digits_suffix "500".data "Rp ".data " ".data "Juta".data (by decide)
    (by decide) (Or.inr rfl) (Or.inr rfl) 1000000 (Or.inl ⟨rfl, by decide⟩)).2.2
  have e1 : String.mk ("Rp ".data ++ "500".data ++ " ".data ++ "Juta".data) = "Rp 500 Juta" := by
    decide
  have v1 : strconv.digitsValue "500".data = 500 := by decide
  rw [e1, v1] at h
  rw [h (by norm_num) (by norm_num), Float64.ofNat_eq]
  norm_num

/-- The example candidate is accepted when its price text is clean and parses. -/
theorem extractListing_exampleCandidate (p : String) (hclean : CleanText p = p)
    (hp : (ParsePrice p).2 = none) :
    ∃ listing, extractListing exampleConfig 0 (exampleCandidate p) = .ok listing ∧
      listing.Price = (ParsePrice p).1 := by
  have ht : CleanText ((exampleCandidate p).ChildText exampleConfig.Selectors.Title) =
      "Rumah Minimalis" := by
    show CleanText "Rumah Minimalis" = "Rumah Minimalis"
    decide
  have hpr : CleanText ((exampleCandidate p).ChildText exampleConfig.Selectors.Price) = p := by
    show CleanText p = p
    exact hclean
  have hl : CleanText ((exampleCandidate p).ChildText exampleConfig.Selectors.Location) =
      "Jakarta Selatan" := by
    show CleanText "Jakarta Selatan" = "Jakarta Selatan"
    decide
  have hu : (exampleCandidate p).ChildAttr exampleConfig.Selectors.DetailURL "href" =
      "/properti/hos123" := rfl
  have ha : MakeAbsoluteURL (exampleCandidate p).RequestURL "/properti/hos123" =
      "https://www.rumah123.com/properti/hos123" := by
    show MakeAbsoluteURL "https://www.rumah123.com/jual/" "/properti/hos123" = _
    decide
  have h1 : ¬ ("Rumah Minimalis" = "") := by decide
  have h2 : ¬ ("Jakarta Selatan" = "") := by decide
  have h3 : ¬ ("/properti/hos123" = "") := by decide
  have h4 : ¬ ("https://www.rumah123.com/properti/hos123" = "") := by decide
  rw [extractListing]
  dsimp only
  rw [ht, if_neg h1, hpr, hp]
  dsimp only
  rw [hl, if_neg h2, hu, if_neg h3, ha, if_neg h4]
  exact ⟨_, rfl, rfl⟩

/-- Witness for C17: a page of three cards whose second card has no price; the visit
succeeds at once; two records are returned and one error is counted. -/
theorem Scrape_skips_rejected_candidates_witness :
    ∃ result,
      Scrape exampleConfig retry.Context.background "https://www.rumah123.com/jual/"
        (retry.succeedsAt 1) 0
        [exampleCandidate "Rp 1.000.000.000", exampleCandidate "", exampleCandidate "Rp 500 Juta"]
        [] 0 1 = .ok result ∧
      result.Listings.length = 2 ∧ result.ErrorCount = 1 ∧ result.Errors.length = 1 ∧
      result.TotalScraped = 2 := by
  obtain ⟨result, h1, h2, h3, h4, h5, _⟩ := Scrape_skips_rejected_candidates exampleConfig
    retry.Context.background "https://www.rumah123.com/jual/" (retry.succeedsAt 1) 0
    [exampleCandidate "Rp 1.000.000.000", exampleCandidate "", exampleCandidate "Rp 500 Juta"]
    [] 0 1 (by decide)
  obtain ⟨l1, hl1, _⟩ := extractListing_exampleCandidate "Rp 1.000.000.000" (by decide)
    (by rw [ParsePrice_example_dots])
  obtain ⟨l2, hl2, _⟩ := extractListing_exampleCandidate "Rp 500 Juta" (by decide)
    (by rw [ParsePrice_example_juta])
  have hbad := extractListing_missing_price exampleConfig 0 (exampleCandidate "")
    (by show CleanText "" = ""; decide)
  have e1 : (extractListing exampleConfig 0 (exampleCandidate "Rp 1.000.000.000")).toOption =
      some l1 := by rw [hl1]; rfl
  have e2 : (extractListing exampleConfig 0 (exampleCandidate "Rp 500 Juta")).toOption =
      some l2 := by rw [hl2]; rfl
  have hlen : result.Listings.length = 2 := by
    rw [h2,
      List.filterMap_cons_some (f := fun e => (extractListing exampleConfig 0 e).toOption) e1,
      List.filterMap_cons_none (f := fun e => (extractListing exampleConfig 0 e).toOption) hbad,
      List.filterMap_cons_some (f := fun e => (extractListing exampleConfig 0 e).toOption) e2]
    rfl
  have herr : result.ErrorCount = 1 := by
    rw [h3, List.filter_cons_of_neg (by rw [e1]; exact Bool.false_ne_true),
      List.filter_cons_of_pos (by rw [hbad]; rfl),
      List.filter_cons_of_neg (by rw [e2]; exact Bool.false_ne_true)]
    rfl
  refine ⟨result, h1, hlen, herr, ?_, ?_⟩
  · have := h4.symm.trans herr
    exact_mod_cast this
  · rw [h5, hlen]
    rfl

/-- C19: `MakeAbsoluteURL` returns a relative URL that does not start with `/` as it
is: a path such as `images/a.jpg` and a query such as `?page=2` come back unchanged, not
resolved against `https://www.rumah123.com`. -/
theorem MakeAbsoluteURL_leaves_relative_path :
    MakeAbsoluteURL "https://www.rumah123.com/jual/" "images/a.jpg" = "images/a.jpg" ∧
    MakeAbsoluteURL "https://www.rumah123.com/jual/" "?page=2" = "?page=2" ∧
    MakeAbsoluteURL "https://www.rumah123.com/jual/" "/images/a.jpg" =
      "https://www.rumah123.com/images/a.jpg" := by
  decide

/-- C20: `extractListing` accepts a candidate whose price text is `Rp 0`: it returns a
listing, with no error, whose `Price` is 0. -/
theorem extractListing_accepts_zero_price :
    (extractListing exampleConfig 0 (exampleCandidate "Rp 0")).toOption.map Listing.Price =
      some 0 := by
  have hp : ParsePrice "Rp 0" = (0, none) := by
    have h := (ParsePrice_Rp_withDots "0".data (by decide) (by decide)).2.2
    have e1 : String.mk ("Rp ".data ++ withDots "0".data) = "Rp 0" := by decide
    have e2 : strconv.digitsValue "0".data = 0 := by decide
    rw [e1, e2] at h
    exact h (by norm_num)
  have ht : CleanText ((exampleCandidate "Rp 0").ChildText exampleConfig.Selectors.Title) =
      "Rumah Minimalis" := by decide
  have hpr : CleanText ((exampleCandidate "Rp 0").ChildText exampleConfig.Selectors.Price) =
      "Rp 0" := by decide
  have hl : CleanText ((exampleCandidate "Rp 0").ChildText exampleConfig.Selectors.Location) =
      "Jakarta Selatan" := by decide
  have hu : (exampleCandidate "Rp 0").ChildAttr exampleConfig.Selectors.DetailURL "href" =
      "/properti/hos123" := by decide
  have ha : MakeAbsoluteURL (exampleCandidate "Rp 0").RequestURL "/properti/hos123" =
      "https://www.rumah123.com/properti/hos123" := by decide
  rw [extractListing]
  dsimp only
  rw [ht, if_neg (by decide), hpr, hp]
  dsimp only
  rw [hl, if_neg (by decide), hu, if_neg (by decide), ha, if_neg (by decide)]
  rfl

end scrape

end HousesPrices

namespace HousesPrices

namespace storage

/-! ## The listing repository -/

theorem bsonTime_idem (t : Int) : bsonTime (bsonTime t) = bsonTime t := by
  unfold bsonTime
  omega

theorem find?_updateFirst (url : String) (listing : Listing) (coll : Collection)
    (doc : Listing) (h : coll.find? (fun d => d.URL = url) = some doc)
    (hurl : listing.URL = url) :
    (updateFirst url listing coll).find? (fun d => d.URL = url) = some (setFields doc listing) := by
  induction coll with
  | nil => simp at h
  | cons d rest ih =>
    unfold updateFirst
    by_cases hd : d.URL = url
    · rw [if_pos hd]
      simp only [List.find?, hd, decide_True] at h
      cases h
      simp [List.find?, setFields, hurl]
    · rw [if_neg hd]
      simp only [List.find?, hd, decide_False] at h
      simp only [List.find?, hd, decide_False]
      exact ih h

theorem find?_append_new (url : String) (coll : Collection) (doc : Listing)
    (h : coll.find? (fun d => d.URL = url) = none) (hurl : doc.URL = url) :
    (coll ++ [doc]).find? (fun d => d.URL = url) = some doc := by
  rw [List.find?_append, h]
  simp [List.find?, hurl]

/-- What a successful `Save` leaves under the URL of the listing. -/
theorem Save_stored (coll : Collection) (now : Int) (freshID : String) (listing : Listing)
    (hok : (Save coll ⟨none, none⟩ now freshID listing).1 = none) :
    ∃ doc, (Save coll ⟨none, none⟩ now freshID listing).2.find?
        (fun d => d.URL = listing.URL) = some doc ∧
      doc.Price = listing.Price ∧ doc.ScrapedAt = bsonTime now ∧ doc.UpdatedAt = bsonTime now ∧
      doc.CreatedAt =
        (match coll.find? (fun d => d.URL = listing.URL) with
         | some old => bsonTime old.CreatedAt
         | none => bsonTime now) := by
  unfold Save FindByURL at hok ⊢
  cases hf : coll.find? (fun d => d.URL = listing.URL) with
  | none =>
    simp only [hf, UpdateOne]
    exact ⟨_, find?_append_new _ _ _ hf rfl, rfl, rfl, rfl, rfl⟩
  | some old =>
    simp only [hf, UpdateOne] at hok ⊢
    by_cases hid : listing.ID ≠ "" ∧ listing.ID ≠ old.ID
    · simp [hid] at hok
    · simp only [hid, if_false]
      exact ⟨_, find?_updateFirst _ _ _ _ hf rfl, rfl, rfl, rfl, rfl⟩

/-- C18: for every collection and every two records with the same URL, when
`Save(r1)` and then `Save(r2)` both succeed, `FindByURL` returns after the second save a
record whose `CreatedAt` is the one it returned after the first save (the time of the
first save when the URL was new), whose price is that of `r2`, and whose `ScrapedAt` and
`UpdatedAt` are the time of the second save; times are read back as stored, in whole
milliseconds. -/
theorem Save_preserves_first_seen (coll : Collection) (r1 r2 : Listing) (now1 now2 : Int)
    (id1 id2 : String) (hurl : r1.URL = r2.URL)
    (h1 : (Save coll ⟨none, none⟩ now1 id1 r1).1 = none)
    (h2 : (Save (Save coll ⟨none, none⟩ now1 id1 r1).2 ⟨none, none⟩ now2 id2 r2).1 = none) :
    ∃ d1 d2,
      FindByURL (Save coll ⟨none, none⟩ now1 id1 r1).2 none r1.URL = .ok (some d1) ∧
      FindByURL (Save (Save coll ⟨none, none⟩ now1 id1 r1).2 ⟨none, none⟩ now2 id2 r2).2 none
        r1.URL = .ok (some d2) ∧
      d2.CreatedAt = d1.CreatedAt ∧
      (coll.find? (fun d => d.URL = r1.URL) = none → d1.CreatedAt = bsonTime now1) ∧
      d1.Price = r1.Price ∧ d2.Price = r2.Price ∧
      d2.ScrapedAt = bsonTime now2 ∧ d2.UpdatedAt = bsonTime now2 := by
  obtain ⟨d1, hd1, hp1, _, _, hc1⟩ := Save_stored coll now1 id1 r1 h1
  obtain ⟨d2, hd2, hp2, hs2, hu2, hc2⟩ := Save_stored _ now2 id2 r2 h2
  rw [← hurl] at hd2 hc2
  rw [hd1] at hc2
  refine ⟨d1, d2, by simp [FindByURL, hd1], by simp [FindByURL, hd2], ?_, ?_, hp1, hp2, hs2, hu2⟩
  · have hc2b : d2.CreatedAt = bsonTime d1.CreatedAt := hc2
    rw [hc2b, hc1]
    cases coll.find? (fun d => d.URL = r1.URL) <;> exact bsonTime_idem _
  · intro hnew
    rw [hc1, hnew]

/-- Witness for C18: a listing saved into an empty collection at time 1,500,000 ns and
saved again with a new price at time 9,000,000 ns. -/
theorem Save_preserves_first_seen_witness :
    ∃ d1 d2,
      FindByURL (Save [] ⟨none, none⟩ 1500000 "id-1" (service.exampleListing "/a")).2 none
        (service.exampleListing "/a").URL = .ok (some d1) ∧
      FindByURL (Save (Save [] ⟨none, none⟩ 1500000 "id-1" (service.exampleListing "/a")).2
        ⟨none, none⟩ 9000000 "id-2" { service.exampleListing "/a" with Price := 450000000 }).2
        none (service.exampleListing "/a").URL = .ok (some d2) ∧
      d2.CreatedAt = d1.CreatedAt ∧
      (([] : Collection).find? (fun d => d.URL = (service.exampleListing "/a").URL) = none →
        d1.CreatedAt = bsonTime 1500000) ∧
      d1.Price = (service.exampleListing "/a").Price ∧
      d2.Price = ({ service.exampleListing "/a" with Price := 450000000 } : Listing).Price ∧
      d2.ScrapedAt = bsonTime 9000000 ∧ d2.UpdatedAt = bsonTime 9000000 :=
  Save_preserves_first_seen [] (service.exampleListing "/a")
    { service.exampleListing "/a" with Price := 450000000 } 1500000 9000000 "id-1" "id-2"
    rfl (by decide) (by decide)

end storage

end HousesPrices

namespace HousesPrices

namespace retry

/-- C25: with `MaxAttempts ≤ 0` `Do` never invokes the operation, whatever the
operation and the context, and returns the error `max retry attempts (n) exceeded`
built from a nil last error; with `MaxAttempts ≥ 1` and a context already cancelled at
the check that opens the first attempt, the operation is never invoked either and
`ctx.Err()` is returned. -/
theorem Do_without_attempt {σ : Type} (ctx : Context) (cfg : Config)
    (fn : σ → Option GoErr × σ) (s : σ) :
    (cfg.MaxAttempts ≤ 0 →
      (Do ctx cfg fn s).progress.calls = 0 ∧
      (Do ctx cfg fn s).progress.state = s ∧
      (Do ctx cfg fn s).err =
        some (GoErr.wrapNil ("max retry attempts (" ++ toString cfg.MaxAttempts ++ ") exceeded")) ∧
      (Do ctx cfg fn s).err.bind GoErr.unwrap = none) ∧
    (1 ≤ cfg.MaxAttempts → ctx.doneBefore 1 = true →
      (Do ctx cfg fn s).progress.calls = 0 ∧
      (Do ctx cfg fn s).progress.state = s ∧
      (Do ctx cfg fn s).err = some ctx.err) := by
  constructor
  · intro h
    have h0 : cfg.MaxAttempts.toNat = 0 := by omega
    simp [Do, h0, Do.loop, exhausted, GoErr.unwrap]
  · intro h hc
    obtain ⟨m, hm⟩ : ∃ m, cfg.MaxAttempts.toNat = m + 1 := ⟨cfg.MaxAttempts.toNat - 1, by omega⟩
    have hg : ((1 : Nat) : Int) ≤ cfg.MaxAttempts := by omega
    unfold Do
    rw [hm, Do.loop, if_pos hg, if_pos hc]
    exact ⟨rfl, rfl, rfl⟩

/-- Witness for C25: an operation that would succeed at once is not invoked with
`MaxAttempts = 0`, nor with the default configuration under a cancelled context. -/
theorem Do_without_attempt_witness :
    ((Do Context.background { DefaultConfig with MaxAttempts := 0 } (succeedsAt 1) 0).progress.calls
        = 0 ∧
      (Do Context.background { DefaultConfig with MaxAttempts := 0 } (succeedsAt 1) 0).err =
        some (GoErr.wrapNil "max retry attempts (0) exceeded")) ∧
    ((Do ⟨fun _ => true, fun _ => false, GoErr.plain "context canceled"⟩ DefaultConfig
        (succeedsAt 1) 0).progress.calls = 0 ∧
      (Do ⟨fun _ => true, fun _ => false, GoErr.plain "context canceled"⟩ DefaultConfig
        (succeedsAt 1) 0).err = some (GoErr.plain "context canceled")) := by
  have h1 := (Do_without_attempt Context.background { DefaultConfig with MaxAttempts := 0 }
    (succeedsAt 1) 0).1 (by decide)
  have h2 := (Do_without_attempt ⟨fun _ => true, fun _ => false, GoErr.plain "context canceled"⟩
    DefaultConfig (succeedsAt 1) 0).2 (by decide) rfl
  exact ⟨⟨h1.1, h1.2.2.1⟩, ⟨h2.1, h2.2.2⟩⟩

end retry

namespace site

/-! ## The Rumah123 scraper -/

theorem firstMessageDecides_eq (totalScraped : Int) (errors : List String) :
    firstMessageDecides totalScraped errors =
      (decide (totalScraped = 0) && errors.any (fun m => decide (m ≠ ""))) := by
  induction errors with
  | nil => simp [firstMessageDecides]
  | cons m rest ih =>
    unfold firstMessageDecides
    by_cases hm : m = ""
    · subst hm
      simp [ih]
    · have hlen : m.length > 0 := by
        rcases Nat.eq_zero_or_pos m.length with h | h
        · exact absurd (String.ext (List.length_eq_zero.mp h)) hm
        · exact h
      simp [hlen, hm]

/-- The test of `detectCaptcha`: no listing, some non-empty error message, and
`TotalScraped` equal to 0. -/
theorem detectCaptcha_iff (result : ScrapeResult) :
    detectCaptcha result = true ↔
      result.Listings = [] ∧ (∃ m ∈ result.Errors, m ≠ "") ∧ result.TotalScraped = 0 := by
  unfold detectCaptcha
  by_cases h : result.Listings.length = 0 ∧ result.Errors.length > 0
  · rw [if_pos h, firstMessageDecides_eq]
    have hl : result.Listings = [] := List.length_eq_zero.mp h.1
    simp [hl]
    tauto
  · rw [if_neg h]
    constructor
    · intro hf
      exact absurd hf (by decide)
    · rintro ⟨hl, ⟨m, hm, _⟩, _⟩
      exfalso
      apply h
      refine ⟨by simp [hl], ?_⟩
      exact List.length_pos_of_mem hm

/-- C21: on a page whose only candidate is rejected for a missing price the base pipeline
returns a result (no listing, one error message `parsing price: empty price string`) and
no error, and `Rumah123Scraper.Scrape` drops that result and returns the error
`CAPTCHA challenge encountered`: the one bad item aborts the page, although the message
has nothing to do with a CAPTCHA. -/
theorem Rumah123_only_bad_item_is_captcha :
    (∃ result, examplePipeline [scrape.exampleCandidate ""] "https://www.rumah123.com/jual/" =
        .ok result ∧ result.Listings = [] ∧
        result.Errors = ["parsing price: empty price string"]) ∧
    Scrape (examplePipeline [scrape.exampleCandidate ""]) "https://www.rumah123.com/jual/" =
      .error (GoErr.plain "CAPTCHA challenge encountered") := by
  have hp : examplePipeline [scrape.exampleCandidate ""] "https://www.rumah123.com/jual/" =
      .ok { SiteName := "rumah123", URL := "https://www.rumah123.com/jual/", Listings := [],
            TotalFound := 0, TotalScraped := 0, ErrorCount := 1,
            Errors := ["parsing price: empty price string"], Duration := 1,
            NextPageURL := "", HasNextPage := false } := by
    rfl
  refine ⟨⟨_, hp, rfl, rfl⟩, ?_⟩
  unfold Scrape
  rw [hp]
  rfl

end site

end HousesPrices

namespace HousesPrices

namespace api

/-- C22: a trigger request for the registered site `badsite`, whose extractor fails,
starts a run that makes two error notifications: the one of `ScrapeWebsite`, with the
extractor's error, and the one of the handler, with the error `ScrapeWebsite` returned. -/
theorem handleTrigger_notifies_error_twice :
    (handleTrigger
      (service.RegisterScraper (service.NewScraperService (service.exampleSave "") true)
        "badsite" (fun _ => .error (GoErr.plain "scrape failed")))
      [] "badsite" "http://example.com").status = 202 ∧
    (handleTrigger
      (service.RegisterScraper (service.NewScraperService (service.exampleSave "") true)
        "badsite" (fun _ => .error (GoErr.plain "scrape failed")))
      [] "badsite" "http://example.com").background.map
        (fun calls => calls.filter service.Call.isNotification) =
      some [service.Call.notifyError "badsite" (GoErr.plain "scrape failed"),
        service.Call.notifyError "badsite"
          (GoErr.wrap "scraping badsite" (GoErr.plain "scrape failed"))] := by
  decide

end api

end HousesPrices

namespace HousesPrices

/-! ## Runs of a class of runes -/

theorem dropWhile_append_all {α : Type} (p : α → Bool) (a b : List α)
    (h : ∀ x ∈ a, p x = true) : (a ++ b).dropWhile p = b.dropWhile p := by
  induction a with
  | nil => rfl
  | cons x t ih =>
    rw [List.cons_append, List.dropWhile_cons, if_pos (h x (by simp))]
    exact ih (fun y hy => h y (by simp [hy]))

theorem takeWhile_append_stop {α : Type} (p : α → Bool) (a b : List α)
    (ha : ∀ x ∈ a, p x = true) (hb : ∀ x, b.head? = some x → p x = false) :
    (a ++ b).takeWhile p = a := by
  induction a with
  | nil =>
    cases b with
    | nil => rfl
    | cons x t => simp [List.takeWhile, hb x rfl]
  | cons x t ih =>
    rw [List.cons_append, List.takeWhile_cons, if_pos (ha x (by simp)),
      ih (fun y hy => ha y (by simp [hy]))]

namespace regexp

/-- The first run of the class in a text that is: runes outside the class, then a
non-empty run of the class, then nothing or a rune outside the class. -/
theorem findRun_decompose (cls : Char → Bool) (before run after : List Char)
    (hbefore : ∀ c ∈ before, cls c = false) (hne : run ≠ [])
    (hrun : ∀ c ∈ run, cls c = true) (hafter : ∀ c, after.head? = some c → cls c = false) :
    findRun cls (before ++ run ++ after) = run := by
  unfold findRun
  rw [List.append_assoc, dropWhile_append_all _ _ _ (fun c hc => by simp [hbefore c hc])]
  cases run with
  | nil => exact absurd rfl hne
  | cons r rest =>
    have h1 : ((r :: rest) ++ after).dropWhile (fun c => !cls c) = (r :: rest) ++ after := by
      rw [List.cons_append, List.dropWhile_cons, if_neg (by simp [hrun r (by simp)])]
    rw [h1]
    exact takeWhile_append_stop _ _ _ hrun hafter

theorem findRun_append_outside (cls : Char → Bool) (l tail : List Char)
    (h : ∀ c ∈ tail, cls c = false) : findRun cls (l ++ tail) = findRun cls l := by
  unfold findRun
  induction l with
  | nil =>
    rw [List.nil_append, List.dropWhile_eq_nil_iff.mpr (fun c hc => by simp [h c hc])]
    rfl
  | cons x t ih =>
    by_cases hx : cls x = true
    · rw [List.cons_append, List.dropWhile_cons, if_neg (by simp [hx]), List.dropWhile_cons,
        if_neg (by simp [hx]), List.takeWhile_cons, if_pos hx, List.takeWhile_cons, if_pos hx]
      congr 1
      clear ih
      induction t with
      | nil =>
        cases tail with
        | nil => rfl
        | cons y u => simp [List.takeWhile, h y (by simp)]
      | cons y u ihu =>
        by_cases hy : cls y = true
        · rw [List.cons_append, List.takeWhile_cons, if_pos hy, List.takeWhile_cons, if_pos hy,
            ihu]
        · rw [List.cons_append, List.takeWhile_cons, if_neg hy, List.takeWhile_cons, if_neg hy]
    · rw [List.cons_append, List.dropWhile_cons, if_pos (by simp [hx]), List.dropWhile_cons,
        if_pos (by simp [hx])]
      exact ih

/-- Trimming the white space around a text does not change the first run of a class
that holds no white space. -/
theorem findRun_TrimSpace (cls : Char → Bool) (s : List Char)
    (h : ∀ c, cls c = true → strings.isSpace c = false) :
    findRun cls (strings.TrimSpace s) = findRun cls s := by
  have hsp : ∀ c, strings.isSpace c = true → cls c = false := by
    intro c hc
    rw [Bool.eq_false_iff]
    intro hcls
    rw [h c hcls] at hc
    exact absurd hc (by decide)
  have hleft : findRun cls (s.dropWhile strings.isSpace) = findRun cls s := by
    conv_rhs => rw [← List.takeWhile_append_dropWhile strings.isSpace s]
    unfold findRun
    rw [dropWhile_append_all _ _ _ (fun c hc => by
      simp [hsp c (List.mem_takeWhile_imp hc)])]
  have hright : ∀ l : List Char,
      findRun cls (l.reverse.dropWhile strings.isSpace).reverse = findRun cls l := by
    intro l
    have hl : l = (l.reverse.dropWhile strings.isSpace).reverse ++
        (l.reverse.takeWhile strings.isSpace).reverse := by
      rw [← List.reverse_append, List.takeWhile_append_dropWhile, List.reverse_reverse]
    conv_rhs => rw [hl]
    rw [findRun_append_outside]
    intro c hc
    exact hsp c (List.mem_takeWhile_imp (List.mem_reverse.mp hc))
  unfold strings.TrimSpace
  rw [hright, hleft]

theorem removeAll_digits_head (matchLen : List Char → Nat) (ds rest : List Char)
    (hd : ∀ d t, isDigit d = true → matchLen (d :: t) = 0)
    (hds : ∀ c ∈ ds, isDigit c = true) :
    removeAll matchLen (ds ++ rest) 0 = ds ++ removeAll matchLen rest 0 := by
  induction ds with
  | nil => rfl
  | cons d t ih =>
    rw [List.cons_append, removeAll, hd d _ (hds d (by simp))]
    simp only []
    rw [ih (fun c hc => hds c (by simp [hc])), List.cons_append]

end regexp

namespace strings

theorem ReplaceAll.go_mem_or (old new : List Char) (s : List Char) (skip : Nat) (c : Char)
    (h : c ∈ ReplaceAll.go old new s skip) : c ∈ s ∨ c ∈ new := by
  induction s generalizing skip with
  | nil => simp [ReplaceAll.go] at h
  | cons a t ih =>
    cases skip with
    | succ k =>
      rw [ReplaceAll.go] at h
      rcases ih _ h with h | h
      · exact Or.inl (List.mem_cons_of_mem _ h)
      · exact Or.inr h
    | zero =>
      rw [ReplaceAll.go] at h
      split at h
      · rcases List.mem_append.mp h with h | h
        · exact Or.inr h
        · rcases ih _ h with h | h
          · exact Or.inl (List.mem_cons_of_mem _ h)
          · exact Or.inr h
      · rcases List.mem_cons.mp h with h | h
        · exact Or.inl (h ▸ List.mem_cons_self _ _)
        · rcases ih _ h with h | h
          · exact Or.inl (List.mem_cons_of_mem _ h)
          · exact Or.inr h

end strings

end HousesPrices

namespace HousesPrices

namespace scrape

/-! ## The optional fields -/

theorem ParseInt_no_digit (s : String) (h : ∀ c ∈ s.data, isDigit c = false) :
    ParseInt s = 0 := by
  have hnil : regexp.findRun isDigit (strings.TrimSpace s.data) = [] := by
    rw [List.eq_nil_iff_forall_not_mem]
    intro c hc
    obtain ⟨hmem, hd⟩ := regexp.findRun_mem _ _ _ hc
    rw [h c (strings.TrimSpace_mem _ _ hmem)] at hd
    exact absurd hd (by decide)
  unfold ParseInt
  simp only [hnil, if_true]

theorem strconv_ParseFloat_dots (l : List Char) (h : ∀ c ∈ l, c = '.') :
    ∃ err, strconv.ParseFloat l = .error err := by
  cases l with
  | nil => exact ⟨_, rfl⟩
  | cons c frac =>
    have hc : c = '.' := h c (by simp)
    subst hc
    unfold strconv.ParseFloat
    have h1 : ('.' :: frac).dropWhile isDigit = '.' :: frac := by
      rw [List.dropWhile_cons, if_neg (by decide)]
    have h2 : ('.' :: frac).takeWhile isDigit = [] := by
      rw [List.takeWhile_cons, if_neg (by decide)]
    simp only [h1, h2]
    cases frac with
    | nil => exact ⟨strconv.syntaxError ['.'], by simp⟩
    | cons d rest =>
      have hd : d = '.' := h d (by simp)
      subst hd
      exact ⟨strconv.syntaxError ('.' :: '.' :: rest),
        by simp [List.all, show isDigit '.' = false from by decide]⟩

theorem ParseFloat_no_digit (s : String) (h : ∀ c ∈ s.data, isDigit c = false) :
    ParseFloat s = 0 := by
  have hdots : ∀ c ∈ regexp.findRun digitOrDot
      (strings.ReplaceAll (strings.ReplaceAll (strings.TrimSpace s.data) ".".data [])
        ",".data ".".data), c = '.' := by
    intro c hc
    obtain ⟨hmem, hcls⟩ := regexp.findRun_mem _ _ _ hc
    rcases strings.ReplaceAll.go_mem_or _ _ _ _ _ hmem with hm | hm
    · have hnd := h c (strings.TrimSpace_mem _ _ (strings.ReplaceAll_mem _ _ _ hm))
      simpa [digitOrDot, hnd] using hcls
    · simpa using hm
  obtain ⟨err, herr⟩ := strconv_ParseFloat_dots _ hdots
  unfold ParseFloat
  dsimp only
  split
  · rfl
  · rw [herr]

/-- `ParseInt` on a text whose first maximal run of digits is `run`. -/
theorem ParseInt_first_run (before run after : List Char)
    (hbefore : ∀ c ∈ before, isDigit c = false) (hne : run ≠ [])
    (hrun : ∀ c ∈ run, isDigit c = true) (hafter : ∀ c, after.head? = some c → isDigit c = false) :
    ParseInt (String.mk (before ++ run ++ after)) =
      if strconv.digitsValue run ≤ 9223372036854775807 then (strconv.digitsValue run : Int)
      else 0 := by
  have hfound : regexp.findRun isDigit (strings.TrimSpace (before ++ run ++ after)) = run := by
    rw [regexp.findRun_TrimSpace _ _ (fun c hc => strings.isSpace_of_isDigit hc),
      regexp.findRun_decompose _ _ _ _ hbefore hne hrun hafter]
  unfold ParseInt
  simp only [hfound, if_neg hne]

/-- `extractListing` accepts every element whose title, price, location and detail URL
are there. -/
theorem extractListing_ok_of_required (cfg : SiteConfig) (now : Int) (e : HTMLElement)
    (htitle : CleanText (e.ChildText cfg.Selectors.Title) ≠ "")
    (hprice : (ParsePrice (CleanText (e.ChildText cfg.Selectors.Price))).2 = none)
    (hloc : CleanText (e.ChildText cfg.Selectors.Location) ≠ "")
    (hurl : (if e.ChildAttr cfg.Selectors.DetailURL "href" = "" then
        e.AbsoluteURL (e.Attr "href")
      else MakeAbsoluteURL e.RequestURL (e.ChildAttr cfg.Selectors.DetailURL "href")) ≠ "") :
    ∃ listing, extractListing cfg now e = .ok listing := by
  unfold extractListing
  dsimp only
  rw [if_neg htitle, hprice]
  dsimp only
  rw [if_neg hloc, if_neg hurl]
  exact ⟨_, rfl⟩

theorem extractListing_defaults (cfg : SiteConfig) (now : Int) (e : HTMLElement)
    (listing : Listing) (h : extractListing cfg now e = .ok listing) :
    (cfg.Selectors.Bedrooms = "" → listing.Bedrooms = 0) ∧
    (cfg.Selectors.Bathrooms = "" → listing.Bathrooms = 0) ∧
    (cfg.Selectors.LandArea = "" → listing.LandArea = 0) ∧
    (cfg.Selectors.BuildingArea = "" → listing.BuildingArea = 0) ∧
    (cfg.Selectors.Description = "" → listing.Description = "") ∧
    (cfg.Selectors.AgentName = "" → listing.AgentName = "") ∧
    (cfg.Selectors.AgentPhone = "" → listing.AgentPhone = "") ∧
    (cfg.Selectors.Images = "" → listing.Images = []) ∧
    listing.Bedrooms = (if cfg.Selectors.Bedrooms ≠ "" then
      ParseInt (e.ChildText cfg.Selectors.Bedrooms) else 0) ∧
    listing.Bathrooms = (if cfg.Selectors.Bathrooms ≠ "" then
      ParseInt (e.ChildText cfg.Selectors.Bathrooms) else 0) ∧
    listing.LandArea = (if cfg.Selectors.LandArea ≠ "" then
      ParseFloat (e.ChildText cfg.Selectors.LandArea) else 0) ∧
    listing.BuildingArea = (if cfg.Selectors.BuildingArea ≠ "" then
      ParseFloat (e.ChildText cfg.Selectors.BuildingArea) else 0) := by
  unfold extractListing at h
  dsimp only at h
  by_cases ht : CleanText (e.ChildText cfg.Selectors.Title) = ""
  · rw [if_pos ht] at h
    simp at h
  · rw [if_neg ht] at h
    cases hp : (ParsePrice (CleanText (e.ChildText cfg.Selectors.Price))).2 with
    | some err =>
      rw [hp] at h
      simp at h
    | none =>
      rw [hp] at h
      dsimp only at h
      by_cases hl : CleanText (e.ChildText cfg.Selectors.Location) = ""
      · rw [if_pos hl] at h
        simp at h
      · rw [if_neg hl] at h
        by_cases hu : (if e.ChildAttr cfg.Selectors.DetailURL "href" = "" then
            e.AbsoluteURL (e.Attr "href")
          else MakeAbsoluteURL e.RequestURL (e.ChildAttr cfg.Selectors.DetailURL "href")) = ""
        · rw [if_pos hu] at h
          simp at h
        · rw [if_neg hu] at h
          have hlisting := Except.ok.inj h
          subst hlisting
          refine ⟨?_, ?_, ?_, ?_, ?_, ?_, ?_, ?_, rfl, rfl, rfl, rfl⟩ <;>
          · intro hs
            simp [hs]

end scrape

end HousesPrices

namespace HousesPrices

namespace scrape

/-- C23 as stated fails: the first maximal run of digits of `99999999999999999999` is
the whole text, its value is above the largest `int`, and `ParseInt` returns 0. -/
theorem ParseInt_overflowing_run_is_zero :
    ParseInt "99999999999999999999" = 0 ∧
    regexp.findRun isDigit "99999999999999999999".data = "99999999999999999999".data ∧
    strconv.digitsValue "99999999999999999999".data = 99999999999999999999 := by
  decide

/-- C23 amended: `ParseInt` and `ParseFloat` return 0 for every string without an ASCII
digit; on a text whose first maximal run of digits is `run`, `ParseInt` returns the
value of `run` when it is at most 9223372036854775807 and 0 when it is larger;
`extractListing` returns a listing whenever title, price, location and detail URL are
there, whatever the optional fields hold, and in every listing it returns bedrooms,
bathrooms and both areas are 0, description and agent fields are empty and there is
no image when the corresponding selector is unconfigured. -/
theorem optional_fields_never_fail (s : String) (before run after : List Char)
    (cfg : SiteConfig) (now : Int) (e : HTMLElement) :
    ((∀ c ∈ s.data, isDigit c = false) → ParseInt s = 0 ∧ ParseFloat s = 0) ∧
    ((∀ c ∈ before, isDigit c = false) → run ≠ [] → (∀ c ∈ run, isDigit c = true) →
      (∀ c, after.head? = some c → isDigit c = false) →
      ParseInt (String.mk (before ++ run ++ after)) =
        if strconv.digitsValue run ≤ 9223372036854775807 then (strconv.digitsValue run : Int)
        else 0) ∧
    (CleanText (e.ChildText cfg.Selectors.Title) ≠ "" →
      (ParsePrice (CleanText (e.ChildText cfg.Selectors.Price))).2 = none →
      CleanText (e.ChildText cfg.Selectors.Location) ≠ "" →
      (if e.ChildAttr cfg.Selectors.DetailURL "href" = "" then e.AbsoluteURL (e.Attr "href")
       else MakeAbsoluteURL e.RequestURL (e.ChildAttr cfg.Selectors.DetailURL "href")) ≠ "" →
      ∃ listing, extractListing cfg now e = .ok listing) ∧
    (∀ listing, extractListing cfg now e = .ok listing →
      (cfg.Selectors.Bedrooms = "" → listing.Bedrooms = 0) ∧
      (cfg.Selectors.Bathrooms = "" → listing.Bathrooms = 0) ∧
      (cfg.Selectors.LandArea = "" → listing.LandArea = 0) ∧
      (cfg.Selectors.BuildingArea = "" → listing.BuildingArea = 0) ∧
      (cfg.Selectors.Description = "" → listing.Description = "") ∧
      (cfg.Selectors.AgentName = "" → listing.AgentName = "") ∧
      (cfg.Selectors.AgentPhone = "" → listing.AgentPhone = "") ∧
      (cfg.Selectors.Images = "" → listing.Images = [])) := by
  refine ⟨fun h => ⟨ParseInt_no_digit s h, ParseFloat_no_digit s h⟩,
    ParseInt_first_run before run after,
    extractListing_ok_of_required cfg now e, ?_⟩
  intro listing h
  obtain ⟨h1, h2, h3, h4, h5, h6, h7, h8, _⟩ := extractListing_defaults cfg now e listing h
  exact ⟨h1, h2, h3, h4, h5, h6, h7, h8⟩

/-- Witness for the amended C23: the empty text of an unmatched selector gives 0, the
text ` 3 KT` gives 3, and the example card with an empty bedrooms selector is accepted
with 0 bedrooms. -/
theorem optional_fields_never_fail_witness :
    (ParseInt "" = 0 ∧ ParseFloat "" = 0) ∧
    ParseInt " 3 KT" = 3 ∧
    ∃ listing, extractListing exampleConfig 0 (exampleCandidate "Rp 500 Juta") = .ok listing ∧
      listing.Bedrooms = 0 := by
  have h := optional_fields_never_fail "" " ".data "3".data " KT".data exampleConfig 0
    (exampleCandidate "Rp 500 Juta")
  obtain ⟨h1, h2, h3, h4⟩ := h
  obtain ⟨listing, hl⟩ := h3 (by decide)
    (by
      show (ParsePrice (CleanText "Rp 500 Juta")).2 = none
      rw [show CleanText "Rp 500 Juta" = "Rp 500 Juta" from by decide, ParsePrice_example_juta])
    (by decide) (by decide)
  refine ⟨h1 (by decide), ?_, listing, hl, (h4 listing hl).1 rfl⟩
  have := h2 (by decide) (by decide) (by decide) (by decide)
  rw [show String.mk (" ".data ++ "3".data ++ " KT".data) = " 3 KT" from by decide] at this
  rw [this]
  decide

end scrape

end HousesPrices

namespace HousesPrices

namespace scrape

/-! ## `ParsePrice`: the multiplier and the numeric run -/

theorem toLowerRune_eq_m (c : Char) : strings.toLowerRune c = 'm' ↔ c = 'm' ∨ c = 'M' := by
  constructor
  · intro h
    unfold strings.toLowerRune at h
    by_cases hc : 65 ≤ c.toNat ∧ c.toNat ≤ 90
    · rw [if_pos hc] at h
      right
      rw [← Char.ofNat_toNat c]
      obtain ⟨h1, h2⟩ := hc
      generalize c.toNat = n at h h1 h2
      interval_cases n <;> first | rfl | exact absurd h (by decide)
    · rw [if_neg hc] at h
      by_cases h1 : c.toNat = 0x130
      · rw [if_pos h1] at h
        exact absurd h (by decide)
      · rw [if_neg h1] at h
        by_cases h2 : c.toNat = 0x212A
        · rw [if_pos h2] at h
          exact absurd h (by decide)
        · rw [if_neg h2] at h
          exact Or.inl h
  · rintro (rfl | rfl) <;> decide

theorem mem_ToLower_m (t : List Char) :
    'm' ∈ strings.ToLower t ↔ ∃ c ∈ t, c = 'm' ∨ c = 'M' := by
  unfold strings.ToLower
  rw [List.mem_map]
  constructor
  · rintro ⟨c, hc, h⟩
    exact ⟨c, hc, (toLowerRune_eq_m c).mp h⟩
  · rintro ⟨c, hc, h⟩
    exact ⟨c, hc, (toLowerRune_eq_m c).mpr h⟩

theorem Contains_m_iff (t : List Char) :
    strings.Contains t "m".data = true ↔ 'm' ∈ t := by
  constructor
  · intro h
    by_contra hm
    rw [strings.Contains_eq_false_of_not_mem (c := 'm') (by decide) t hm] at h
    exact absurd h (by decide)
  · intro h
    exact strings.Contains_singleton_of_mem t h

/-- The multiplier chosen by the second step of `ParsePrice`. -/
theorem magnitude_multiplier (t : List Char) :
    ((magnitude t).1 = 1000000000 ↔ ∃ c ∈ t, c = 'm' ∨ c = 'M') ∧
    ((magnitude t).1 = 1000000 ↔
      (¬ ∃ c ∈ t, c = 'm' ∨ c = 'M') ∧
        strings.Contains (strings.ToLower t) "juta".data = true) := by
  by_cases hm : 'm' ∈ strings.ToLower t
  · have h1 : strings.Contains (strings.ToLower t) "m".data = true := (Contains_m_iff _).mpr hm
    have hex := (mem_ToLower_m t).mp hm
    have hmag : (magnitude t).1 = 1000000000 := by
      unfold magnitude
      rw [h1, Bool.or_true, if_pos rfl]
    rw [hmag]
    refine ⟨⟨fun _ => hex, fun _ => rfl⟩, ⟨fun h => absurd h (Float64.ofNat_ne (by norm_num)), fun h => absurd hex h.1⟩⟩
  · have h1 : strings.Contains (strings.ToLower t) "m".data = false :=
      strings.Contains_eq_false_of_not_mem (c := 'm') (by decide) _ hm
    have h2 : strings.Contains (strings.ToLower t) "miliar".data = false :=
      strings.Contains_eq_false_of_not_mem (c := 'm') (by decide) _ hm
    have hex : ¬ ∃ c ∈ t, c = 'm' ∨ c = 'M' := fun h => hm ((mem_ToLower_m t).mpr h)
    by_cases hj : strings.Contains (strings.ToLower t) "juta".data = true
    · have hmag : (magnitude t).1 = 1000000 := by
        unfold magnitude
        rw [h1, h2, hj]
        rfl
      rw [hmag]
      exact ⟨⟨fun h => absurd h (Float64.ofNat_ne (by norm_num)), fun h => absurd h hex⟩,
        ⟨fun _ => ⟨hex, hj⟩, fun _ => rfl⟩⟩
    · have hmag : (magnitude t).1 = 1 := by
        unfold magnitude
        rw [h1, h2]
        simp [hj]
      rw [hmag]
      exact ⟨⟨fun h => absurd h (Float64.ofNat_ne (by norm_num)), fun h => absurd h hex⟩,
        ⟨fun h => absurd h (Float64.ofNat_ne (by norm_num)), fun h => absurd h.2 hj⟩⟩

theorem isSpace_of_digitOrComma {c : Char} (h : digitOrComma c = true) :
    strings.isSpace c = false := by
  unfold digitOrComma at h
  rcases Bool.or_eq_true_iff.mp h with h | h
  · exact strings.isSpace_of_isDigit h
  · have : c = ',' := by simpa using h
    subst this
    decide

/-- The last step of `ParsePrice` on a text whose first run of digits and commas is
`run`, which without its commas is the non-empty run of digits `ds`. -/
theorem ParsePrice_of_run (s : String) (hs : s ≠ "") (mult : Nat) (t run ds : List Char)
    (hm : magnitude (stripCurrency s.data) = (Float64.finite (mult : ℚ), t))
    (hrun : regexp.findRun digitOrComma t = run) (hne : run ≠ [])
    (hds : strings.ReplaceAll run ",".data [] = ds) (hdne : ds ≠ [])
    (hdig : ∀ c ∈ ds, isDigit c = true) :
    (∀ v, Float64.nearest (strconv.digitsValue ds : ℚ) = Float64.finite v →
      ParsePrice s = (Float64.nearest (v * mult), none)) ∧
    (Float64.nearest (strconv.digitsValue ds : ℚ) = Float64.inf false →
      ParsePrice s = (0, some (GoErr.wrap "parsing number" (strconv.rangeError ds)))) ∧
    (strconv.digitsValue ds ≤ 2 ^ 53 → strconv.digitsValue ds * mult ≤ 2 ^ 53 →
      ParsePrice s = (Float64.finite ((strconv.digitsValue ds : ℚ) * mult), none)) :=
  ParsePrice_of_digits s hs mult t run ds hm
    (by rw [regexp.findRun_TrimSpace _ _ (fun c hc => isSpace_of_digitOrComma hc), hrun])
    hne hds hdne hdig

/-- The first step of `ParsePrice` on digits followed by ` Juta/m2`. -/
theorem stripCurrency_juta_per_m2 (ds : List Char) (hds : ∀ c ∈ ds, isDigit c = true) :
    stripCurrency (ds ++ " Juta/m2".data) = ds ++ "Juta/m2".data := by
  have hp : 'p' ∉ ds ++ " Juta/m2".data := by
    simp only [List.mem_append, not_or]
    exact ⟨fun h => ne_of_isDigit (hds _ h) (by decide) rfl, by decide⟩
  have h1 : strings.ReplaceAll (ds ++ " Juta/m2".data) "Rp".data [] = ds ++ " Juta/m2".data :=
    strings.ReplaceAll_eq_self _ _ _
      (strings.Contains_eq_false_of_not_mem (c := 'p') (by decide) _ hp)
  have h2 : (ds ++ " Juta/m2".data).filter (fun c => c != ' ') = ds ++ "Juta/m2".data := by
    rw [List.filter_append, filter_ne_of_isDigit ds ' ' (by decide) hds]
    rfl
  have h3 : (ds ++ "Juta/m2".data).filter (fun c => c != '.') = ds ++ "Juta/m2".data := by
    rw [List.filter_append, filter_ne_of_isDigit ds '.' (by decide) hds]
    rfl
  unfold stripCurrency
  simp only [h1, show " ".data = [' '] from rfl, show ".".data = ['.'] from rfl,
    strings.ReplaceAll_singleton, h2, h3]
  apply strings.TrimSpace_eq_self
  intro c hc
  rcases List.mem_append.mp hc with h | h
  · exact strings.isSpace_of_isDigit (hds c h)
  · have hall : ∀ x ∈ "Juta/m2".data, strings.isSpace x = false := by decide
    exact hall c h

theorem magnitude_juta_per_m2 (ds : List Char) (hds : ∀ c ∈ ds, isDigit c = true) :
    magnitude (ds ++ "Juta/m2".data) = (1000000000, ds ++ "Juta/2".data) := by
  have hm : 'm' ∈ strings.ToLower (ds ++ "Juta/m2".data) :=
    (mem_ToLower_m _).mpr ⟨'m', by simp, Or.inl rfl⟩
  have hrem : regexp.removeAll regexp.miliarOrM (ds ++ "Juta/m2".data) 0 =
      ds ++ "Juta/2".data := by
    rw [regexp.removeAll_digits_head _ _ _ _ hds]
    · rfl
    · intro d t hd
      unfold regexp.miliarOrM
      rw [matchLen_digit_head _ d t hd (by intro x hx; cases hx; decide),
        matchLen_digit_head _ d t hd (by intro x hx; cases hx; decide)]
      rfl
  unfold magnitude
  rw [(Contains_m_iff _).mpr hm, Bool.or_true, if_pos rfl, hrem]

/-- `ParsePrice` on a non-empty run of digits followed by ` Juta/m2`: the multiplier is
1,000,000,000. -/
theorem ParsePrice_juta_per_m2 (ds : List Char) (hne : ds ≠ [])
    (hds : ∀ c ∈ ds, isDigit c = true) :
    (∀ v, Float64.nearest (strconv.digitsValue ds : ℚ) = Float64.finite v →
      ParsePrice (String.mk (ds ++ " Juta/m2".data)) =
        (Float64.nearest (v * (1000000000 : Nat)), none)) ∧
    (Float64.nearest (strconv.digitsValue ds : ℚ) = Float64.inf false →
      ParsePrice (String.mk (ds ++ " Juta/m2".data)) =
        (0, some (GoErr.wrap "parsing number" (strconv.rangeError ds)))) ∧
    (strconv.digitsValue ds ≤ 2 ^ 53 → strconv.digitsValue ds * 1000000000 ≤ 2 ^ 53 →
      ParsePrice (String.mk (ds ++ " Juta/m2".data)) =
        (Float64.finite ((strconv.digitsValue ds : ℚ) * (1000000000 : Nat)), none)) := by
  have hs : String.mk (ds ++ " Juta/m2".data) ≠ "" := by
    intro h
    have := congrArg String.data h
    simp at this
  apply ParsePrice_of_run _ hs 1000000000 (ds ++ "Juta/2".data) ds ds
  · rw [show (String.mk (ds ++ " Juta/m2".data)).data = ds ++ " Juta/m2".data from rfl,
      stripCurrency_juta_per_m2 ds hds, magnitude_juta_per_m2 ds hds]
    rfl
  · have := regexp.findRun_decompose digitOrComma [] ds "Juta/2".data (by simp) hne
      (fun c hc => digitOrComma_of_isDigit (hds c hc)) (by intro c hc; cases hc; decide)
    simpa using this
  · exact hne
  · rw [show ",".data = [','] from rfl, strings.ReplaceAll_singleton]
    exact filter_ne_of_isDigit ds ',' (by decide) hds
  · exact hne
  · exact hds

/-- C24 fails as stated: `"4611686019 Juta/m2"` is parsed without error to
`4611686019000000512`, not to `4611686019 * 1000000000`: the product is rounded to a
`float64`. -/
theorem ParsePrice_juta_per_m2_rounds_product :
    ParsePrice "4611686019 Juta/m2" = (Float64.finite 4611686019000000512, none) ∧
    ParsePrice "4611686019 Juta/m2" ≠ (Float64.finite (4611686019 * 1000000000), none) := by
  have e : String.mk ("4611686019".data ++ " Juta/m2".data) = "4611686019 Juta/m2" := by decide
  have hv : strconv.digitsValue "4611686019".data = 4611686019 := by decide
  have h := (ParsePrice_juta_per_m2 "4611686019".data (by decide) (by decide)).1 4611686019
    (by
      rw [hv]
      have := Float64.isValue_natCast 4611686019 (by norm_num)
      simpa using this)
  rw [e] at h
  have h2 : ParsePrice "4611686019 Juta/m2" = (Float64.finite 4611686019000000512, none) := by
    rw [h]
    have := nearest_4611686019e9
    simp only [Nat.cast_ofNat]
    rw [this]
  refine ⟨h2, ?_⟩
  rw [h2]
  intro hc
  have := Float64.finite.inj (Prod.ext_iff.mp hc).1
  norm_num at this

/-- C24 amended: the second step of `ParsePrice` chooses 1,000,000,000 exactly when the
text left by the first step holds an `m` or an `M`, and 1,000,000 exactly when it holds
neither and contains `juta` in some letter case; so for every non-empty run of digits
`ds`, `ds` followed by ` Juta/m2` is multiplied by 1,000,000,000 and `ds` followed by
` Juta` by 1,000,000: the result is the value of `ds` times the multiplier whenever that
product is at most `2 ^ 53`, and whatever the size it is the value of `ds` rounded to a
`float64` (the error `parsing number` when out of range), times the multiplier, rounded
again. -/
theorem ParsePrice_m_takes_precedence (t ds : List Char) :
    ((magnitude t).1 = 1000000000 ↔ ∃ c ∈ t, c = 'm' ∨ c = 'M') ∧
    ((magnitude t).1 = 1000000 ↔
      (¬ ∃ c ∈ t, c = 'm' ∨ c = 'M') ∧
        strings.Contains (strings.ToLower t) "juta".data = true) ∧
    (ds ≠ [] → (∀ c ∈ ds, isDigit c = true) →
      (strconv.digitsValue ds * 1000000000 ≤ 2 ^ 53 →
        ParsePrice (String.mk (ds ++ " Juta/m2".data)) =
          (Float64.finite ((strconv.digitsValue ds : ℚ) * 1000000000), none)) ∧
      (∀ v, Float64.nearest (strconv.digitsValue ds : ℚ) = Float64.finite v →
        ParsePrice (String.mk (ds ++ " Juta/m2".data)) =
          (Float64.nearest (v * 1000000000), none)) ∧
      (Float64.nearest (strconv.digitsValue ds : ℚ) = Float64.inf false →
        ParsePrice (String.mk (ds ++ " Juta/m2".data)) =
          (0, some (GoErr.wrap "parsing number" (strconv.rangeError ds)))) ∧
      (strconv.digitsValue ds * 1000000 ≤ 2 ^ 53 →
        ParsePrice (String.mk (ds ++ " Juta".data)) =
          (Float64.finite ((strconv.digitsValue ds : ℚ) * 1000000), none)) ∧
      (∀ v, Float64.nearest (strconv.digitsValue ds : ℚ) = Float64.finite v →
        ParsePrice (String.mk (ds ++ " Juta".data)) =
          (Float64.nearest (v * 1000000), none))) := by
  refine ⟨(magnitude_multiplier t).1, (magnitude_multiplier t).2, ?_⟩
  intro hne hds
  obtain ⟨h1, h2, h3⟩ := ParsePrice_juta_per_m2 ds hne hds
  obtain ⟨j1, _, j3⟩ := ParsePrice_digits_suffix ds [] " ".data "Juta".data hne hds (Or.inl rfl)
    (Or.inr rfl) 1000000 (Or.inl ⟨rfl, by decide⟩)
  have es : String.mk ([] ++ ds ++ " ".data ++ "Juta".data) = String.mk (ds ++ " Juta".data) := by
    simp [List.append_assoc]
  rw [es] at j1 j3
  refine ⟨?_, ?_, h2, ?_, ?_⟩
  · intro hp
    have := h3 (le_trans (Nat.le_mul_of_pos_right _ (by norm_num)) hp) hp
    simpa using this
  · intro v hv
    have := h1 v hv
    simpa using this
  · intro hp
    have := j3 (le_trans (Nat.le_mul_of_pos_right _ (by norm_num)) hp) hp
    simpa using this
  · intro v hv
    have := j1 v hv
    simpa using this

/-- Witness for C24: `500 Juta/m2` gives 500,000,000,000 and `500 Juta` gives
500,000,000. -/
theorem ParsePrice_m_takes_precedence_witness :
    ParsePrice "500 Juta/m2" = (500000000000, none) ∧
    ParsePrice "500 Juta" = (500000000, none) := by
  have h := (ParsePrice_m_takes_precedence [] "500".data).2.2 (by decide) (by decide)
  have e1 : String.mk ("500".data ++ " Juta/m2".data) = "500 Juta/m2" := by decide
  have e2 : String.mk ("500".data ++ " Juta".data) = "500 Juta" := by decide
  have v : strconv.digitsValue "500".data = 500 := by decide
  rw [e1, e2, v] at h
  refine ⟨?_, ?_⟩
  · rw [h.1 (by norm_num), Float64.ofNat_eq]
    norm_num
  · rw [h.2.2.2.1 (by norm_num), Float64.ofNat_eq]
    norm_num

end scrape

end HousesPrices

namespace HousesPrices

namespace scrape

end scrape

end HousesPrices
